import Mathlib

/-!
# ShareSeer MCP server: tiered access control

A shallow embedding of the access-control code of the server
(`internal/auth.go`, `internal/handler.go`, `internal/ratelimit.go` and the tool
handlers) together with theorems about it.

Conventions of the embedding.

* Go strings are Lean `String`s; where the code walks a string byte by byte
  (`time.Parse`, `strconv.Atoi`) the embedding walks its list of characters. Every
  byte these functions accept is ASCII, so both walks agree.
* Go `int` values are Lean `Int`s; a difference that can leave the 64-bit range is
  wrapped (`wrap64`).
* `time.Now()` is an explicit argument: the clock reading of the call.
-/

namespace ShareSeer

/-! ## Time -/

/-- A Go `time.Time` without monotonic reading: an instant, given by the seconds
since the Unix epoch and the nanoseconds within the second, and the offset east of
UTC (in seconds) of the value's location at that instant. -/
structure Time where
  sec : Int
  nsec : Nat
  offset : Int
deriving DecidableEq, Repr

/-- The method `Time.After`: whether instant `t` is strictly later than `u`. The
location plays no part. -/
def Time.After (t u : Time) : Bool :=
  decide (t.sec > u.sec) || (decide (t.sec = u.sec) && decide (t.nsec > u.nsec))

/-- The method `Time.Before`: whether instant `t` is strictly earlier than `u`. -/
def Time.Before (t u : Time) : Bool :=
  decide (t.sec < u.sec) || (decide (t.sec = u.sec) && decide (t.nsec < u.nsec))

/-- The method `Time.Equal`: the same instant, whatever the locations. -/
def Time.Equal (t u : Time) : Bool :=
  decide (t.sec = u.sec) && decide (t.nsec = u.nsec)

/-- Leap years of the proleptic Gregorian calendar (`time.isLeap`). -/
def isLeap (year : Int) : Bool :=
  decide (year % 4 = 0) && (decide (year % 100 ≠ 0) || decide (year % 400 = 0))

/-- The table `time.daysBefore`: days of a non-leap year before month `m + 1`. -/
def daysBefore : List Int :=
  [0, 31, 59, 90, 120, 151, 181, 212, 243, 273, 304, 334, 365]

/-- The number of days of month `m` (1 to 12) in `year` (`time.daysIn`). -/
def daysIn (m : Nat) (year : Int) : Int :=
  if m = 2 ∧ isLeap year = true then 29
  else daysBefore.getD m 0 - daysBefore.getD (m - 1) 0

/-- The year the absolute day count of package `time` starts from. -/
def absoluteZeroYear : Int := -292277022399

/-- Days from 1 January of `absoluteZeroYear` to 1 January of `year`
(`time.daysSinceEpoch`). -/
def daysSinceEpoch (year : Int) : Int :=
  let y := year - absoluteZeroYear
  let n400 := y / 400
  let y1 := y - 400 * n400
  let n100 := y1 / 100
  let y2 := y1 - 100 * n100
  let n4 := y2 / 4
  let y3 := y2 - 4 * n4
  146097 * n400 + 36524 * n100 + 1461 * n4 + 365 * y3

/-- Seconds from the absolute epoch to the Unix epoch
(`-(absoluteToInternal + internalToUnix)` of package `time`). -/
def absoluteToUnix : Int := 9223372028715321600

/-- The function `time.Date` in location UTC, for fields that are already in
range (the only way the parser calls it): the instant of the civil date and
time. -/
def Date (year : Int) (month day hour min sec nsec : Nat) : Time :=
  let d := daysSinceEpoch year + daysBefore.getD (month - 1) 0
    + (if isLeap year = true ∧ 3 ≤ month then 1 else 0) + ((day : Int) - 1)
  let abs := d * 86400 + ((hour : Int) * 3600 + (min : Int) * 60 + (sec : Int))
  { sec := abs - absoluteToUnix, nsec := nsec, offset := 0 }

/-! ## Parsing with the layout `2006-01-02T15:04:05Z` -/

/-- A decimal digit, as a byte test (`'0' <= c && c <= '9'`). -/
def isDigitChar (c : Char) : Bool := decide (48 ≤ c.toNat) && decide (c.toNat ≤ 57)

/-- The value of a digit character (`c - '0'`). -/
def digitVal (c : Char) : Nat := c.toNat - 48

/-- The helper `time.getnum`: a one- or two-digit number at the head of `s`;
with `fixed`, exactly two digits are required. -/
def getnum (s : List Char) (fixed : Bool) : Option (Nat × List Char) :=
  match s with
  | [] => none
  | c0 :: rest =>
    if isDigitChar c0 then
      match rest with
      | c1 :: rest1 =>
        if isDigitChar c1 then some (digitVal c0 * 10 + digitVal c1, rest1)
        else if fixed then none else some (digitVal c0, rest)
      | [] => if fixed then none else some (digitVal c0, rest)
    else none

/-- The helper `time.skip` for a one-byte literal that is not a space: the value
must start with it. -/
def skip (value : List Char) (c : Char) : Option (List Char) :=
  match value with
  | [] => none
  | v :: rest => if v = c then some rest else none

/-- The layout element `2006`: four bytes, all digits (`atoi` of `value[0:4]`). -/
def getYear (value : List Char) : Option (Int × List Char) :=
  match value with
  | a :: b :: c :: d :: rest =>
    if isDigitChar a && isDigitChar b && isDigitChar c && isDigitChar d then
      some (((digitVal a * 1000 + digitVal b * 100 + digitVal c * 10 + digitVal d : Nat) : Int),
        rest)
    else none
  | _ => none

/-- The leading run of digits of `s` and what follows it. -/
def spanDigits : List Char → List Char × List Char
  | [] => ([], [])
  | c :: rest =>
    if isDigitChar c then ((spanDigits rest).1.cons c, (spanDigits rest).2)
    else ([], c :: rest)

/-- The decimal value of a list of digits (`atoi` on digits only). -/
def digitsVal (ds : List Char) : Nat := ds.foldl (fun acc c => acc * 10 + digitVal c) 0

/-- A fractional second in the value although the layout has none: after the
seconds, a period or comma followed by at least one digit is read as
nanoseconds (`parseNanoseconds`): the first nine digits count, the others are
dropped. Returns the nanoseconds and the rest of the value. -/
def getFraction (value : List Char) : Nat × List Char :=
  match value with
  | p :: d :: rest =>
    if (p = '.' || p = ',') && isDigitChar d then
      let run := spanDigits (d :: rest)
      let kept := run.1.take 9
      (digitsVal kept * 10 ^ (9 - kept.length), run.2)
    else (0, value)
  | _ => (0, value)

/-- A range test of the parser: the parse goes on only when `ok` holds. -/
def check (ok : Bool) : Option Unit := if ok then some () else none

/-- The end of the parse, once all fields are read: the literal `Z` must end the
value, and the day is validated against the month and the year (`daysIn`)
before `Date` builds the instant. -/
def parseEnd (year : Int) (month day hour min sec nsec : Nat) (v : List Char) :
    Option Time :=
  (skip v 'Z').bind fun v6 =>
  (check v6.isEmpty).bind fun _ =>
  (check (decide (1 ≤ (day : Int)) && decide ((day : Int) ≤ daysIn month year))).bind fun _ =>
  some (Date year month day hour min sec nsec)

/-- The layout elements `15:04:05` and the end of the value: the hour takes one or
two digits, minute and second exactly two; each is checked against its range as
soon as it is read, and a fractional second after the seconds is accepted. -/
def parseClock (year : Int) (month day : Nat) (v : List Char) : Option Time :=
  (getnum v false).bind fun hv =>
  (check (decide (hv.1 < 24))).bind fun _ =>
  (skip hv.2 ':').bind fun v4 =>
  (getnum v4 true).bind fun nv =>
  (check (decide (nv.1 < 60))).bind fun _ =>
  (skip nv.2 ':').bind fun v5 =>
  (getnum v5 true).bind fun sv =>
  (check (decide (sv.1 < 60))).bind fun _ =>
  parseEnd year month day hv.1 nv.1 sv.1 (getFraction sv.2).1 (getFraction sv.2).2

/-- The function `time.Parse` for the layout `2006-01-02T15:04:05Z`: the instant
the value denotes, or `none` where `Parse` returns an error. The year takes four
digits, month and day two; `-`, `T`, `:` and the final `Z` are literals, and the
result is in UTC. -/
def timeParse (value : List Char) : Option Time :=
  (getYear value).bind fun yv =>
  (skip yv.2 '-').bind fun v1 =>
  (getnum v1 true).bind fun mv =>
  (check (decide (1 ≤ mv.1) && decide (mv.1 ≤ 12))).bind fun _ =>
  (skip mv.2 '-').bind fun v2 =>
  (getnum v2 true).bind fun dv =>
  (skip dv.2 'T').bind fun v3 =>
  parseClock yv.1 mv.1 dv.1 v3

/-! ## Tier resolution (`internal/auth.go`) -/

/-- The method `Service.GetUserTier`, with the clock reading `now` of its call to
`time.Now()`. -/
def GetUserTier (now : Time) (premium expirationDate : String) : String :=
  if premium ≠ "true" then "free"
  else if expirationDate = "" then "free"
  else
    match timeParse expirationDate.toList with
    | none => "free"
    | some expiry => if now.After expiry then "free" else "premium"

/-! ## Configuration and users (`internal/config.go`, `internal/models.go`) -/

/-- One tier of `Config.RateLimiting`. -/
structure TierLimit where
  RequestsPerDay : Int
  RequestsPerHour : Int
deriving DecidableEq, Repr

/-- The section `Config.RateLimiting`. -/
structure RateLimitingConfig where
  FreeTier : TierLimit
  PremiumTier : TierLimit
  ProTier : TierLimit
deriving DecidableEq, Repr

/-- One tier of `Config.Tiers`. -/
structure TierAccess where
  DataRangeMonths : Int
  Tools : List String
deriving DecidableEq, Repr

/-- The section `Config.Tiers`. -/
structure TiersConfig where
  Free : TierAccess
  Premium : TierAccess
  Pro : TierAccess
deriving DecidableEq, Repr

/-- The `Config` sections the access control reads (the server, Redis and MCP
sections hold addresses and names only). -/
structure Config where
  RateLimiting : RateLimitingConfig
  Tiers : TiersConfig
deriving DecidableEq, Repr

/-- The type `models.User`. -/
structure User where
  ID : String
  APIKey : String
  Tier : String
  Email : String
  Created : Time
  LastUsed : Time
deriving DecidableEq, Repr

/-- The zero value of `time.Time`: 1 January of year 1, 00:00:00 UTC. -/
def Time.zero : Time := { sec := -62135596800, nsec := 0, offset := 0 }

/-! ## Feature gate (`internal/handler.go`) -/

/-- The loop of `hasToolAccess` over the allowed tools: true at the first entry
that is `"*"` or the tool name. -/
def toolAllowed (toolName : String) : List String → Bool
  | [] => false
  | tool :: rest =>
    if tool = "*" ∨ tool = toolName then true else toolAllowed toolName rest

/-- The method `Handler.hasToolAccess`. -/
def hasToolAccess (config : Config) (user : User) (toolName : String) : Bool :=
  if user.Tier = "free" then toolAllowed toolName config.Tiers.Free.Tools
  else if user.Tier = "premium" then toolAllowed toolName config.Tiers.Premium.Tools
  else if user.Tier = "pro" then toolAllowed toolName config.Tiers.Pro.Tools
  else false

/-! ## The Redis stores

The credential store (database 2 of the local server) and the quota ledger are
Redis databases. A database is modelled by its keyspace; a client call either
reaches the server (`up`) and is answered from the keyspace, or fails. -/

/-- A value held under a Redis key: a string or a hash. -/
inductive RedisValue where
  | str (s : String)
  | hash (fields : List (String × String))
deriving DecidableEq, Repr

/-- A Redis database as a client sees it during one request: whether its calls
reach the server, the keyspace, and the time to live of the keys that have one
(in seconds, as set by `EXPIRE`). -/
structure Redis where
  up : Bool
  data : String → Option RedisValue
  ttl : String → Option Int

/-- What a client call returns beside its value: `redis.Nil` for a missing key,
an error reply of the server, or a failed round trip. -/
inductive RedisError where
  | nil
  | reply (msg : String)
  | conn
deriving DecidableEq, Repr

/-- The command `GET key`. -/
def Redis.Get (r : Redis) (key : String) : Except RedisError String :=
  if r.up then
    match r.data key with
    | none => .error .nil
    | some (.str s) => .ok s
    | some (.hash _) => .error (.reply "WRONGTYPE")
  else .error .conn

/-- The command `HGETALL key`: a missing key is an empty hash, not an error. -/
def Redis.HGetAll (r : Redis) (key : String) : Except RedisError (List (String × String)) :=
  if r.up then
    match r.data key with
    | none => .ok []
    | some (.hash fields) => .ok fields
    | some (.str _) => .error (.reply "WRONGTYPE")
  else .error .conn

/-- Indexing a Go `map[string]string`: the value of the field, `""` when the
field is absent. -/
def mapGet (m : List (String × String)) (field : String) : String :=
  match m.find? (fun kv => kv.1 = field) with
  | some kv => kv.2
  | none => ""

/-! ## Authentication (`internal/auth.go`) -/

/-- The method `Service.ValidateAPIKey` on the credential store `users`, with
the clock reading `now`. -/
def ValidateAPIKey (users : Redis) (now : Time) (apiKey : String) : Except String User :=
  match users.Get ("api_key:" ++ apiKey) with
  | .error _ => .error "invalid API key"
  | .ok email =>
    match users.HGetAll ("email:" ++ email) with
    | .error _ => .error "user not found"
    | .ok userMap =>
      .ok { ID := email, APIKey := apiKey,
            Tier := GetUserTier now (mapGet userMap "is_premium") (mapGet userMap "exp_date"),
            Email := email, Created := now, LastUsed := now }

/-- The method `Handler.validateAndGetUser`. -/
def validateAndGetUser (users : Redis) (now : Time) (apiKey : String) : Except String User :=
  if apiKey = "" then
    .ok { ID := "anonymous", APIKey := "", Tier := "free", Email := "",
          Created := Time.zero, LastUsed := Time.zero }
  else ValidateAPIKey users now apiKey

/-! ## Formatting instants (`Time.Format`, `Time.Truncate`, `Time.Unix`) -/

/-- The character of a decimal digit. -/
def digitChar (d : Nat) : Char := Char.ofNat (48 + d % 10)

/-- The decimal digits of `n` in front of `acc`; `fuel` bounds the number of
digits. -/
def decimalAux : Nat → Nat → List Char → List Char
  | 0, _, acc => acc
  | fuel + 1, n, acc =>
    if n < 10 then digitChar n :: acc
    else decimalAux fuel (n / 10) (digitChar n :: acc)

/-- The decimal text of a natural number, without leading zeros (`"0"` for 0). -/
def decimal (n : Nat) : List Char := decimalAux (n + 1) n []

/-- The helper `time.appendInt`: the decimal text of `x`, padded with zeros to
`width` digits, after a minus sign when `x` is negative. -/
def appendInt (x : Int) (width : Nat) : List Char :=
  let ds := decimal x.natAbs
  (if x < 0 then ['-'] else []) ++ List.replicate (width - ds.length) '0' ++ ds

/-- The absolute seconds of `t` as its location shows it (`Time.abs`): seconds
since the absolute epoch, shifted by the zone offset. -/
def Time.abs (t : Time) : Int := t.sec + t.offset + absoluteToUnix

/-- The year and the day within the year (from 0) of an absolute time
(`absDate`, first half). -/
def absYearDay (abs : Int) : Int × Int :=
  let d := abs / 86400
  let n400 := d / 146097
  let d1 := d - 146097 * n400
  let n100 := d1 / 36524 - (d1 / 36524) / 4
  let d2 := d1 - 36524 * n100
  let n4 := d2 / 1461
  let d3 := d2 - 1461 * n4
  let n1 := d3 / 365 - (d3 / 365) / 4
  (400 * n400 + 100 * n100 + 4 * n4 + n1 + absoluteZeroYear, d3 - 365 * n1)

/-- The month (1 to 12) and the day of the month of day `yday` of a non-leap
year layout (`absDate`, second half): the month is estimated as `day / 31` and
moved on by one when the day is past its end. -/
def monthDay (day : Int) : Int × Int :=
  let m := (day / 31).toNat
  let e := daysBefore.getD (m + 1) 0
  if day ≥ e then ((m : Int) + 2, day - e + 1)
  else ((m : Int) + 1, day - daysBefore.getD m 0 + 1)

/-- The function `absDate`: year, month and day of an absolute time. -/
def absDate (abs : Int) : Int × Int × Int :=
  let yd := absYearDay abs
  if isLeap yd.1 = true ∧ yd.2 = 59 then (yd.1, 2, 29)
  else
    let md := monthDay (if isLeap yd.1 = true ∧ yd.2 > 59 then yd.2 - 1 else yd.2)
    (yd.1, md.1, md.2)

/-- The call `t.Format("20060102")`: year, month and day of `t` in its own
location. -/
def formatDay (t : Time) : String :=
  let ymd := absDate t.abs
  String.mk (appendInt ymd.1 4 ++ appendInt ymd.2.1 2 ++ appendInt ymd.2.2 2)

/-- The call `t.Format("2006010215")`: year, month, day and hour of `t` in its
own location. -/
def formatHour (t : Time) : String :=
  let ymd := absDate t.abs
  String.mk (appendInt ymd.1 4 ++ appendInt ymd.2.1 2 ++ appendInt ymd.2.2 2
    ++ appendInt (t.abs % 86400 / 3600) 2)

/-- The call `t.Truncate(d).Add(d).Unix()` for a duration `d` of `dsec` whole
seconds: `Truncate` rounds the time since the zero time (1 January of year 1,
UTC) down to a multiple of `d`. -/
def nextBoundary (t : Time) (dsec : Int) : Int :=
  t.sec - (t.sec + 62135596800) % dsec + dsec

/-! ## `strconv.Atoi` -/

/-- The function `strconv.Atoi` on a 64-bit platform, on the bytes of its
argument: the value and whether an error is returned. A syntax error gives 0; a
value out of range gives the nearest 64-bit value. -/
def atoiChars (cs : List Char) : Int × Bool :=
  let neg := decide (cs.head? = some '-')
  let ds := if cs.head? = some '-' ∨ cs.head? = some '+' then cs.tail else cs
  if ds.isEmpty || !(ds.all isDigitChar) then (0, true)
  else if neg then
    (if digitsVal ds > 2 ^ 63 then (-(2 ^ 63), true) else (-(digitsVal ds : Int), false))
  else
    (if digitsVal ds ≥ 2 ^ 63 then (2 ^ 63 - 1, true) else ((digitsVal ds : Int), false))

/-- The function `strconv.Atoi`. -/
def Atoi (s : String) : Int × Bool := atoiChars s.toList

/-! ## The persistent rate limiter (`internal/ratelimit.go`) -/

/-- A Go `int` result on a 64-bit platform: the value wrapped into the signed
64-bit range. -/
def wrap64 (x : Int) : Int := (x + 2 ^ 63) % 2 ^ 64 - 2 ^ 63

/-- The type `RateLimitInfo`. -/
structure RateLimitInfo where
  HourlyLimit : Int
  DailyLimit : Int
  HourlyUsed : Int
  DailyUsed : Int
  HourlyRemaining : Int
  DailyRemaining : Int
  ResetHour : Int
  ResetDay : Int
deriving DecidableEq, Repr

/-- The method `RateLimiter.getTierLimits`: the pair `hourly`, `daily` of the
map it returns. -/
def getTierLimits (config : Config) (tier : String) : Int × Int :=
  if tier = "premium" then
    (config.RateLimiting.PremiumTier.RequestsPerHour, config.RateLimiting.PremiumTier.RequestsPerDay)
  else if tier = "pro" then
    (config.RateLimiting.ProTier.RequestsPerHour, config.RateLimiting.ProTier.RequestsPerDay)
  else
    (config.RateLimiting.FreeTier.RequestsPerHour, config.RateLimiting.FreeTier.RequestsPerDay)

/-- The key of the hourly counter of `apiKey` at `now`. -/
def hourKey (apiKey : String) (now : Time) : String :=
  "rate_limit:hourly:" ++ apiKey ++ ":" ++ formatHour now

/-- The key of the daily counter of `apiKey` at `now`. -/
def dayKey (apiKey : String) (now : Time) : String :=
  "rate_limit:daily:" ++ apiKey ++ ":" ++ formatDay now

/-- The error `Pipeline.Exec` returns: that of the first command that failed,
`redis.Nil` of a `GET` on a missing key included. -/
def firstErr (h d : Except RedisError String) : Option RedisError :=
  match h, d with
  | .error e, _ => some e
  | .ok _, .error e => some e
  | .ok _, .ok _ => none

/-- The usages `checkRateLimit` reads: both are 0 unless `Exec` returns no
error, and then each is the `Atoi` value of its counter. -/
def readUsage (rdb : Redis) (hKey dKey : String) : Int × Int :=
  let hourlyCmd := rdb.Get hKey
  let dailyCmd := rdb.Get dKey
  match firstErr hourlyCmd dailyCmd with
  | some _ => (0, 0)
  | none =>
    ((match hourlyCmd with | .ok v => (Atoi v).1 | .error _ => 0),
     (match dailyCmd with | .ok v => (Atoi v).1 | .error _ => 0))

/-- The method `RateLimiter.checkRateLimit` on the quota ledger `rdb`, with the
clock reading `now`. -/
def checkRateLimit (config : Config) (rdb : Redis) (now : Time) (apiKey tier : String) :
    RateLimitInfo × Bool :=
  let used := readUsage rdb (hourKey apiKey now) (dayKey apiKey now)
  let limits := getTierLimits config tier
  ({ HourlyLimit := limits.1, DailyLimit := limits.2,
     HourlyUsed := used.1, DailyUsed := used.2,
     HourlyRemaining := wrap64 (limits.1 - used.1),
     DailyRemaining := wrap64 (limits.2 - used.2),
     ResetHour := nextBoundary now 3600, ResetDay := nextBoundary now 86400 },
   decide (used.1 < limits.1) && decide (used.2 < limits.2))

/-- The integer the bytes of a Redis string hold for `INCR`: canonical decimal
text (no plus sign, no leading zero, no `-0`) of a 64-bit value. -/
def redisIntChars (cs : List Char) : Option Int :=
  let neg := decide (cs.head? = some '-')
  let ds := if neg then cs.tail else cs
  if ds.isEmpty || !(ds.all isDigitChar) then none
  else if ds.head? = some '0' then (if cs = ['0'] then some 0 else none)
  else if neg then (if digitsVal ds > 2 ^ 63 then none else some (-(digitsVal ds : Int)))
  else (if digitsVal ds ≥ 2 ^ 63 then none else some (digitsVal ds : Int))

/-- The integer a Redis string holds for `INCR`. -/
def redisInt (s : String) : Option Int := redisIntChars s.toList

/-- The decimal text of an integer: a minus sign for a negative one, then the
digits. -/
def itoaChars (n : Int) : List Char :=
  (if n < 0 then ['-'] else []) ++ decimal n.natAbs

/-- The decimal text of an integer, as Redis stores a counter. -/
def itoa (n : Int) : String := String.mk (itoaChars n)

/-- The command `INCR key` on a keyspace: a missing key counts from 0; the
value is left as it is when it is not an integer string or would overflow. -/
def incrData (data : String → Option RedisValue) (key : String) : String → Option RedisValue :=
  match data key with
  | none => fun k => if k = key then some (.str "1") else data k
  | some (.str s) =>
    match redisInt s with
    | some n =>
      if n < 2 ^ 63 - 1 then fun k => if k = key then some (.str (itoa (n + 1))) else data k
      else data
    | none => data
  | some (.hash _) => data

/-- The commands `INCR key` and `EXPIRE key seconds` of one pipeline, applied
by the server one after the other. -/
def incrExpire (r : Redis) (key : String) (seconds : Int) : Redis :=
  let data := incrData r.data key
  { r with data := data,
           ttl := fun k => if k = key ∧ (data key).isSome then some seconds else r.ttl k }

/-- The method `RateLimiter.incrementUsage` with the clock reading `now`: one
pipeline of `INCR` and `EXPIRE` for the hourly and the daily key. Its result is
not looked at; when the round trip fails nothing is applied. -/
def incrementUsage (rdb : Redis) (now : Time) (apiKey : String) : Redis :=
  if rdb.up then
    incrExpire (incrExpire rdb (hourKey apiKey now) 3600) (dayKey apiKey now) 86400
  else rdb

/-! ## Requests -/

/-- A decoded JSON value (`interface{}`): a string, a number, an object, or
anything else. A number is held as the integer `int(x)` that the code converts it
to. -/
inductive Value where
  | str (s : String)
  | num (n : Int)
  | obj (fields : List (String × Value))
  | other

/-- A Go `map[string]interface{}`. -/
abbrev Args := List (String × Value)

/-- The value under a key of a map, if the key is present. -/
def lookup (m : Args) (key : String) : Option Value :=
  match m.find? (fun kv => kv.1 = key) with
  | some kv => some kv.2
  | none => none

/-- The type assertion `m[key].(string)`: the string and whether the assertion
holds (`""` and `false` otherwise). -/
def argString (m : Args) (key : String) : String × Bool :=
  match lookup m key with
  | some (.str s) => (s, true)
  | _ => ("", false)

/-- The type assertion `m[key].(float64)` followed by `int(x)`. -/
def argInt (m : Args) (key : String) : Option Int :=
  match lookup m key with
  | some (.num n) => some n
  | _ => none

/-- The function `strings.Contains` on character lists. -/
def containsSub : List Char → List Char → Bool
  | [], sub => sub.isEmpty
  | c :: s, sub => sub.isPrefixOf (c :: s) || containsSub s sub

/-- What the middleware reads of a `gin.Context`: the `Authorization` header and
the `api_key` query parameter (`""` when absent), the URL path and the method,
the `api_key` form field if there is one, and the JSON body if it decodes. -/
structure Request where
  Authorization : String
  QueryAPIKey : String
  Path : String
  Method : String
  PostFormAPIKey : Option String
  Body : Option Args

/-- The lookup of the key in a JSON body: `body["api_key"]` if it is a string,
else `body["arguments"]["api_key"]` if that is one, else `""`. -/
def bodyAPIKey (body : Args) : String :=
  match lookup body "api_key" with
  | some (.str k) => k
  | _ =>
    match lookup body "arguments" with
    | some (.obj args) => (argString args "api_key").1
    | _ => ""

/-- The method `RateLimiter.extractAPIKey`. -/
def extractAPIKey (c : Request) : String :=
  if "Bearer ".toList.isPrefixOf c.Authorization.toList then
    String.mk (c.Authorization.toList.drop 7)
  else if c.QueryAPIKey ≠ "" then c.QueryAPIKey
  else if containsSub c.Path.toList "/mcp/tools/call".toList then ""
  else if c.Method = "POST" then
    match c.PostFormAPIKey with
    | some k => k
    | none =>
      match c.Body with
      | some body => bodyAPIKey body
      | none => ""
  else ""

/-- How the middleware leaves a request: passed on without a key, aborted with
status 401, aborted with status 429 and the rate-limit headers, or passed on
with the headers set and the user and key stored in the context. -/
inductive Verdict where
  | passed
  | unauthorized
  | tooManyRequests (info : RateLimitInfo)
  | admitted (info : RateLimitInfo) (user : User) (apiKey : String)
deriving DecidableEq, Repr

/-- The handler function `RateLimiter.Middleware` returns, up to its call of
`c.Next()`: the verdict and the quota ledger it leaves. `tAuth`, `tCheck` and
`tIncr` are the clock readings of `ValidateAPIKey`, `checkRateLimit` and
`incrementUsage`. -/
def Middleware (config : Config) (users rdb : Redis) (tAuth tCheck tIncr : Time)
    (c : Request) : Verdict × Redis :=
  let apiKey := extractAPIKey c
  if apiKey = "" then (.passed, rdb)
  else
    match ValidateAPIKey users tAuth apiKey with
    | .error _ => (.unauthorized, rdb)
    | .ok user =>
      let chk := checkRateLimit config rdb tCheck apiKey user.Tier
      if chk.2 = false then (.tooManyRequests chk.1, rdb)
      else (.admitted chk.1 user apiKey, incrementUsage rdb tIncr apiKey)

/-! ## The in-process rate limiter (`internal/handler.go`) -/

/-- The number of token units that make one token. Tokens are counted in units
of `1 / (3600 * 10^9)` token, so that a bucket refilled at `r` tokens per hour
gains exactly `r` units per nanosecond. -/
def tokenUnit : Int := 3600 * 10 ^ 9

/-- Modelled from the spec: the token bucket `rate.Limiter` of
`golang.org/x/time/rate`, which is not part of the repository: a bucket of
capacity `burst`, refilled at `perHour / 3600` tokens per second, that holds
`tokens` units since the instant `last` (in nanoseconds since the Unix epoch).
The arithmetic is exact where the library uses `float64`. -/
structure Limiter where
  perHour : Int
  burst : Int
  tokens : Int
  last : Int
deriving DecidableEq, Repr

/-- The instant of a clock reading in nanoseconds since the Unix epoch. -/
def Time.nanos (t : Time) : Int := t.sec * 10 ^ 9 + (t.nsec : Int)

/-- Modelled from the spec: `rate.NewLimiter(limit, burst)`, a full bucket. -/
def NewLimiter (perHour burst : Int) (now : Int) : Limiter :=
  { perHour := perHour, burst := burst, tokens := burst * tokenUnit, last := now }

/-- Modelled from the spec: the tokens of the bucket at `now`: those it held,
plus the refill since `last`, capped at the capacity (`Limiter.advance`). -/
def Limiter.advance (lim : Limiter) (now : Int) : Int :=
  min (lim.burst * tokenUnit) (lim.tokens + (now - min lim.last now) * lim.perHour)

/-- Modelled from the spec: `Limiter.Allow` at `now`: when the bucket holds at
least one token, the call takes it and reports true; otherwise the bucket is left
as it is and the call reports false. -/
def Limiter.Allow (lim : Limiter) (now : Int) : Bool × Limiter :=
  if tokenUnit ≤ lim.advance now then
    (true, { lim with tokens := lim.advance now - tokenUnit, last := now })
  else (false, lim)

/-- The type `RateLimiter` of package `handlers`: the map of the limiters. -/
structure RateLimiter where
  limiters : String → Option Limiter

/-- The function `NewRateLimiter`: no limiter yet. -/
def NewRateLimiter : RateLimiter := { limiters := fun _ => none }

/-- The requests per hour `RateLimiter.Allow` gives a new limiter of a tier. -/
def tierPerHour (tier : String) : Int :=
  if tier = "free" then 10
  else if tier = "premium" then 100
  else if tier = "pro" then 1000
  else 5

/-- The key of the limiter of a user and tier (`fmt.Sprintf("%s:%s", ...)`). -/
def limiterKey (userID tier : String) : String := userID ++ ":" ++ tier

/-- The method `RateLimiter.Allow` with the clock reading `now`: the limiter of
the key is created on first use with burst 10, then asked. -/
def RateLimiter.Allow (rl : RateLimiter) (now : Time) (userID tier : String) :
    Bool × RateLimiter :=
  let key := limiterKey userID tier
  let limiter :=
    match rl.limiters key with
    | some l => l
    | none => NewLimiter (tierPerHour tier) 10 now.nanos
  let r := limiter.Allow now.nanos
  (r.1, { limiters := fun k => if k = key then some r.2 else rl.limiters k })

/-! ## The data provider

The handlers fetch their data through `h.redisClient`, a client of package
`internal/redis` whose code is not part of the repository. It is a parameter of
the embedding: one function per operation, giving the result or the error
message. Every operation a handler invokes is recorded as a `Call`. -/

/-- A Go `map[string]string`. -/
abbrev Record := List (String × String)

/-- The operations of the data provider the handlers use. `GetCompanyName`
gives the name it returns; the handlers do not look at its error. -/
structure DataProvider where
  GetCIKByTicker : String → Except String String
  GetCompanyName : String → String
  GetCompanyByTicker : String → Except String Record
  SearchCompanies : String → Int → Except String (List Record)
  GetCompanyFilings : String → Int → Except String (List Args)
  GetInsiderTransactions : String → Int → Except String (List Record)
  ZRevRange : String → Int → Int → Except String (List String)
  HGetAll : String → Except String Record
  GetLargestDailyTransactions : String → Int → Int → Except String (List Record)
  GetLargestWeeklyTransactions :
    String → Int → Int → Int → Except String (List Record × Int × String × String)

/-- An invocation of a data-provider operation, with its arguments. -/
inductive Call where
  | GetCIKByTicker (ticker : String)
  | GetCompanyName (cik : String)
  | GetCompanyByTicker (ticker : String)
  | SearchCompanies (query : String) (limit : Int)
  | GetCompanyFilings (cik : String) (limit : Int)
  | GetInsiderTransactions (cik : String) (limit : Int)
  | ZRevRange (key : String) (start stop : Int)
  | HGetAll (key : String)
  | GetLargestDailyTransactions (txType : String) (offset limit : Int)
  | GetLargestWeeklyTransactions (txType : String) (weekOffset offset limit : Int)
deriving DecidableEq, Repr

/-- What a handler has fetched from the data provider and formats into the
text of a successful result. The formatting itself is not modelled. -/
inductive Listing where
  | companies (query : String) (companies : List Record)
  | companyInfo (ticker : String) (company : Record)
  | companyFilings (companyName : String) (filings : List Args)
  | recentFilings (days : List (String × List String))
  | insiderTransactions (companyName : String) (transactions : List Record)
  | recentInsiderActivity (days : List (String × List Record))
  | largestDaily (txType : String) (offset limit : Int) (transactions : List Record)
  | largestWeekly (txType : String) (weekOffset offset limit : Int)
      (transactions : List Record) (targetWeek : Int) (currentDate previousDate : String)

/-- The type `models.ToolResult` with its single text item: an error result
(`IsError` set) with its text, a plain message, or the formatted data of a
listing for a user of the given tier. -/
inductive ToolResult where
  | error (text : String)
  | message (text : String)
  | data (listing : Listing) (tier : String)

/-- Whether a result carries data fetched from the provider. -/
def ToolResult.isData : ToolResult → Bool
  | .data _ _ => true
  | _ => false

/-- The method `Handler.authError`. -/
def authError : ToolResult :=
  .error "Authentication required. Get a free API key at shareseer.com/mcp"

/-- The method `Handler.rateLimitError`. -/
def rateLimitError : ToolResult :=
  .error ("Rate limit exceeded. Upgrade to ShareSeer Premium for higher limits at "
    ++ "shareseer.com/upgrade")

/-- The method `Handler.tierRestrictedError`. -/
def tierRestrictedError (feature : String) : ToolResult :=
  .error (feature
    ++ " is available in ShareSeer Premium. Upgrade at shareseer.com/upgrade?source=mcp")

/-- The type `Handler`: the configuration, the data provider, the credential
store of the authentication service, and the in-process rate limiter. -/
structure Handler where
  config : Config
  redisClient : DataProvider
  users : Redis
  rateLimiter : RateLimiter

/-- What a call of a tool handler amounts to: the result it returns, the
data-provider operations it has invoked, in order, and the rate limiter it
leaves. -/
structure Outcome where
  result : ToolResult
  calls : List Call
  rateLimiter : RateLimiter

/-! ## Filings handlers (`internal/filings.go`) -/

/-- The method `Handler.GetCompanyFilings`, with the clock reading `now`. -/
def GetCompanyFilings (h : Handler) (now : Time) (args : Args) : Outcome :=
  let ticker := argString args "ticker"
  if ticker.2 = false ∨ ticker.1 = "" then
    ⟨.error "Error: 'ticker' parameter is required", [], h.rateLimiter⟩
  else
    match h.redisClient.GetCIKByTicker ticker.1 with
    | .error _ =>
      ⟨.error ("Company '" ++ ticker.1 ++ "' not found"), [.GetCIKByTicker ticker.1],
        h.rateLimiter⟩
    | .ok cik =>
      let limit := (argInt args "limit").getD 10
      match validateAndGetUser h.users now (argString args "api_key").1 with
      | .error _ => ⟨authError, [.GetCIKByTicker ticker.1], h.rateLimiter⟩
      | .ok user =>
        let al := h.rateLimiter.Allow now user.ID user.Tier
        if al.1 = false then ⟨rateLimitError, [.GetCIKByTicker ticker.1], al.2⟩
        else if hasToolAccess h.config user "get_company_filings" = false then
          ⟨tierRestrictedError "Company filings history", [.GetCIKByTicker ticker.1], al.2⟩
        else
          match h.redisClient.GetCompanyFilings cik limit with
          | .error err =>
            ⟨.error ("Error retrieving filings: " ++ err),
              [.GetCIKByTicker ticker.1, .GetCompanyFilings cik limit], al.2⟩
          | .ok filings =>
            if filings.length = 0 then
              ⟨.message "No filings found for this company",
                [.GetCIKByTicker ticker.1, .GetCompanyFilings cik limit], al.2⟩
            else
              let name := h.redisClient.GetCompanyName cik
              ⟨.data (.companyFilings (if name = "" then "Company" else name) filings) user.Tier,
                [.GetCIKByTicker ticker.1, .GetCompanyFilings cik limit, .GetCompanyName cik],
                al.2⟩

/-- The loop of `GetRecentFilings` over the keys of the recent days: the top
five filings of each day are fetched; a day whose fetch fails or that has no
filing is left out. Gives the operations invoked and the days listed. -/
def recentFilingsLoop (p : DataProvider) : List String → List Call × List (String × List String)
  | [] => ([], [])
  | filingKey :: rest =>
    let r := recentFilingsLoop p rest
    match p.ZRevRange filingKey 0 4 with
    | .error _ => (.ZRevRange filingKey 0 4 :: r.1, r.2)
    | .ok dailyFilings =>
      (.ZRevRange filingKey 0 4 :: r.1,
        if dailyFilings.length > 0 then (filingKey, dailyFilings) :: r.2 else r.2)

/-- The method `Handler.GetRecentFilings`, with the clock reading `now`. -/
def GetRecentFilings (h : Handler) (now : Time) (args : Args) : Outcome :=
  let limit := (argInt args "limit").getD 20
  match validateAndGetUser h.users now (argString args "api_key").1 with
  | .error _ => ⟨authError, [], h.rateLimiter⟩
  | .ok user =>
    let al := h.rateLimiter.Allow now user.ID user.Tier
    if al.1 = false then ⟨rateLimitError, [], al.2⟩
    else if hasToolAccess h.config user "get_recent_filings" = false then
      ⟨tierRestrictedError "Recent filings feed", [], al.2⟩
    else
      match h.redisClient.ZRevRange "recent:filings" 0 (wrap64 (limit - 1)) with
      | .error err =>
        ⟨.error ("Error retrieving recent filings: " ++ err),
          [.ZRevRange "recent:filings" 0 (wrap64 (limit - 1))], al.2⟩
      | .ok recentFilings =>
        let days := recentFilingsLoop h.redisClient recentFilings
        ⟨.data (.recentFilings days.2) user.Tier,
          .ZRevRange "recent:filings" 0 (wrap64 (limit - 1)) :: days.1, al.2⟩

/-! ## Insider handlers (`internal/insider.go`) -/

/-- The method `Handler.GetInsiderTransactions`, with the clock reading `now`. -/
def GetInsiderTransactions (h : Handler) (now : Time) (args : Args) : Outcome :=
  let ticker := argString args "ticker"
  if ticker.2 = false ∨ ticker.1 = "" then
    ⟨.error "Error: 'ticker' parameter is required", [], h.rateLimiter⟩
  else
    match h.redisClient.GetCIKByTicker ticker.1 with
    | .error _ =>
      ⟨.error ("Company '" ++ ticker.1 ++ "' not found"), [.GetCIKByTicker ticker.1],
        h.rateLimiter⟩
    | .ok cik =>
      let limit := (argInt args "limit").getD 10
      match validateAndGetUser h.users now (argString args "api_key").1 with
      | .error _ => ⟨authError, [.GetCIKByTicker ticker.1], h.rateLimiter⟩
      | .ok user =>
        let al := h.rateLimiter.Allow now user.ID user.Tier
        if al.1 = false then ⟨rateLimitError, [.GetCIKByTicker ticker.1], al.2⟩
        else if hasToolAccess h.config user "get_insider_transactions" = false then
          ⟨tierRestrictedError "Insider transaction history", [.GetCIKByTicker ticker.1],
            al.2⟩
        else
          let companyName := h.redisClient.GetCompanyName cik
          match h.redisClient.GetInsiderTransactions cik limit with
          | .error err =>
            ⟨.error ("Error retrieving insider transactions: " ++ err),
              [.GetCIKByTicker ticker.1, .GetCompanyName cik,
                .GetInsiderTransactions cik limit], al.2⟩
          | .ok transactions =>
            ⟨(if transactions.length = 0 then
                .message ("No insider transactions found for " ++ companyName)
              else if (transactions.head?.getD []).length = 0 then
                .message ("Found " ++ String.mk (decimal transactions.length)
                  ++ " transaction keys but data is empty. First key: ")
              else .data (.insiderTransactions companyName transactions) user.Tier),
              [.GetCIKByTicker ticker.1, .GetCompanyName cik,
                .GetInsiderTransactions cik limit], al.2⟩

/-- The inner loop of `GetRecentInsiderActivity` over the transaction keys of a
day: each transaction is fetched; one whose fetch fails is left out. -/
def transactionsLoop (p : DataProvider) : List String → List Call × List Record
  | [] => ([], [])
  | transactionKey :: rest =>
    let r := transactionsLoop p rest
    match p.HGetAll transactionKey with
    | .error _ => (.HGetAll transactionKey :: r.1, r.2)
    | .ok transactionData => (.HGetAll transactionKey :: r.1, transactionData :: r.2)

/-- The outer loop of `GetRecentInsiderActivity` over the keys of the recent
days: the top ten transaction keys of each day are fetched, then the
transactions of a day that has some. -/
def recentInsidersLoop (p : DataProvider) :
    List String → List Call × List (String × List Record)
  | [] => ([], [])
  | insiderKey :: rest =>
    let r := recentInsidersLoop p rest
    match p.ZRevRange insiderKey 0 9 with
    | .error _ => (.ZRevRange insiderKey 0 9 :: r.1, r.2)
    | .ok dailyTransactions =>
      if dailyTransactions.length > 0 then
        let t := transactionsLoop p dailyTransactions
        (.ZRevRange insiderKey 0 9 :: (t.1 ++ r.1), (insiderKey, t.2) :: r.2)
      else (.ZRevRange insiderKey 0 9 :: r.1, r.2)

/-- The method `Handler.GetRecentInsiderActivity`, with the clock reading
`now`. -/
def GetRecentInsiderActivity (h : Handler) (now : Time) (args : Args) : Outcome :=
  let limit := (argInt args "limit").getD 15
  match validateAndGetUser h.users now (argString args "api_key").1 with
  | .error _ => ⟨authError, [], h.rateLimiter⟩
  | .ok user =>
    let al := h.rateLimiter.Allow now user.ID user.Tier
    if al.1 = false then ⟨rateLimitError, [], al.2⟩
    else if hasToolAccess h.config user "get_recent_insider_activity" = false then
      ⟨tierRestrictedError "Recent insider activity feed", [], al.2⟩
    else
      match h.redisClient.ZRevRange "recent:insiders" 0 (wrap64 (limit - 1)) with
      | .error err =>
        ⟨.error ("Error retrieving recent insider activity: " ++ err),
          [.ZRevRange "recent:insiders" 0 (wrap64 (limit - 1))], al.2⟩
      | .ok recentInsiders =>
        let days := recentInsidersLoop h.redisClient recentInsiders
        ⟨.data (.recentInsiderActivity days.2) user.Tier,
          .ZRevRange "recent:insiders" 0 (wrap64 (limit - 1)) :: days.1, al.2⟩

/-! ## Company handlers (`internal/companies.go`) -/

/-- The method `Handler.SearchCompanies`, with the clock reading `now`. -/
def SearchCompanies (h : Handler) (now : Time) (args : Args) : Outcome :=
  let query := argString args "query"
  if query.2 = false ∨ query.1 = "" then
    ⟨.error "Error: 'query' parameter is required", [], h.rateLimiter⟩
  else
    let limit := (argInt args "limit").getD 10
    match validateAndGetUser h.users now (argString args "api_key").1 with
    | .error err => ⟨.error ("Authentication error: " ++ err), [], h.rateLimiter⟩
    | .ok user =>
      let al := h.rateLimiter.Allow now user.ID user.Tier
      if al.1 = false then ⟨rateLimitError, [], al.2⟩
      else
        match h.redisClient.SearchCompanies query.1 limit with
        | .error err =>
          ⟨.error ("Search error: " ++ err), [.SearchCompanies query.1 limit], al.2⟩
        | .ok companies =>
          ⟨(if companies.length = 0 then
              .message ("No companies found matching '" ++ query.1 ++ "'")
            else .data (.companies query.1 companies) user.Tier),
            [.SearchCompanies query.1 limit], al.2⟩

/-- The method `Handler.GetCompanyInfo`, with the clock reading `now`. -/
def GetCompanyInfo (h : Handler) (now : Time) (args : Args) : Outcome :=
  let ticker := argString args "ticker"
  if ticker.2 = false ∨ ticker.1 = "" then
    ⟨.error "Error: 'ticker' parameter is required", [], h.rateLimiter⟩
  else
    match validateAndGetUser h.users now (argString args "api_key").1 with
    | .error _ => ⟨authError, [], h.rateLimiter⟩
    | .ok user =>
      let al := h.rateLimiter.Allow now user.ID user.Tier
      if al.1 = false then ⟨rateLimitError, [], al.2⟩
      else
        match h.redisClient.GetCompanyByTicker ticker.1 with
        | .error _ =>
          ⟨.message ("Company '" ++ ticker.1 ++ "' not found"),
            [.GetCompanyByTicker ticker.1], al.2⟩
        | .ok company =>
          ⟨.data (.companyInfo ticker.1 company) user.Tier,
            [.GetCompanyByTicker ticker.1], al.2⟩

/-! ## Largest-transaction handlers (`internal/largest.go`) -/

/-- The free-tier cap on the number of results: at most 3. -/
def freeLimit (tier : String) (limit : Int) : Int :=
  if tier = "free" then (if limit > 3 then 3 else limit) else limit

/-- The free-tier rule on an offset (pagination or week): a positive offset is
reset to 0. -/
def freeOffset (tier : String) (offset : Int) : Int :=
  if tier = "free" then (if offset > 0 then 0 else offset) else offset

/-- The method `Handler.GetLargestDailyTransactions`, with the clock reading
`now`. -/
def GetLargestDailyTransactions (h : Handler) (now : Time) (args : Args) : Outcome :=
  let txType := argString args "type"
  if txType.2 = false ∨ (txType.1 ≠ "buyers" ∧ txType.1 ≠ "sellers") then
    ⟨.error "Error: 'type' parameter is required and must be 'buyers' or 'sellers'", [],
      h.rateLimiter⟩
  else
    let offset := (argInt args "offset").getD 0
    let limit := (argInt args "limit").getD 10
    match validateAndGetUser h.users now (argString args "api_key").1 with
    | .error _ => ⟨authError, [], h.rateLimiter⟩
    | .ok user =>
      let al := h.rateLimiter.Allow now user.ID user.Tier
      if al.1 = false then ⟨rateLimitError, [], al.2⟩
      else
        let limit := freeLimit user.Tier limit
        let offset := freeOffset user.Tier offset
        match h.redisClient.GetLargestDailyTransactions txType.1 offset limit with
        | .error err =>
          ⟨.error ("Error retrieving largest daily " ++ txType.1 ++ ": " ++ err),
            [.GetLargestDailyTransactions txType.1 offset limit], al.2⟩
        | .ok transactions =>
          ⟨(if transactions.length = 0 then
              .message ("No largest daily " ++ txType.1 ++ " found")
            else .data (.largestDaily txType.1 offset limit transactions) user.Tier),
            [.GetLargestDailyTransactions txType.1 offset limit], al.2⟩

/-- The method `Handler.GetLargestWeeklyTransactions`, with the clock reading
`now`. -/
def GetLargestWeeklyTransactions (h : Handler) (now : Time) (args : Args) : Outcome :=
  let txType := argString args "type"
  if txType.2 = false ∨ (txType.1 ≠ "buyers" ∧ txType.1 ≠ "sellers") then
    ⟨.error "Error: 'type' parameter is required and must be 'buyers' or 'sellers'", [],
      h.rateLimiter⟩
  else
    let weekOffset := (argInt args "week_offset").getD 0
    let offset := (argInt args "offset").getD 0
    let limit := (argInt args "limit").getD 10
    match validateAndGetUser h.users now (argString args "api_key").1 with
    | .error _ => ⟨authError, [], h.rateLimiter⟩
    | .ok user =>
      let al := h.rateLimiter.Allow now user.ID user.Tier
      if al.1 = false then ⟨rateLimitError, [], al.2⟩
      else
        let limit := freeLimit user.Tier limit
        let offset := freeOffset user.Tier offset
        let weekOffset := freeOffset user.Tier weekOffset
        match h.redisClient.GetLargestWeeklyTransactions txType.1 weekOffset offset limit with
        | .error err =>
          ⟨.error ("Error retrieving largest weekly " ++ txType.1 ++ ": " ++ err),
            [.GetLargestWeeklyTransactions txType.1 weekOffset offset limit], al.2⟩
        | .ok (transactions, targetWeek, currentDate, previousDate) =>
          ⟨(if transactions.length = 0 then
              .message ("No largest weekly " ++ txType.1 ++ " found for "
                ++ (if weekOffset > 0 then itoa weekOffset ++ " week(s) ago" else "this week"))
            else
              .data (.largestWeekly txType.1 weekOffset offset limit transactions targetWeek
                currentDate previousDate) user.Tier),
            [.GetLargestWeeklyTransactions txType.1 weekOffset offset limit], al.2⟩

/-! ## Routing (`server/main.go`) -/

/-- The type `models.ToolCall`. -/
structure ToolCall where
  Name : String
  Arguments : Args

/-- The routing of `handleToolCall` once the call is decoded: the handler of
the tool name, or the unknown-tool result. -/
def handleToolCall (h : Handler) (now : Time) (toolCall : ToolCall) : Outcome :=
  if toolCall.Name = "get_company_info" then GetCompanyInfo h now toolCall.Arguments
  else if toolCall.Name = "get_company_filings" then GetCompanyFilings h now toolCall.Arguments
  else if toolCall.Name = "get_recent_filings" then GetRecentFilings h now toolCall.Arguments
  else if toolCall.Name = "get_insider_transactions" then
    GetInsiderTransactions h now toolCall.Arguments
  else if toolCall.Name = "get_recent_insider_activity" then
    GetRecentInsiderActivity h now toolCall.Arguments
  else if toolCall.Name = "get_largest_daily_transactions" then
    GetLargestDailyTransactions h now toolCall.Arguments
  else if toolCall.Name = "get_largest_weekly_transactions" then
    GetLargestWeeklyTransactions h now toolCall.Arguments
  else ⟨.error ("Unknown tool: " ++ toolCall.Name), [], h.rateLimiter⟩

/-! ## Sample data

A configuration, stores and instants on which the theorems are evaluated. -/

/-- A configuration: 10 requests per hour and 100 per day for the free tier;
the free tier may use the company tools only. -/
def sampleConfig : Config :=
  { RateLimiting :=
      { FreeTier := { RequestsPerDay := 100, RequestsPerHour := 10 },
        PremiumTier := { RequestsPerDay := 1000, RequestsPerHour := 100 },
        ProTier := { RequestsPerDay := 10000, RequestsPerHour := 1000 } },
    Tiers :=
      { Free := { DataRangeMonths := 3, Tools := ["get_company_info"] },
        Premium := { DataRangeMonths := 24, Tools := ["*"] },
        Pro := { DataRangeMonths := 120, Tools := ["*"] } } }

/-- The instant 1 January 2020, 00:00:00 UTC, in location UTC. -/
def sampleNow : Time := { sec := 1577836800, nsec := 0, offset := 0 }

/-- A credential store that knows the key `sk-1` of the account `a@b.c`, which
has no subscription. -/
def sampleUsers : Redis :=
  { up := true,
    data := fun k =>
      if k = "api_key:sk-1" then some (.str "a@b.c")
      else if k = "email:a@b.c" then some (.hash [("is_premium", "false")])
      else none,
    ttl := fun _ => none }

/-- A quota ledger in which the key `sk-1` has made `hourly` requests in the
hour of `sampleNow` and `daily` requests on its day. -/
def sampleLedger (hourly daily : String) : Redis :=
  { up := true,
    data := fun k =>
      if k = "rate_limit:hourly:sk-1:2020010100" then some (.str hourly)
      else if k = "rate_limit:daily:sk-1:20200101" then some (.str daily)
      else none,
    ttl := fun _ => none }

/-! ## Vocabulary of the access-control theorems -/

/-- The tools whose handlers apply the feature gate, each with the feature its
tier-restriction error names. -/
def gatedFeature (tool : String) : Option String :=
  if tool = "get_company_filings" then some "Company filings history"
  else if tool = "get_recent_filings" then some "Recent filings feed"
  else if tool = "get_insider_transactions" then some "Insider transaction history"
  else if tool = "get_recent_insider_activity" then some "Recent insider activity feed"
  else none

/-- Whether the provider resolves a ticker to a CIK. -/
def resolves (p : DataProvider) (ticker : String) : Bool :=
  match p.GetCIKByTicker ticker with
  | .ok _ => true
  | .error _ => false

/-- Whether a request passes the argument checks the handler of a gated tool
makes before it resolves the identity: the two company tools want a non-empty
string `ticker` that the provider resolves to a CIK; the two feeds check
nothing. -/
def argumentsAccepted (h : Handler) (tool : String) (args : Args) : Bool :=
  if tool = "get_company_filings" ∨ tool = "get_insider_transactions" then
    (argString args "ticker").2 && decide ((argString args "ticker").1 ≠ "")
      && resolves h.redisClient (argString args "ticker").1
  else true

/-- The ticker-to-CIK lookup: the operation the two company tools invoke while
they check their arguments. -/
def Call.isLookup : Call → Bool
  | .GetCIKByTicker _ => true
  | _ => false

/-- The limiter `RateLimiter.Allow` asks for a user and tier: the one in the map,
or a new full one. -/
def bucketOf (rl : RateLimiter) (now : Time) (userID tier : String) : Limiter :=
  match rl.limiters (limiterKey userID tier) with
  | some l => l
  | none => NewLimiter (tierPerHour tier) 10 now.nanos

/-- The outcomes of a gated handler `run` for the tool `tool` with the feature
`feature`, after `calls` have been made for the argument checks: an
authentication error when the identity is not resolved, the rate-limit error when
the limiter rejects, the tier-restriction error when the gate denies, each with
no further call; otherwise the limiter has been asked once and the result is none
of the three errors. -/
def AccessSequence (h : Handler) (now : Time) (args : Args) (tool feature : String)
    (calls : List Call) (run : Outcome) : Prop :=
  (∀ e, validateAndGetUser h.users now (argString args "api_key").1 = .error e →
      run.result = authError ∧ run.calls = calls ∧ run.rateLimiter = h.rateLimiter)
    ∧ (∀ user, validateAndGetUser h.users now (argString args "api_key").1 = .ok user →
      (h.rateLimiter.Allow now user.ID user.Tier).1 = false →
        run.result = rateLimitError ∧ run.calls = calls
          ∧ run.rateLimiter = (h.rateLimiter.Allow now user.ID user.Tier).2)
    ∧ (∀ user, validateAndGetUser h.users now (argString args "api_key").1 = .ok user →
      (h.rateLimiter.Allow now user.ID user.Tier).1 = true →
        hasToolAccess h.config user tool = false →
          run.result = tierRestrictedError feature ∧ run.calls = calls
            ∧ run.rateLimiter = (h.rateLimiter.Allow now user.ID user.Tier).2)
    ∧ (∀ user, validateAndGetUser h.users now (argString args "api_key").1 = .ok user →
      (h.rateLimiter.Allow now user.ID user.Tier).1 = true →
        hasToolAccess h.config user tool = true →
          run.rateLimiter = (h.rateLimiter.Allow now user.ID user.Tier).2
            ∧ run.result ≠ authError ∧ run.result ≠ rateLimitError
            ∧ run.result ≠ tierRestrictedError feature)

/-- The calls the handler of a gated tool makes while it checks its arguments,
when it accepts them: the ticker-to-CIK lookup of the two company tools. -/
def lookupCalls (tool : String) (args : Args) : List Call :=
  if tool = "get_company_filings" ∨ tool = "get_insider_transactions" then
    [.GetCIKByTicker (argString args "ticker").1]
  else []

/-- A data provider that knows the ticker `AAPL`, has one largest transaction to
show and fails to retrieve filings. -/
def sampleProvider : DataProvider :=
  { GetCIKByTicker := fun t => if t = "AAPL" then .ok "0000320193" else .error "not found",
    GetCompanyName := fun _ => "Apple Inc.",
    GetCompanyByTicker := fun t =>
      if t = "AAPL" then .ok [("name", "Apple Inc.")] else .error "not found",
    SearchCompanies := fun _ _ => .ok [],
    GetCompanyFilings := fun _ _ => .error "unavailable",
    GetInsiderTransactions := fun _ _ => .ok [],
    ZRevRange := fun _ _ _ => .ok [],
    HGetAll := fun _ => .ok [],
    GetLargestDailyTransactions := fun _ _ _ => .ok [[("name", "J. Doe")]],
    GetLargestWeeklyTransactions := fun _ _ _ _ =>
      .ok ([[("name", "J. Doe")]], 1, "2020-01-01", "2019-12-25") }

/-- A handler over the sample configuration, provider and credential store, with
the given in-process rate limiter. -/
def sampleHandler (rl : RateLimiter) : Handler :=
  { config := sampleConfig, redisClient := sampleProvider, users := sampleUsers,
    rateLimiter := rl }

/-- The anonymous user `validateAndGetUser` returns for an empty key. -/
def anonymousUser : User :=
  { ID := "anonymous", APIKey := "", Tier := "free", Email := "",
    Created := Time.zero, LastUsed := Time.zero }

/-- An in-process rate limiter in which the anonymous free caller has just spent
the last token. -/
def spentLimiter : RateLimiter :=
  { limiters := fun k =>
      if k = "anonymous:free" then
        some { perHour := 10, burst := 10, tokens := 0, last := sampleNow.nanos }
      else none }

/-- An in-process rate limiter in which the anonymous free caller has three
tokens left. -/
def threeLeftLimiter : RateLimiter :=
  { limiters := fun k =>
      if k = "anonymous:free" then
        some { perHour := 10, burst := 10, tokens := 3 * tokenUnit, last := sampleNow.nanos }
      else none }

/-- A handler as `sampleHandler`, over a configuration that permits the free tier
every tool. -/
def openHandler (rl : RateLimiter) : Handler :=
  { sampleHandler rl with
    config := { sampleConfig with
      Tiers := { sampleConfig.Tiers with Free := { DataRangeMonths := 3, Tools := ["*"] } } } }

/-- What holds of the outcome of a handler that does not apply the feature gate:
a data-provider call is made only for a caller who is resolved and admitted by
the rate limiter, and a request that ends in the authentication or the rate-limit
error has made no call. -/
def UngatedOrder (h : Handler) (now : Time) (args : Args) (run : Outcome) : Prop :=
  (∀ c ∈ run.calls,
      ∃ user, validateAndGetUser h.users now (argString args "api_key").1 = .ok user
        ∧ (h.rateLimiter.Allow now user.ID user.Tier).1 = true)
    ∧ (run.result = authError ∨ run.result = rateLimitError → run.calls = [])

/-- What holds of the outcome of a handler that applies the feature gate: a
data-provider call other than the ticker lookup is made only for a caller who is
resolved, admitted by the rate limiter and permitted the tool, and a request that
ends in the authentication, the rate-limit or the tier-restriction error has made
no call other than the lookup. -/
def GatedOrder (h : Handler) (now : Time) (tool feature : String) (args : Args)
    (run : Outcome) : Prop :=
  (∀ c ∈ run.calls, c.isLookup = false →
      ∃ user, validateAndGetUser h.users now (argString args "api_key").1 = .ok user
        ∧ (h.rateLimiter.Allow now user.ID user.Tier).1 = true
        ∧ hasToolAccess h.config user tool = true)
    ∧ (run.result = authError ∨ run.result = rateLimitError
        ∨ run.result = tierRestrictedError feature →
      ∀ c ∈ run.calls, c.isLookup = true)

/-- The count a quota counter holds, as `checkRateLimit` reads it: the `Atoi`
value of the string under the key, 0 when there is none. -/
def usage (rdb : Redis) (key : String) : Int :=
  match rdb.data key with
  | some (.str v) => (Atoi v).1
  | _ => 0

/-- A key that `INCR` can count on: it is absent, or holds the decimal text of
an integer below the 64-bit maximum (as every counter written by `INCR` does). -/
def Countable (rdb : Redis) (key : String) : Prop :=
  rdb.data key = none
    ∨ ∃ s n, rdb.data key = some (.str s) ∧ redisInt s = some n ∧ n < 2 ^ 63 - 1

/-- A tool call that carries the key `sk-1` as a bearer token. -/
def sampleRequest : Request :=
  { Authorization := "Bearer sk-1", QueryAPIKey := "", Path := "/mcp/tools/call",
    Method := "POST", PostFormAPIKey := none, Body := none }

/-- The user of the key `sk-1`, as resolved at `sampleNow`. -/
def sampleUser : User :=
  { ID := "a@b.c", APIKey := "sk-1", Tier := "free", Email := "a@b.c",
    Created := sampleNow, LastUsed := sampleNow }

/-! ## Sample data for the credential store and the ledger reads -/

/-- A tool call that carries the key `sk-unknown`, which the sample credential
store does not know, as a bearer token. -/
def unknownRequest : Request :=
  { Authorization := "Bearer sk-unknown", QueryAPIKey := "", Path := "/mcp/tools/call",
    Method := "POST", PostFormAPIKey := none, Body := none }

/-- A credential store that maps the key `sk-1` to the account `a@b.c` but holds
no record of that account. -/
def orphanUsers : Redis :=
  { up := true,
    data := fun k => if k = "api_key:sk-1" then some (.str "a@b.c") else none,
    ttl := fun _ => none }

/-- A quota ledger in which the key `sk-1` has a daily counter for the day of
`sampleNow` and no hourly counter, as at the first request of an hour. -/
def dailyOnlyLedger (daily : String) : Redis :=
  { up := true,
    data := fun k =>
      if k = "rate_limit:daily:sk-1:20200101" then some (.str daily) else none,
    ttl := fun _ => none }

/-- A quota ledger in which the key `sk-1` has an hourly counter for the hour of
`sampleNow` and no daily counter. -/
def hourlyOnlyLedger (hourly : String) : Redis :=
  { up := true,
    data := fun k =>
      if k = "rate_limit:hourly:sk-1:2020010100" then some (.str hourly) else none,
    ttl := fun _ => none }

/-! ## Vocabulary of the largest-transaction theorems -/

/-- Whether the `type` argument passes the check of the largest-transaction
handlers: a string that is `buyers` or `sellers`. -/
def typeAccepted (args : Args) : Bool :=
  (argString args "type").2
    && (decide ((argString args "type").1 = "buyers")
      || decide ((argString args "type").1 = "sellers"))

/-- The arguments of a largest-weekly request for buyers with the given limit,
offset and week offset, without API key. -/
def weeklyArgs (limit offset weekOffset : Int) : Args :=
  [("type", .str "buyers"), ("limit", .num limit), ("offset", .num offset),
    ("week_offset", .num weekOffset)]

/-- A quota ledger that cannot be reached. -/
def downLedger : Redis :=
  { up := false, data := fun _ => none, ttl := fun _ => none }

/-! ## Vocabulary of the counter keys -/

/-- The first second of the hour that the text `YYYYMMDDHH` names on a clock that
shows UTC, if the text is ten digits that name a valid date and hour. -/
def hourBucketStart (b : String) : Option Int :=
  match b.toList with
  | [y1, y2, y3, y4, m1, m2, d1, d2, h1, h2] =>
    let y := digitsVal [y1, y2, y3, y4]
    let m := digitsVal [m1, m2]
    let d := digitsVal [d1, d2]
    let hh := digitsVal [h1, h2]
    if [y1, y2, y3, y4, m1, m2, d1, d2, h1, h2].all isDigitChar = true
        ∧ 1 ≤ m ∧ m ≤ 12 ∧ 1 ≤ d ∧ (d : Int) ≤ daysIn m y ∧ hh ≤ 23 then
      some (Date y m d hh 0 0 0).sec
    else none
  | _ => none

/-- The first second of the day that the text `YYYYMMDD` names on a clock that
shows UTC, if the text is eight digits that name a valid date. -/
def dayBucketStart (b : String) : Option Int :=
  match b.toList with
  | [y1, y2, y3, y4, m1, m2, d1, d2] =>
    let y := digitsVal [y1, y2, y3, y4]
    let m := digitsVal [m1, m2]
    let d := digitsVal [d1, d2]
    if [y1, y2, y3, y4, m1, m2, d1, d2].all isDigitChar = true
        ∧ 1 ≤ m ∧ m ≤ 12 ∧ 1 ≤ d ∧ (d : Int) ≤ daysIn m y then
      some (Date y m d 0 0 0 0).sec
    else none
  | _ => none

/-- The instant 31 December 2019, 23:59:59 UTC, read in a location one hour east
of UTC, where the clock shows 1 January 2020, 00:59:59. -/
def eastOfUTC : Time := { sec := 1577836799, nsec := 0, offset := 3600 }

/-- A quota ledger that holds no counter. -/
def freshLedger : Redis :=
  { up := true, data := fun _ => none, ttl := fun _ => none }

/-! ## Vocabulary of the anonymous call -/

/-- Whether a request passes the argument checks that the handler of a routed
tool makes before it resolves the identity: `get_company_info` wants a non-empty
string `ticker`, the two largest-transaction tools a `type` that is `buyers` or
`sellers`, and the gated tools what `argumentsAccepted` says. -/
def requestAccepted (h : Handler) (tool : String) (args : Args) : Bool :=
  if tool = "get_company_info" then
    (argString args "ticker").2 && decide ((argString args "ticker").1 ≠ "")
  else if tool = "get_largest_daily_transactions"
      ∨ tool = "get_largest_weekly_transactions" then typeAccepted args
  else (gatedFeature tool).isSome && argumentsAccepted h tool args

/-- A call of `get_company_info` for `AAPL` that carries no API key, as the
middleware sees it. -/
def anonymousRequest : Request :=
  { Authorization := "", QueryAPIKey := "", Path := "/mcp/tools/call", Method := "POST",
    PostFormAPIKey := none,
    Body := some [("name", .str "get_company_info"),
      ("arguments", .obj [("ticker", .str "AAPL")])] }

/-- The tool call of `anonymousRequest`, decoded. -/
def anonymousCall : ToolCall :=
  { Name := "get_company_info", Arguments := [("ticker", .str "AAPL")] }

/-! ## Sample data for the key extraction and the paid tiers -/

/-- A tool call without header or query key whose JSON body carries the key
`sk-1`, at top level and among the arguments. -/
def bodyKeyRequest : Request :=
  { Authorization := "", QueryAPIKey := "", Path := "/mcp/tools/call", Method := "POST",
    PostFormAPIKey := none,
    Body := some [("api_key", .str "sk-1"), ("name", .str "get_company_info"),
      ("arguments", .obj [("ticker", .str "AAPL"), ("api_key", .str "sk-1")])] }

/-- A credential store that knows the key `sk-2` of the account `p@b.c`, whose
subscription runs until 1 January 2030. -/
def premiumUsers : Redis :=
  { up := true,
    data := fun k =>
      if k = "api_key:sk-2" then some (.str "p@b.c")
      else if k = "email:p@b.c" then
        some (.hash [("is_premium", "true"), ("exp_date", "2030-01-01T00:00:00Z")])
      else none,
    ttl := fun _ => none }

/-- The user of the key `sk-2`, as resolved at `sampleNow`. -/
def premiumUser : User :=
  { ID := "p@b.c", APIKey := "sk-2", Tier := "premium", Email := "p@b.c",
    Created := sampleNow, LastUsed := sampleNow }

/-- The arguments of a largest-weekly request of the key `sk-2` for buyers with
the given limit, offset and week offset. -/
def premiumWeeklyArgs (limit offset weekOffset : Int) : Args :=
  [("type", .str "buyers"), ("limit", .num limit), ("offset", .num offset),
    ("week_offset", .num weekOffset), ("api_key", .str "sk-2")]

/-! ## Key generation and account creation (`internal/auth.go`) -/

/-- The constant `hextable` of package `encoding/hex`. -/
def hextable : List Char := "0123456789abcdef".toList

/-- The function `hex.EncodeToString`: for each byte `v` the characters
`hextable[v >> 4]` and `hextable[v & 0x0f]`. -/
def EncodeToString : List (Fin 256) → List Char
  | [] => []
  | v :: rest =>
    hextable.getD (v.val / 16) '0' :: hextable.getD (v.val % 16) '0' :: EncodeToString rest

/-- The method `Service.GenerateAPIKey`, given the 16 bytes that `rand.Read`
leaves in the slice. -/
def GenerateAPIKey (random : Fin 16 → Fin 256) : String :=
  "sk-shareseer-" ++ String.mk (EncodeToString (List.ofFn random))

/-- The command `SET key value` with expiration 0: the key holds the string and
has no time to live. When the server is not reached the call fails and nothing
changes. -/
def Redis.Set (r : Redis) (key value : String) : Except RedisError Unit × Redis :=
  if r.up then
    (.ok (), { r with data := fun k => if k = key then some (.str value) else r.data k,
                      ttl := fun k => if k = key then none else r.ttl k })
  else (.error .conn, r)

/-- The method `Service.CreateUser` on the credential store `users`, with the
clock reading `now` and the random bytes of the key: the user or the error, and
the store it leaves. The error `failed to store API key: <err>` is given by its
fixed text and the error of the store that it wraps. -/
def CreateUser (users : Redis) (now : Time) (random : Fin 16 → Fin 256) (email : String) :
    Except (String × RedisError) User × Redis :=
  let apiKey := GenerateAPIKey random
  let set := users.Set ("api_key:" ++ apiKey) email
  match set.1 with
  | .error err => (.error ("failed to store API key: ", err), set.2)
  | .ok _ =>
    (.ok { ID := email, APIKey := apiKey, Tier := "free", Email := email,
           Created := now, LastUsed := now }, set.2)

/-! ## Vocabulary of the key theorems -/

/-- A lowercase hexadecimal digit: `0` to `9` or `a` to `f`. -/
def isLowerHex (c : Char) : Bool :=
  (decide ('0' ≤ c) && decide (c ≤ '9')) || (decide ('a' ≤ c) && decide (c ≤ 'f'))

/-- The value of a lowercase hexadecimal digit. -/
def hexValue (c : Char) : Nat :=
  if c.toNat ≤ 57 then c.toNat - 48 else c.toNat - 87

/-- The bytes that a text of hexadecimal digit pairs stands for, high digit
first. -/
def decodeHex : List Char → List Nat
  | hi :: lo :: rest => (16 * hexValue hi + hexValue lo) :: decodeHex rest
  | _ => []

/-- Sixteen random bytes, all zero but the last, which is 171 (`ab`). -/
def sampleRandom : Fin 16 → Fin 256 := fun i => if i.val = 15 then 171 else 0

/-! ## Vocabulary of the key-collision theorem -/

/-- The format `rate_limit:hourly:%s:%s` of `checkRateLimit` and
`incrementUsage`, applied to an API key and a bucket text. -/
def hourlyKeyOf (apiKey bucket : String) : String :=
  "rate_limit:hourly:" ++ apiKey ++ ":" ++ bucket

/-- The format `rate_limit:daily:%s:%s` of `checkRateLimit` and
`incrementUsage`, applied to an API key and a bucket text. -/
def dailyKeyOf (apiKey bucket : String) : String :=
  "rate_limit:daily:" ++ apiKey ++ ":" ++ bucket

/-! ## Vocabulary of the token-bucket theorem -/

/-- The results of `n` calls of `RateLimiter.Allow` for the same user and tier,
all with the clock reading `now`, and the rate limiter they leave. -/
def allowTimes (rl : RateLimiter) (now : Time) (userID tier : String) :
    Nat → List Bool × RateLimiter
  | 0 => ([], rl)
  | n + 1 =>
    let prev := allowTimes rl now userID tier n
    let a := prev.2.Allow now userID tier
    (prev.1 ++ [a.1], a.2)

/-! ## Concurrent requests at the quota ledger

Each call of `incrementUsage` sends its own pipeline over its own connection, and
the handlers share no other state for the counters. The server executes one
command at a time: the pipelines of concurrent requests are interleaved command
by command, each pipeline in its own order. -/

/-- A command of the pipeline of `incrementUsage`. -/
inductive Command where
  | incr (key : String)
  | expire (key : String) (seconds : Int)
deriving DecidableEq, Repr

/-- The execution of one command by the server. -/
def Command.run (r : Redis) : Command → Redis
  | .incr key => { r with data := incrData r.data key }
  | .expire key seconds =>
    { r with ttl := fun k => if k = key ∧ (r.data key).isSome then some seconds else r.ttl k }

/-- The pipeline that `incrementUsage` sends for `apiKey` with the clock reading
`now`. -/
def usagePipeline (apiKey : String) (now : Time) : List Command :=
  [.incr (hourKey apiKey now), .expire (hourKey apiKey now) 3600,
    .incr (dayKey apiKey now), .expire (dayKey apiKey now) 86400]

/-- The server under concurrent pipelines: `pending` holds what each request has
still to execute, and the schedule names, turn by turn, the request whose next
command the server executes (a turn of a request that has finished does
nothing). The result is the ledger and what is still pending. -/
def runSchedule (r : Redis) (pending : List (List Command)) :
    List Nat → Redis × List (List Command)
  | [] => (r, pending)
  | i :: rest =>
    match pending.getD i [] with
    | [] => runSchedule r pending rest
    | c :: cs => runSchedule (c.run r) (pending.set i cs) rest

/-- The number of `INCR` commands for `key` that are still pending. -/
def pendingIncrs (key : String) (pending : List (List Command)) : Nat :=
  (pending.map (fun cs => cs.count (.incr key))).sum

/-- A counter with room for `n` more increments: it is absent, or holds the
decimal text of an integer `v` with `v + n` within the 64-bit range. -/
def Room (r : Redis) (key : String) (n : Nat) : Prop :=
  (r.data key = none ∧ (n : Int) < 2 ^ 63)
    ∨ ∃ s v, r.data key = some (.str s) ∧ redisInt s = some v ∧ v + (n : Int) < 2 ^ 63

/-! ## Sample data for the revised claims -/

/-- A clock reading in a location five and a half hours east of UTC. -/
def eastReading (sec : Int) : Time := { sec := sec, nsec := 0, offset := 19800 }

/-- A credential store as `orphanUsers` in which the key of the account record
holds a string, so that `HGETALL` on it fails. -/
def unreadableUsers : Redis :=
  { up := true,
    data := fun k =>
      if k = "api_key:sk-1" then some (.str "a@b.c")
      else if k = "email:a@b.c" then some (.str "x")
      else none,
    ttl := fun _ => none }

/-! # Theorems -/

/-! ## Tier resolution -/

/-- An instant is before another exactly when the other is after it. -/
theorem Time.Before_iff_After (t u : Time) : t.Before u = u.After t := by
  unfold Time.Before Time.After
  by_cases h1 : t.sec < u.sec
  · simp [h1]
  · by_cases h2 : t.sec = u.sec
    · simp [h2]
    · have h3 : ¬ u.sec = t.sec := fun h => h2 h.symm
      simp [h1, h2, h3]

/-- C1, refuted as stated: with the flag `"true"` and the expiration
`2020-01-01T00:00:00Z`, a call at exactly that instant returns `"premium"`
although the parsed instant is not strictly after the clock reading. -/
theorem GetUserTier_premium_at_expiry :
    GetUserTier ⟨1577836800, 0, 0⟩ "true" "2020-01-01T00:00:00Z" = "premium"
      ∧ timeParse "2020-01-01T00:00:00Z".toList = some ⟨1577836800, 0, 0⟩
      ∧ Time.After ⟨1577836800, 0, 0⟩ ⟨1577836800, 0, 0⟩ = false := by
  decide

/-- C1, amended: `GetUserTier` returns `"premium"` if and only if the flag is
`"true"`, the expiration parses under the layout `2006-01-02T15:04:05Z` and the
clock reading is not after the parsed instant (the instant of expiry itself still
counts as premium); in every other case it returns `"free"`. -/
theorem GetUserTier_premium_iff (now : Time) (p e : String) :
    (GetUserTier now p e = "premium" ↔
        p = "true" ∧ ∃ t, timeParse e.toList = some t ∧ now.After t = false)
      ∧ (¬ (p = "true" ∧ ∃ t, timeParse e.toList = some t ∧ now.After t = false) →
        GetUserTier now p e = "free") := by
  have hne : ("free" : String) ≠ "premium" := by decide
  have hempty : timeParse [] = none := by decide
  unfold GetUserTier
  by_cases hp : p = "true"
  · by_cases he : e = ""
    · subst he
      simp [hp, hempty, hne]
    · cases hparse : timeParse e.toList with
      | none => simp [hp, he, hne]
      | some t =>
        by_cases ha : now.After t = true
        · simp [hp, he, ha, hne]
        · simp [hp, he, ha]
  · simp [hp, hne]

/-- C2: `GetUserTier` is total and returns `"free"` whenever the flag is not
`"true"`, or the expiration is empty, or it does not parse, or it parses to an
instant strictly before the clock reading; in particular the flag `"true"` with
the expiration `2020-01-01T00:00:00Z` gives `"free"` at every later instant. -/
theorem GetUserTier_free (now : Time) (p e : String)
    (h : p ≠ "true" ∨ e = "" ∨ timeParse e.toList = none
      ∨ ∃ t, timeParse e.toList = some t ∧ t.Before now = true) :
    GetUserTier now p e = "free"
      ∧ ∀ later : Time, later.After ⟨1577836800, 0, 0⟩ = true →
          timeParse "2020-01-01T00:00:00Z".toList = some ⟨1577836800, 0, 0⟩
            ∧ GetUserTier later "true" "2020-01-01T00:00:00Z" = "free" := by
  have h2020 : timeParse "2020-01-01T00:00:00Z".toList = some ⟨1577836800, 0, 0⟩ := by
    decide
  constructor
  · unfold GetUserTier
    rcases h with h | h | h | ⟨t, ht, hb⟩
    · simp [h]
    · simp [h]
    · rw [h]
      simp
    · rw [Time.Before_iff_After] at hb
      rw [ht]
      simp [hb]
  · intro later hl
    refine ⟨h2020, ?_⟩
    unfold GetUserTier
    rw [h2020]
    simp [hl]

/-- C2, witness: a subscription that expired on 1 January 2020, looked up one
second later. -/
theorem GetUserTier_free_witness :
    GetUserTier ⟨1577836801, 0, 0⟩ "true" "2020-01-01T00:00:00Z" = "free" :=
  (GetUserTier_free ⟨1577836801, 0, 0⟩ "true" "2020-01-01T00:00:00Z"
    (Or.inr (Or.inr (Or.inr ⟨⟨1577836800, 0, 0⟩, by decide, by decide⟩)))).1

/-! ## Feature gate -/

/-- The loop of the gate finds an entry exactly when the list holds `"*"` or the
tool name. -/
theorem toolAllowed_iff (toolName : String) (tools : List String) :
    toolAllowed toolName tools = true ↔ "*" ∈ tools ∨ toolName ∈ tools := by
  induction tools with
  | nil => simp [toolAllowed]
  | cons tool rest ih =>
    unfold toolAllowed
    by_cases h : tool = "*" ∨ tool = toolName
    · rcases h with h | h
      · simp [h]
      · simp [h]
    · have h1 : ¬ "*" = tool := fun e => h (Or.inl e.symm)
      have h2 : ¬ toolName = tool := fun e => h (Or.inr e.symm)
      simp [h, ih, h1, h2]

/-- C3: `hasToolAccess` is true if and only if the tier of the user is exactly
one of `"free"`, `"premium"`, `"pro"` and the tool list configured for that tier
holds `"*"` or an element equal to the tool name; for any other tier it is false
whatever the lists hold. -/
theorem hasToolAccess_iff (config : Config) (user : User) (toolName : String) :
    (hasToolAccess config user toolName = true ↔
        (user.Tier = "free"
            ∧ ("*" ∈ config.Tiers.Free.Tools ∨ toolName ∈ config.Tiers.Free.Tools))
          ∨ (user.Tier = "premium"
            ∧ ("*" ∈ config.Tiers.Premium.Tools ∨ toolName ∈ config.Tiers.Premium.Tools))
          ∨ (user.Tier = "pro"
            ∧ ("*" ∈ config.Tiers.Pro.Tools ∨ toolName ∈ config.Tiers.Pro.Tools)))
      ∧ (user.Tier ≠ "free" ∧ user.Tier ≠ "premium" ∧ user.Tier ≠ "pro" →
        hasToolAccess config user toolName = false) := by
  have hfp : ("free" : String) ≠ "premium" := by decide
  have hfo : ("free" : String) ≠ "pro" := by decide
  have hpo : ("premium" : String) ≠ "pro" := by decide
  unfold hasToolAccess
  by_cases h1 : user.Tier = "free"
  · simp [h1, toolAllowed_iff, hfp, hfo]
  · by_cases h2 : user.Tier = "premium"
    · simp [h2, toolAllowed_iff, hfp.symm, hpo]
    · by_cases h3 : user.Tier = "pro"
      · simp [h3, toolAllowed_iff, hfo.symm, hpo.symm]
      · simp [h1, h2, h3]

/-! ## Admission by the persistent rate limiter -/

/-- C4: `checkRateLimit` admits if and only if the hourly usage it read is below
the hourly limit of the tier and the daily usage it read is below the daily
limit, whatever the usages are; so with an hourly limit of 10 and the daily limit
not reached, an hourly usage of 9 is admitted and one of 10 is rejected. -/
theorem checkRateLimit_allowed_iff (config : Config) (rdb : Redis) (now : Time)
    (apiKey tier : String) :
    ((checkRateLimit config rdb now apiKey tier).1.HourlyLimit = (getTierLimits config tier).1
        ∧ (checkRateLimit config rdb now apiKey tier).1.DailyLimit
          = (getTierLimits config tier).2
        ∧ (checkRateLimit config rdb now apiKey tier).1.HourlyUsed
          = (readUsage rdb (hourKey apiKey now) (dayKey apiKey now)).1
        ∧ (checkRateLimit config rdb now apiKey tier).1.DailyUsed
          = (readUsage rdb (hourKey apiKey now) (dayKey apiKey now)).2)
      ∧ ((checkRateLimit config rdb now apiKey tier).2 = true ↔
        (checkRateLimit config rdb now apiKey tier).1.HourlyUsed
            < (checkRateLimit config rdb now apiKey tier).1.HourlyLimit
          ∧ (checkRateLimit config rdb now apiKey tier).1.DailyUsed
            < (checkRateLimit config rdb now apiKey tier).1.DailyLimit)
      ∧ ((checkRateLimit config rdb now apiKey tier).1.HourlyLimit = 10 →
        (checkRateLimit config rdb now apiKey tier).1.DailyUsed
            < (checkRateLimit config rdb now apiKey tier).1.DailyLimit →
          ((checkRateLimit config rdb now apiKey tier).1.HourlyUsed = 9 →
              (checkRateLimit config rdb now apiKey tier).2 = true)
            ∧ ((checkRateLimit config rdb now apiKey tier).1.HourlyUsed = 10 →
              (checkRateLimit config rdb now apiKey tier).2 = false)) := by
  refine ⟨⟨rfl, rfl, rfl, rfl⟩, ?_, ?_⟩
  · simp [checkRateLimit]
  · intro hl hd
    simp only [checkRateLimit] at hl hd ⊢
    constructor
    · intro hu
      simp [hl, hu, hd]
    · intro hu
      simp [hl, hu]

/-! ## Identity resolution in the handlers -/

/-- C10: with an empty API key `validateAndGetUser` returns, without error and
whatever the credential store holds, a user whose ID is `"anonymous"` and whose
tier is `"free"`; for every non-empty key it returns the result of
`ValidateAPIKey` for that key. -/
theorem validateAndGetUser_spec (users : Redis) (now : Time) (apiKey : String) :
    (∃ user, validateAndGetUser users now "" = .ok user
        ∧ user.ID = "anonymous" ∧ user.Tier = "free"
        ∧ ∀ (users2 : Redis) (now2 : Time), validateAndGetUser users2 now2 "" = .ok user)
      ∧ (apiKey ≠ "" → validateAndGetUser users now apiKey = ValidateAPIKey users now apiKey) := by
  constructor
  · exact ⟨_, rfl, rfl, rfl, fun _ _ => rfl⟩
  · intro h
    simp [validateAndGetUser, h]

/-- C4, witness: with the free-tier limit of 10 per hour, a key with 9 requests
in the hour is admitted and one with 10 is rejected. -/
theorem checkRateLimit_boundary_witness :
    (checkRateLimit sampleConfig (sampleLedger "9" "50") sampleNow "sk-1" "free").2 = true
      ∧ (checkRateLimit sampleConfig (sampleLedger "10" "50") sampleNow "sk-1" "free").2
        = false :=
  ⟨((checkRateLimit_allowed_iff sampleConfig (sampleLedger "9" "50") sampleNow "sk-1"
    "free").2.2 (by decide) (by decide)).1 (by decide),
   ((checkRateLimit_allowed_iff sampleConfig (sampleLedger "10" "50") sampleNow "sk-1"
    "free").2.2 (by decide) (by decide)).2 (by decide)⟩

/-- C10, witness: a non-empty key is handed to `ValidateAPIKey`. -/
theorem validateAndGetUser_witness :
    validateAndGetUser sampleUsers sampleNow "sk-1" = ValidateAPIKey sampleUsers sampleNow "sk-1" :=
  (validateAndGetUser_spec sampleUsers sampleNow "sk-1").2 (by decide)

/-! ## The access-control sequence of the gated handlers -/

/-- Two strings that differ within their first `n` characters are different. -/
theorem ne_of_take (n : Nat) (a b : String) (h : a.data.take n ≠ b.data.take n) : a ≠ b := by
  intro e
  exact h (by rw [e])

/-- Two error results whose texts differ within their first `n` characters are
different. -/
theorem error_ne_of_take (n : Nat) (a b : String) (h : a.data.take n ≠ b.data.take n) :
    ToolResult.error a ≠ ToolResult.error b := by
  intro e
  injection e with e
  exact ne_of_take n a b h e

/-- The access-control sequence of `GetRecentFilings`. -/
theorem GetRecentFilings_sequence (h : Handler) (now : Time) (args : Args) :
    AccessSequence h now args "get_recent_filings" "Recent filings feed" []
      (GetRecentFilings h now args) := by
  refine ⟨?_, ?_, ?_, ?_⟩
  · intro e he
    simp [GetRecentFilings, he]
  · intro user hu ha
    simp [GetRecentFilings, hu, ha]
  · intro user hu ha hg
    simp [GetRecentFilings, hu, ha, hg]
  · intro user hu ha hg
    simp only [GetRecentFilings, hu, ha, hg]
    cases hz : h.redisClient.ZRevRange "recent:filings" 0
        (wrap64 ((argInt args "limit").getD 20 - 1)) with
    | error err =>
      refine ⟨by simp, ?_, ?_, ?_⟩
      · simp; exact error_ne_of_take 1 _ _ (by simp)
      · simp; exact error_ne_of_take 1 _ _ (by simp)
      · simp; exact error_ne_of_take 2 _ _ (by simp)
    | ok keys =>
      simp [authError, rateLimitError, tierRestrictedError]

/-- The access-control sequence of `GetRecentInsiderActivity`. -/
theorem GetRecentInsiderActivity_sequence (h : Handler) (now : Time) (args : Args) :
    AccessSequence h now args "get_recent_insider_activity" "Recent insider activity feed" []
      (GetRecentInsiderActivity h now args) := by
  refine ⟨?_, ?_, ?_, ?_⟩
  · intro e he
    simp [GetRecentInsiderActivity, he]
  · intro user hu ha
    simp [GetRecentInsiderActivity, hu, ha]
  · intro user hu ha hg
    simp [GetRecentInsiderActivity, hu, ha, hg]
  · intro user hu ha hg
    simp only [GetRecentInsiderActivity, hu, ha, hg]
    cases hz : h.redisClient.ZRevRange "recent:insiders" 0
        (wrap64 ((argInt args "limit").getD 15 - 1)) with
    | error err =>
      refine ⟨by simp, ?_, ?_, ?_⟩
      · simp; exact error_ne_of_take 1 _ _ (by simp)
      · simp; exact error_ne_of_take 1 _ _ (by simp)
      · simp; exact error_ne_of_take 2 _ _ (by simp)
    | ok keys =>
      simp [authError, rateLimitError, tierRestrictedError]

/-- The access-control sequence of `GetCompanyFilings`, for a request whose
ticker the provider resolves: the lookup is the only call made before it. -/
theorem GetCompanyFilings_sequence (h : Handler) (now : Time) (args : Args) (cik : String)
    (ht : (argString args "ticker").2 = true) (hne : (argString args "ticker").1 ≠ "")
    (hc : h.redisClient.GetCIKByTicker (argString args "ticker").1 = .ok cik) :
    AccessSequence h now args "get_company_filings" "Company filings history"
      [.GetCIKByTicker (argString args "ticker").1] (GetCompanyFilings h now args) := by
  refine ⟨?_, ?_, ?_, ?_⟩
  · intro e he
    simp [GetCompanyFilings, ht, hne, hc, he]
  · intro user hu ha
    simp [GetCompanyFilings, ht, hne, hc, hu, ha]
  · intro user hu ha hg
    simp [GetCompanyFilings, ht, hne, hc, hu, ha, hg]
  · intro user hu ha hg
    simp only [GetCompanyFilings, ht, hne, hc, hu, ha, hg]
    cases hz : h.redisClient.GetCompanyFilings cik ((argInt args "limit").getD 10) with
    | error err =>
      refine ⟨by simp, ?_, ?_, ?_⟩
      · simp; exact error_ne_of_take 1 _ _ (by simp)
      · simp; exact error_ne_of_take 1 _ _ (by simp)
      · simp; exact error_ne_of_take 1 _ _ (by simp)
    | ok filings =>
      by_cases hl : filings.length = 0
      · simp [hl, authError, rateLimitError, tierRestrictedError]
      · simp [hl, authError, rateLimitError, tierRestrictedError]

/-- The access-control sequence of `GetInsiderTransactions`, for a request whose
ticker the provider resolves: the lookup is the only call made before it. -/
theorem GetInsiderTransactions_sequence (h : Handler) (now : Time) (args : Args)
    (cik : String)
    (ht : (argString args "ticker").2 = true) (hne : (argString args "ticker").1 ≠ "")
    (hc : h.redisClient.GetCIKByTicker (argString args "ticker").1 = .ok cik) :
    AccessSequence h now args "get_insider_transactions" "Insider transaction history"
      [.GetCIKByTicker (argString args "ticker").1] (GetInsiderTransactions h now args) := by
  refine ⟨?_, ?_, ?_, ?_⟩
  · intro e he
    simp [GetInsiderTransactions, ht, hne, hc, he]
  · intro user hu ha
    simp [GetInsiderTransactions, ht, hne, hc, hu, ha]
  · intro user hu ha hg
    simp [GetInsiderTransactions, ht, hne, hc, hu, ha, hg]
  · intro user hu ha hg
    simp only [GetInsiderTransactions, ht, hne, hc, hu, ha, hg]
    cases hz : h.redisClient.GetInsiderTransactions cik ((argInt args "limit").getD 10) with
    | error err =>
      refine ⟨by simp, ?_, ?_, ?_⟩
      · simp; exact error_ne_of_take 1 _ _ (by simp)
      · simp; exact error_ne_of_take 1 _ _ (by simp)
      · simp; exact error_ne_of_take 1 _ _ (by simp)
    | ok transactions =>
      by_cases hl : transactions.length = 0
      · simp [hl, authError, rateLimitError, tierRestrictedError]
      · by_cases hl2 : (transactions.head?.getD []).length = 0
        · simp [hl, hl2, authError, rateLimitError, tierRestrictedError]
        · simp [hl, hl2, authError, rateLimitError, tierRestrictedError]

/-- The gated tools are the four the table names. -/
theorem gatedFeature_cases (tool feature : String) (hg : gatedFeature tool = some feature) :
    (tool = "get_company_filings" ∧ feature = "Company filings history")
      ∨ (tool = "get_recent_filings" ∧ feature = "Recent filings feed")
      ∨ (tool = "get_insider_transactions" ∧ feature = "Insider transaction history")
      ∨ (tool = "get_recent_insider_activity" ∧ feature = "Recent insider activity feed") := by
  unfold gatedFeature at hg
  by_cases h1 : tool = "get_company_filings"
  · simp [h1] at hg
    exact Or.inl ⟨h1, hg.symm⟩
  · by_cases h2 : tool = "get_recent_filings"
    · simp [h2] at hg
      exact Or.inr (Or.inl ⟨h2, hg.symm⟩)
    · by_cases h3 : tool = "get_insider_transactions"
      · simp [h3] at hg
        exact Or.inr (Or.inr (Or.inl ⟨h3, hg.symm⟩))
      · by_cases h4 : tool = "get_recent_insider_activity"
        · simp [h4] at hg
          exact Or.inr (Or.inr (Or.inr ⟨h4, hg.symm⟩))
        · simp [h1, h2, h3, h4] at hg

/-- Routed through `handleToolCall`, a request for a gated tool whose arguments
are accepted follows the access-control sequence. -/
theorem gated_sequence (h : Handler) (now : Time) (tool feature : String) (args : Args)
    (hg : gatedFeature tool = some feature) (hacc : argumentsAccepted h tool args = true) :
    AccessSequence h now args tool feature (lookupCalls tool args)
      (handleToolCall h now ⟨tool, args⟩) := by
  rcases gatedFeature_cases tool feature hg with ⟨ht, hf⟩ | ⟨ht, hf⟩ | ⟨ht, hf⟩ | ⟨ht, hf⟩
  · subst ht hf
    simp only [argumentsAccepted, resolves, true_or, if_true, Bool.and_eq_true,
      decide_eq_true_eq] at hacc
    obtain ⟨⟨h1, h2⟩, h3⟩ := hacc
    cases hc : h.redisClient.GetCIKByTicker (argString args "ticker").1 with
    | error e => simp [hc] at h3
    | ok cik =>
      have := GetCompanyFilings_sequence h now args cik h1 h2 hc
      simpa [handleToolCall, lookupCalls] using this
  · subst ht hf
    have := GetRecentFilings_sequence h now args
    simpa [handleToolCall, lookupCalls] using this
  · subst ht hf
    simp only [argumentsAccepted, resolves, or_true, if_true, Bool.and_eq_true,
      decide_eq_true_eq] at hacc
    obtain ⟨⟨h1, h2⟩, h3⟩ := hacc
    cases hc : h.redisClient.GetCIKByTicker (argString args "ticker").1 with
    | error e => simp [hc] at h3
    | ok cik =>
      have := GetInsiderTransactions_sequence h now args cik h1 h2 hc
      simpa [handleToolCall, lookupCalls] using this
  · subst ht hf
    have := GetRecentInsiderActivity_sequence h now args
    simpa [handleToolCall, lookupCalls] using this

/-- Routed through `handleToolCall`, a request for a gated tool whose arguments
are not accepted ends before the access control: it has made at most the lookup,
has not asked the limiter, and its result is an argument error. -/
theorem gated_rejected (h : Handler) (now : Time) (tool feature : String) (args : Args)
    (hg : gatedFeature tool = some feature) (hrej : argumentsAccepted h tool args = false) :
    (∀ c ∈ (handleToolCall h now ⟨tool, args⟩).calls, c.isLookup = true)
      ∧ (handleToolCall h now ⟨tool, args⟩).rateLimiter = h.rateLimiter
      ∧ (handleToolCall h now ⟨tool, args⟩).result.isData = false
      ∧ (handleToolCall h now ⟨tool, args⟩).result ≠ authError
      ∧ (handleToolCall h now ⟨tool, args⟩).result ≠ rateLimitError
      ∧ (handleToolCall h now ⟨tool, args⟩).result ≠ tierRestrictedError feature := by
  rcases gatedFeature_cases tool feature hg with ⟨ht, hf⟩ | ⟨ht, hf⟩ | ⟨ht, hf⟩ | ⟨ht, hf⟩
  · subst ht hf
    simp only [handleToolCall, GetCompanyFilings]
    by_cases h1 : (argString args "ticker").2 = false ∨ (argString args "ticker").1 = ""
    · simp [h1, ToolResult.isData, authError, rateLimitError, tierRestrictedError]
    · cases hc : h.redisClient.GetCIKByTicker (argString args "ticker").1 with
      | error e =>
        simp only [String.reduceEq, if_false, if_true, h1, hc]
        refine ⟨by simp [Call.isLookup], by simp, by simp [ToolResult.isData], ?_, ?_, ?_⟩
        · exact error_ne_of_take 1 _ _ (by simp)
        · exact error_ne_of_take 1 _ _ (by simp)
        · exact error_ne_of_take 9 _ _ (by simp)
      | ok cik =>
        exfalso
        simp only [not_or, Bool.not_eq_false] at h1
        simp [argumentsAccepted, resolves, h1.1, h1.2, hc] at hrej
  · subst ht hf
    simp [argumentsAccepted] at hrej
  · subst ht hf
    simp only [handleToolCall, GetInsiderTransactions]
    by_cases h1 : (argString args "ticker").2 = false ∨ (argString args "ticker").1 = ""
    · simp [h1, ToolResult.isData, authError, rateLimitError, tierRestrictedError]
    · cases hc : h.redisClient.GetCIKByTicker (argString args "ticker").1 with
      | error e =>
        simp only [String.reduceEq, if_false, if_true, h1, hc]
        refine ⟨by simp [Call.isLookup], by simp, by simp [ToolResult.isData], ?_, ?_, ?_⟩
        · exact error_ne_of_take 1 _ _ (by simp)
        · exact error_ne_of_take 1 _ _ (by simp)
        · exact error_ne_of_take 1 _ _ (by simp)
      | ok cik =>
        exfalso
        simp only [not_or, Bool.not_eq_false] at h1
        simp [argumentsAccepted, resolves, h1.1, h1.2, hc] at hrej
  · subst ht hf
    simp [argumentsAccepted] at hrej

/-! ## Order of rate limiting and feature gate -/

/-- The rate-limit error and the authentication error are not the
tier-restriction error of any gated tool. -/
theorem access_errors_distinct (tool feature : String)
    (hg : gatedFeature tool = some feature) :
    rateLimitError ≠ tierRestrictedError feature ∧ authError ≠ tierRestrictedError feature := by
  rcases gatedFeature_cases tool feature hg with ⟨_, hf⟩ | ⟨_, hf⟩ | ⟨_, hf⟩ | ⟨_, hf⟩ <;>
    subst hf <;>
    exact ⟨error_ne_of_take 2 _ _ (by decide), error_ne_of_take 2 _ _ (by decide)⟩

/-- C7, amended: in every handler that applies the feature gate, a caller who is
both over quota and not permitted the tool never receives the tier-restriction
error, and receives the rate-limit error when the request passes the argument
checks that the handler makes first (a non-empty ticker that the provider
resolves, for the two company tools; none for the two feeds); the
tier-restriction error is returned only for a request whose caller is resolved
and admitted by the rate limiter. -/
theorem rate_limit_precedes_gate (h : Handler) (now : Time) (tool feature : String)
    (args : Args) (hg : gatedFeature tool = some feature) :
    (∀ user, validateAndGetUser h.users now (argString args "api_key").1 = .ok user →
        (h.rateLimiter.Allow now user.ID user.Tier).1 = false →
        hasToolAccess h.config user tool = false →
          (handleToolCall h now ⟨tool, args⟩).result ≠ tierRestrictedError feature
            ∧ (argumentsAccepted h tool args = true →
              (handleToolCall h now ⟨tool, args⟩).result = rateLimitError))
      ∧ ((handleToolCall h now ⟨tool, args⟩).result = tierRestrictedError feature →
        ∃ user, validateAndGetUser h.users now (argString args "api_key").1 = .ok user
          ∧ (h.rateLimiter.Allow now user.ID user.Tier).1 = true
          ∧ hasToolAccess h.config user tool = false) := by
  have hd := access_errors_distinct tool feature hg
  by_cases hacc : argumentsAccepted h tool args = true
  · obtain ⟨s1, s2, s3, s4⟩ := gated_sequence h now tool feature args hg hacc
    constructor
    · intro user hu ha _
      have hr := (s2 user hu ha).1
      exact ⟨by rw [hr]; exact hd.1, fun _ => hr⟩
    · intro hres
      cases hv : validateAndGetUser h.users now (argString args "api_key").1 with
      | error e =>
        rw [(s1 e hv).1] at hres
        exact absurd hres hd.2
      | ok user =>
        cases ha : (h.rateLimiter.Allow now user.ID user.Tier).1 with
        | false =>
          rw [(s2 user hv ha).1] at hres
          exact absurd hres hd.1
        | true =>
          cases hgate : hasToolAccess h.config user tool with
          | false => exact ⟨user, rfl, ha, hgate⟩
          | true => exact absurd hres (s4 user hv ha hgate).2.2.2
  · have hrej : argumentsAccepted h tool args = false := by
      cases hb : argumentsAccepted h tool args with
      | false => rfl
      | true => exact absurd hb hacc
    have hr := gated_rejected h now tool feature args hg hrej
    constructor
    · intro user _ _ _
      exact ⟨hr.2.2.2.2.2, fun hcontra => absurd hcontra hacc⟩
    · intro hres
      exact absurd hres hr.2.2.2.2.2

/-- C7, witness of the amended claim: the anonymous caller has no token left and
the free tier is not permitted `get_recent_filings`; the result is the rate-limit
error. -/
theorem rate_limit_precedes_gate_witness :
    (handleToolCall (sampleHandler spentLimiter) sampleNow ⟨"get_recent_filings", []⟩).result
      = rateLimitError :=
  ((rate_limit_precedes_gate (sampleHandler spentLimiter) sampleNow "get_recent_filings"
    "Recent filings feed" [] rfl).1 anonymousUser rfl (by decide) (by decide)).2 (by decide)

/-! ## Quota consumed by an authorized request -/

/-- An admitting `RateLimiter.Allow` leaves the bucket of the caller with exactly
one token less than it held at the clock reading, and every other bucket as it
was. -/
theorem RateLimiter.Allow_admit (rl : RateLimiter) (now : Time) (userID tier : String)
    (ha : (rl.Allow now userID tier).1 = true) :
    (rl.Allow now userID tier).2.limiters (limiterKey userID tier)
        = some { bucketOf rl now userID tier with
            tokens := (bucketOf rl now userID tier).advance now.nanos - tokenUnit,
            last := now.nanos }
      ∧ ∀ k, k ≠ limiterKey userID tier →
          (rl.Allow now userID tier).2.limiters k = rl.limiters k := by
  unfold RateLimiter.Allow at ha ⊢
  simp only at ha ⊢
  constructor
  · simp only [if_true]
    unfold Limiter.Allow at ha ⊢
    unfold bucketOf
    split at ha
    · rename_i hle
      simp only [hle, if_true]
    · simp at ha
  · intro k hk
    simp [hk]

/-- C9: a request for a gated tool that has passed identity resolution,
rate-limit admission and the feature gate leaves the rate limiter as the one
admitting `Allow` left it: the bucket of the caller holds exactly one token less
than it held at the clock reading, every other bucket is as it was, and this is
so whatever the data provider then returns (records, nothing, or an error). -/
theorem quota_consumed_once (h : Handler) (now : Time) (tool feature : String) (args : Args)
    (user : User) (hg : gatedFeature tool = some feature)
    (hacc : argumentsAccepted h tool args = true)
    (hu : validateAndGetUser h.users now (argString args "api_key").1 = .ok user)
    (ha : (h.rateLimiter.Allow now user.ID user.Tier).1 = true)
    (hgate : hasToolAccess h.config user tool = true) :
    (handleToolCall h now ⟨tool, args⟩).rateLimiter
        = (h.rateLimiter.Allow now user.ID user.Tier).2
      ∧ (handleToolCall h now ⟨tool, args⟩).rateLimiter.limiters
          (limiterKey user.ID user.Tier)
        = some { bucketOf h.rateLimiter now user.ID user.Tier with
            tokens := (bucketOf h.rateLimiter now user.ID user.Tier).advance now.nanos
              - tokenUnit,
            last := now.nanos }
      ∧ (∀ k, k ≠ limiterKey user.ID user.Tier →
          (handleToolCall h now ⟨tool, args⟩).rateLimiter.limiters k = h.rateLimiter.limiters k)
      ∧ ∀ p : DataProvider, argumentsAccepted { h with redisClient := p } tool args = true →
          (handleToolCall { h with redisClient := p } now ⟨tool, args⟩).rateLimiter
            = (handleToolCall h now ⟨tool, args⟩).rateLimiter := by
  have hr := ((gated_sequence h now tool feature args hg hacc).2.2.2 user hu ha hgate).1
  have hb := RateLimiter.Allow_admit h.rateLimiter now user.ID user.Tier ha
  refine ⟨hr, ?_, ?_, ?_⟩
  · rw [hr]
    exact hb.1
  · intro k hk
    rw [hr]
    exact hb.2 k hk
  · intro p hp
    rw [hr]
    exact ((gated_sequence { h with redisClient := p } now tool feature args hg hp).2.2.2
      user hu ha hgate).1

/-- C9, witness: the anonymous caller has three tokens; the provider fails to
retrieve the filings of `AAPL`, and two tokens are left. -/
theorem quota_consumed_once_witness :
    (handleToolCall (openHandler threeLeftLimiter) sampleNow
        ⟨"get_company_filings", [("ticker", .str "AAPL")]⟩).rateLimiter.limiters
          "anonymous:free"
      = some { perHour := 10, burst := 10, tokens := 2 * tokenUnit, last := sampleNow.nanos } :=
  (quota_consumed_once (openHandler threeLeftLimiter) sampleNow "get_company_filings"
    "Company filings history" [("ticker", .str "AAPL")] anonymousUser rfl (by decide) rfl
    (by decide) (by decide)).2.1

/-! ## Which tools are gated -/

/-- C6, refuted as stated: for `get_largest_daily_transactions` the free tier of
the sample configuration is not permitted the tool, yet the anonymous caller is
returned data. -/
theorem largest_daily_not_gated :
    validateAndGetUser sampleUsers sampleNow "" = .ok anonymousUser
      ∧ hasToolAccess sampleConfig anonymousUser "get_largest_daily_transactions" = false
      ∧ (handleToolCall (sampleHandler NewRateLimiter) sampleNow
          ⟨"get_largest_daily_transactions", [("type", .str "buyers")]⟩).result.isData = true
      ∧ (handleToolCall (sampleHandler NewRateLimiter) sampleNow
          ⟨"get_largest_daily_transactions", [("type", .str "buyers")]⟩).calls
        = [.GetLargestDailyTransactions "buyers" 0 3] := by
  refine ⟨rfl, by decide, by decide, by decide⟩

/-- C6, amended: the feature gate is applied by the handlers of
`get_company_filings`, `get_recent_filings`, `get_insider_transactions` and
`get_recent_insider_activity`: if `hasToolAccess` is false for the resolved
user, the handler does not return data, and when the arguments are accepted and
the rate limiter admits it returns the tier-restricted error without any call
beyond the ticker lookup. The handlers of the two largest-transaction tools do
not consult the gate: their outcome is the same under every configuration. -/
theorem gate_applies_to_gated_tools (h : Handler) (now : Time) (tool feature : String)
    (args : Args) (hg : gatedFeature tool = some feature) :
    (∀ user, validateAndGetUser h.users now (argString args "api_key").1 = .ok user →
        hasToolAccess h.config user tool = false →
          (handleToolCall h now ⟨tool, args⟩).result.isData = false
            ∧ (argumentsAccepted h tool args = true →
              (h.rateLimiter.Allow now user.ID user.Tier).1 = true →
                (handleToolCall h now ⟨tool, args⟩).result = tierRestrictedError feature
                  ∧ (handleToolCall h now ⟨tool, args⟩).calls = lookupCalls tool args))
      ∧ (∀ (config : Config) (largestArgs : Args),
          GetLargestDailyTransactions { h with config := config } now largestArgs
              = GetLargestDailyTransactions h now largestArgs
            ∧ GetLargestWeeklyTransactions { h with config := config } now largestArgs
              = GetLargestWeeklyTransactions h now largestArgs) := by
  constructor
  · intro user hu hgate
    by_cases hacc : argumentsAccepted h tool args = true
    · obtain ⟨_, s2, s3, _⟩ := gated_sequence h now tool feature args hg hacc
      cases ha : (h.rateLimiter.Allow now user.ID user.Tier).1 with
      | false =>
        refine ⟨?_, fun _ hcontra => absurd hcontra (by simp)⟩
        rw [(s2 user hu ha).1]
        rfl
      | true =>
        have hr := s3 user hu ha hgate
        refine ⟨?_, fun _ _ => ⟨hr.1, hr.2.1⟩⟩
        rw [hr.1]
        rfl
    · have hrej : argumentsAccepted h tool args = false := by
        cases hb : argumentsAccepted h tool args with
        | false => rfl
        | true => exact absurd hb hacc
      exact ⟨(gated_rejected h now tool feature args hg hrej).2.2.1,
        fun hcontra => absurd hcontra hacc⟩
  · intro config largestArgs
    exact ⟨rfl, rfl⟩

/-- C6, witness of the amended claim: the anonymous free caller asks for
`get_recent_filings`, which the sample configuration does not permit the free
tier, and is returned the tier-restricted error. -/
theorem gate_applies_to_gated_tools_witness :
    (handleToolCall (sampleHandler NewRateLimiter) sampleNow ⟨"get_recent_filings", []⟩).result
      = tierRestrictedError "Recent filings feed" :=
  (((gate_applies_to_gated_tools (sampleHandler NewRateLimiter) sampleNow "get_recent_filings"
    "Recent filings feed" [] rfl).1 anonymousUser rfl (by decide)).2 (by decide)
      (by decide)).1

/-! ## Data-provider calls and access control -/

/-- C5, refuted as stated: `get_company_filings` with an unknown API key ends in
the authentication error after the ticker lookup has been made, and
`get_largest_weekly_transactions` invokes the data provider for a caller whose
tier the feature gate does not allow the tool. -/
theorem provider_called_outside_access_control :
    ((GetCompanyFilings (sampleHandler NewRateLimiter) sampleNow
          [("ticker", .str "AAPL"), ("api_key", .str "sk-unknown")]).result.isData = false
        ∧ validateAndGetUser sampleUsers sampleNow "sk-unknown" = .error "invalid API key"
        ∧ (GetCompanyFilings (sampleHandler NewRateLimiter) sampleNow
          [("ticker", .str "AAPL"), ("api_key", .str "sk-unknown")]).calls
            = [.GetCIKByTicker "AAPL"])
      ∧ (hasToolAccess sampleConfig anonymousUser "get_largest_weekly_transactions" = false
        ∧ (GetLargestWeeklyTransactions (sampleHandler NewRateLimiter) sampleNow
          [("type", .str "sellers")]).calls
            = [.GetLargestWeeklyTransactions "sellers" 0 0 3]) := by
  refine ⟨⟨by decide, rfl, by decide⟩, by decide, by decide⟩

/-- The calls made for the argument checks are ticker lookups. -/
theorem lookupCalls_isLookup (tool : String) (args : Args) :
    ∀ c ∈ lookupCalls tool args, c.isLookup = true := by
  intro c hc
  unfold lookupCalls at hc
  split at hc
  · simp at hc
    subst hc
    rfl
  · simp at hc

/-- The handlers of the gated tools keep the order of the access control. -/
theorem gated_order (h : Handler) (now : Time) (tool feature : String) (args : Args)
    (hg : gatedFeature tool = some feature) :
    GatedOrder h now tool feature args (handleToolCall h now ⟨tool, args⟩) := by
  have hd := access_errors_distinct tool feature hg
  have hlk := lookupCalls_isLookup tool args
  by_cases hacc : argumentsAccepted h tool args = true
  · obtain ⟨s1, s2, s3, s4⟩ := gated_sequence h now tool feature args hg hacc
    cases hv : validateAndGetUser h.users now (argString args "api_key").1 with
    | error e =>
      have hc := (s1 e hv).2.1
      refine ⟨fun c hcm hnl => ?_, fun _ c hcm => ?_⟩
      · rw [hc] at hcm
        rw [hlk c hcm] at hnl
        exact absurd hnl (by simp)
      · rw [hc] at hcm
        exact hlk c hcm
    | ok user =>
      cases ha : (h.rateLimiter.Allow now user.ID user.Tier).1 with
      | false =>
        have hc := (s2 user hv ha).2.1
        refine ⟨fun c hcm hnl => ?_, fun _ c hcm => ?_⟩
        · rw [hc] at hcm
          rw [hlk c hcm] at hnl
          exact absurd hnl (by simp)
        · rw [hc] at hcm
          exact hlk c hcm
      | true =>
        cases hgate : hasToolAccess h.config user tool with
        | false =>
          have hc := (s3 user hv ha hgate).2.1
          refine ⟨fun c hcm hnl => ?_, fun _ c hcm => ?_⟩
          · rw [hc] at hcm
            rw [hlk c hcm] at hnl
            exact absurd hnl (by simp)
          · rw [hc] at hcm
            exact hlk c hcm
        | true =>
          have hr := s4 user hv ha hgate
          refine ⟨fun c _ _ => ⟨user, hv, ha, hgate⟩, fun hres => ?_⟩
          rcases hres with hres | hres | hres
          · exact absurd hres hr.2.1
          · exact absurd hres hr.2.2.1
          · exact absurd hres hr.2.2.2
  · have hrej : argumentsAccepted h tool args = false := by
      cases hb : argumentsAccepted h tool args with
      | false => rfl
      | true => exact absurd hb hacc
    have hr := gated_rejected h now tool feature args hg hrej
    refine ⟨fun c hcm hnl => ?_, fun _ => hr.1⟩
    rw [hr.1 c hcm] at hnl
    exact absurd hnl (by simp)

/-- The handler `GetCompanyInfo` invokes the provider after identity resolution
and rate limiting only. -/
theorem GetCompanyInfo_order (h : Handler) (now : Time) (args : Args) :
    UngatedOrder h now args (GetCompanyInfo h now args) := by
  unfold UngatedOrder
  by_cases h1 : (argString args "ticker").2 = false ∨ (argString args "ticker").1 = ""
  · simp [GetCompanyInfo, h1]
  · cases hv : validateAndGetUser h.users now (argString args "api_key").1 with
    | error e => simp [GetCompanyInfo, h1, hv]
    | ok user =>
      cases ha : (h.rateLimiter.Allow now user.ID user.Tier).1 with
      | false => simp [GetCompanyInfo, h1, hv, ha]
      | true =>
        simp only [GetCompanyInfo, h1, hv, ha]
        cases hp : h.redisClient.GetCompanyByTicker (argString args "ticker").1 with
        | error e => simp [ha, authError, rateLimitError]
        | ok company => simp [ha, authError, rateLimitError]

/-- The handler `SearchCompanies` invokes the provider after identity resolution
and rate limiting only. -/
theorem SearchCompanies_order (h : Handler) (now : Time) (args : Args) :
    UngatedOrder h now args (SearchCompanies h now args) := by
  unfold UngatedOrder
  by_cases h1 : (argString args "query").2 = false ∨ (argString args "query").1 = ""
  · simp [SearchCompanies, h1]
  · cases hv : validateAndGetUser h.users now (argString args "api_key").1 with
    | error e => simp [SearchCompanies, h1, hv]
    | ok user =>
      cases ha : (h.rateLimiter.Allow now user.ID user.Tier).1 with
      | false => simp [SearchCompanies, h1, hv, ha]
      | true =>
        simp only [SearchCompanies, h1, hv, ha]
        cases hp : h.redisClient.SearchCompanies (argString args "query").1
            ((argInt args "limit").getD 10) with
        | error e =>
          simp only [if_false, Bool.true_eq_false]
          refine ⟨fun c _ => ⟨user, rfl, ha⟩, fun hres => ?_⟩
          rcases hres with hres | hres
          · exact absurd hres (error_ne_of_take 1 _ _ (by simp))
          · exact absurd hres (error_ne_of_take 1 _ _ (by simp))
        | ok companies =>
          by_cases hl : companies.length = 0
          · simp [hl, ha, authError, rateLimitError]
          · simp [hl, ha, authError, rateLimitError]

/-- The handler `GetLargestDailyTransactions` invokes the provider after identity
resolution and rate limiting only. -/
theorem GetLargestDailyTransactions_order (h : Handler) (now : Time) (args : Args) :
    UngatedOrder h now args (GetLargestDailyTransactions h now args) := by
  unfold UngatedOrder
  by_cases h1 : (argString args "type").2 = false
      ∨ ((argString args "type").1 ≠ "buyers" ∧ (argString args "type").1 ≠ "sellers")
  · simp [GetLargestDailyTransactions, h1]
  · cases hv : validateAndGetUser h.users now (argString args "api_key").1 with
    | error e => simp [GetLargestDailyTransactions, h1, hv]
    | ok user =>
      cases ha : (h.rateLimiter.Allow now user.ID user.Tier).1 with
      | false => simp [GetLargestDailyTransactions, h1, hv, ha]
      | true =>
        simp only [GetLargestDailyTransactions, h1, hv, ha]
        cases hp : h.redisClient.GetLargestDailyTransactions (argString args "type").1
            (freeOffset user.Tier ((argInt args "offset").getD 0))
            (freeLimit user.Tier ((argInt args "limit").getD 10)) with
        | error e =>
          simp only [if_false, Bool.true_eq_false]
          refine ⟨fun c _ => ⟨user, rfl, ha⟩, fun hres => ?_⟩
          rcases hres with hres | hres
          · exact absurd hres (error_ne_of_take 1 _ _ (by simp))
          · exact absurd hres (error_ne_of_take 1 _ _ (by simp))
        | ok transactions =>
          by_cases hl : transactions.length = 0
          · simp [hl, ha, authError, rateLimitError]
          · simp [hl, ha, authError, rateLimitError]

/-- The handler `GetLargestWeeklyTransactions` invokes the provider after
identity resolution and rate limiting only. -/
theorem GetLargestWeeklyTransactions_order (h : Handler) (now : Time) (args : Args) :
    UngatedOrder h now args (GetLargestWeeklyTransactions h now args) := by
  unfold UngatedOrder
  by_cases h1 : (argString args "type").2 = false
      ∨ ((argString args "type").1 ≠ "buyers" ∧ (argString args "type").1 ≠ "sellers")
  · simp [GetLargestWeeklyTransactions, h1]
  · cases hv : validateAndGetUser h.users now (argString args "api_key").1 with
    | error e => simp [GetLargestWeeklyTransactions, h1, hv]
    | ok user =>
      cases ha : (h.rateLimiter.Allow now user.ID user.Tier).1 with
      | false => simp [GetLargestWeeklyTransactions, h1, hv, ha]
      | true =>
        simp only [GetLargestWeeklyTransactions, h1, hv, ha]
        cases hp : h.redisClient.GetLargestWeeklyTransactions (argString args "type").1
            (freeOffset user.Tier ((argInt args "week_offset").getD 0))
            (freeOffset user.Tier ((argInt args "offset").getD 0))
            (freeLimit user.Tier ((argInt args "limit").getD 10)) with
        | error e =>
          simp only [if_false, Bool.true_eq_false]
          refine ⟨fun c _ => ⟨user, rfl, ha⟩, fun hres => ?_⟩
          rcases hres with hres | hres
          · exact absurd hres (error_ne_of_take 1 _ _ (by simp))
          · exact absurd hres (error_ne_of_take 1 _ _ (by simp))
        | ok r =>
          obtain ⟨transactions, targetWeek, currentDate, previousDate⟩ := r
          by_cases hl : transactions.length = 0
          · simp [hl, ha, authError, rateLimitError]
          · simp [hl, ha, authError, rateLimitError]

/-- C5, amended: in every tool handler, no data-provider operation other than
the ticker-to-CIK lookup of `get_company_filings` and
`get_insider_transactions` is invoked unless identity resolution has succeeded
and the rate limiter has admitted the request and, in the four handlers that
apply the feature gate, the gate has allowed the tool; a request that ends in an
authentication error, a rate-limit error or a tier-restriction error has made no
data-provider call other than that lookup. -/
theorem provider_calls_follow_access_control (h : Handler) (now : Time)
    (toolCall : ToolCall) :
    (∀ feature, gatedFeature toolCall.Name = some feature →
        GatedOrder h now toolCall.Name feature toolCall.Arguments
          (handleToolCall h now toolCall))
      ∧ (gatedFeature toolCall.Name = none →
        UngatedOrder h now toolCall.Arguments (handleToolCall h now toolCall))
      ∧ UngatedOrder h now toolCall.Arguments (SearchCompanies h now toolCall.Arguments) := by
  refine ⟨fun feature hg => gated_order h now toolCall.Name feature toolCall.Arguments hg,
    fun hn => ?_, SearchCompanies_order h now toolCall.Arguments⟩
  unfold gatedFeature at hn
  by_cases g1 : toolCall.Name = "get_company_filings"
  · simp [g1] at hn
  by_cases g2 : toolCall.Name = "get_recent_filings"
  · simp [g2] at hn
  by_cases g3 : toolCall.Name = "get_insider_transactions"
  · simp [g3] at hn
  by_cases g4 : toolCall.Name = "get_recent_insider_activity"
  · simp [g4] at hn
  unfold handleToolCall
  by_cases u1 : toolCall.Name = "get_company_info"
  · simp only [u1, if_true]
    exact GetCompanyInfo_order h now toolCall.Arguments
  by_cases u2 : toolCall.Name = "get_largest_daily_transactions"
  · simp only [u2, String.reduceEq, if_false, if_true]
    exact GetLargestDailyTransactions_order h now toolCall.Arguments
  by_cases u3 : toolCall.Name = "get_largest_weekly_transactions"
  · simp only [u3, String.reduceEq, if_false, if_true]
    exact GetLargestWeeklyTransactions_order h now toolCall.Arguments
  simp only [g1, g2, g3, g4, u1, u2, u3, if_false]
  exact ⟨fun c hc => absurd hc (by simp), fun _ => rfl⟩

/-- C5, witness of the amended claim: the anonymous caller of
`get_company_info` is resolved and admitted before the company is fetched. -/
theorem provider_calls_follow_access_control_witness :
    ∃ user, validateAndGetUser sampleUsers sampleNow "" = .ok user
      ∧ (NewRateLimiter.Allow sampleNow user.ID user.Tier).1 = true :=
  ((provider_calls_follow_access_control (sampleHandler NewRateLimiter) sampleNow
    ⟨"get_company_info", [("ticker", .str "AAPL")]⟩).2.1 (by decide)).1
      (.GetCompanyByTicker "AAPL") (by decide)

/-! ## Decimal text of counters -/

/-- The character of a digit is a digit with that value. -/
theorem digitChar_spec (d : Nat) :
    isDigitChar (digitChar d) = true ∧ digitVal (digitChar d) = d % 10 := by
  have key : ∀ r, r < 10 →
      isDigitChar (Char.ofNat (48 + r)) = true ∧ digitVal (Char.ofNat (48 + r)) = r := by
    decide
  exact key (d % 10) (Nat.mod_lt d (by decide))

/-- The value of a digit list extended by one digit. -/
theorem digitsVal_append_singleton (ds : List Char) (c : Char) :
    digitsVal (ds ++ [c]) = digitsVal ds * 10 + digitVal c := by
  simp [digitsVal, List.foldl_append]

/-- The digits `decimalAux` puts in front of the accumulator are a non-empty
list of digits whose value is the number, when the fuel covers its length. -/
theorem decimalAux_spec (fuel : Nat) :
    ∀ (n : Nat) (acc : List Char), n < 10 ^ fuel → 0 < fuel →
      ∃ ds, decimalAux fuel n acc = ds ++ acc ∧ ds ≠ [] ∧ ds.all isDigitChar = true
        ∧ digitsVal ds = n := by
  induction fuel with
  | zero => intro n acc _ h0; exact absurd h0 (by decide)
  | succ k ih =>
    intro n acc hn _
    unfold decimalAux
    by_cases h10 : n < 10
    · refine ⟨[digitChar n], by simp [h10], by simp, by simp [(digitChar_spec n).1], ?_⟩
      simp [digitsVal, (digitChar_spec n).2, Nat.mod_eq_of_lt h10]
    · have hk : 0 < k := by
        rcases Nat.eq_zero_or_pos k with h0 | h0
        · subst h0
          simp at hn
          omega
        · exact h0
      have hdiv : n / 10 < 10 ^ k := by
        rw [Nat.div_lt_iff_lt_mul (by decide)]
        rw [pow_succ] at hn
        exact hn
      obtain ⟨ds, h1, h2, h3, h4⟩ := ih (n / 10) (digitChar n :: acc) hdiv hk
      refine ⟨ds ++ [digitChar n], by simp [h10, h1], by simp, ?_, ?_⟩
      · simp [List.all_append, h3, (digitChar_spec n).1]
      · rw [digitsVal_append_singleton, h4, (digitChar_spec n).2]
        omega

/-- The decimal text of a number is a non-empty list of digits with its value. -/
theorem decimal_spec (n : Nat) :
    decimal n ≠ [] ∧ (decimal n).all isDigitChar = true ∧ digitsVal (decimal n) = n := by
  have hlt : n < 10 ^ (n + 1) := by
    calc n < 2 ^ n := Nat.lt_two_pow n
      _ ≤ 10 ^ n := Nat.pow_le_pow_left (by decide) n
      _ ≤ 10 ^ (n + 1) := Nat.pow_le_pow_right (by decide) (Nat.le_succ n)
  obtain ⟨ds, h1, h2, h3, h4⟩ := decimalAux_spec (n + 1) n [] hlt (Nat.succ_pos n)
  unfold decimal
  rw [h1]
  simp only [List.append_nil]
  exact ⟨h2, h3, h4⟩

/-- A non-empty list of digits starts with neither sign. -/
theorem digits_head (ds : List Char) (hne : ds ≠ []) (hall : ds.all isDigitChar = true) :
    ds.head? ≠ some '-' ∧ ds.head? ≠ some '+' := by
  cases ds with
  | nil => exact absurd rfl hne
  | cons c rest =>
    simp only [List.all_cons, Bool.and_eq_true] at hall
    have hc := hall.1
    constructor
    · intro h
      simp only [List.head?_cons, Option.some.injEq] at h
      subst h
      exact absurd hc (by decide)
    · intro h
      simp only [List.head?_cons, Option.some.injEq] at h
      subst h
      exact absurd hc (by decide)

/-- `Atoi` on a non-empty list of digits below the 64-bit maximum gives their value. -/
theorem atoiChars_digits (ds : List Char) (hne : ds ≠ []) (hall : ds.all isDigitChar = true)
    (hlt : digitsVal ds < 2 ^ 63) : atoiChars ds = ((digitsVal ds : Int), false) := by
  obtain ⟨hm, hp⟩ := digits_head ds hne hall
  have hemp : ds.isEmpty = false := by
    cases ds with
    | nil => exact absurd rfl hne
    | cons c rest => rfl
  unfold atoiChars
  have hd : decide (ds.head? = some '-') = false := decide_eq_false hm
  have hge : ¬ digitsVal ds ≥ 2 ^ 63 := by omega
  simp only [hd, hm, hp, or_self, if_false, hemp, hall, Bool.not_true, Bool.or_self,
    Bool.false_eq_true, hge, decide_False]

/-- `Atoi` on a minus sign followed by digits gives the negated value. -/
theorem atoiChars_minus (ds : List Char) (hne : ds ≠ []) (hall : ds.all isDigitChar = true)
    (hle : digitsVal ds ≤ 2 ^ 63) : atoiChars ('-' :: ds) = (-(digitsVal ds : Int), false) := by
  have hemp : ds.isEmpty = false := by
    cases ds with
    | nil => exact absurd rfl hne
    | cons c rest => rfl
  unfold atoiChars
  have hgt : ¬ digitsVal ds > 2 ^ 63 := by omega
  simp only [List.head?_cons, decide_True, true_or, if_true, List.tail_cons, hemp, hall,
    Bool.not_true, Bool.or_self, Bool.false_eq_true, if_false, hgt]

/-- `Atoi` reads back the decimal text of every 64-bit integer. -/
theorem Atoi_itoa (m : Int) (hlo : -(2 ^ 63) ≤ m) (hhi : m < 2 ^ 63) :
    Atoi (itoa m) = (m, false) := by
  obtain ⟨hne, hall, hval⟩ := decimal_spec m.natAbs
  show atoiChars (itoaChars m) = (m, false)
  unfold itoaChars
  by_cases hneg : m < 0
  · rw [if_pos hneg, List.singleton_append, atoiChars_minus _ hne hall (by rw [hval]; omega),
      hval]
    congr 1
    omega
  · rw [if_neg hneg, List.nil_append, atoiChars_digits _ hne hall (by rw [hval]; omega), hval]
    congr 1
    omega
/-- On the bytes Redis counts with, `Atoi` reads the same value. -/
theorem atoiChars_of_redisIntChars (cs : List Char) (n : Int)
    (h : redisIntChars cs = some n) : (atoiChars cs).1 = n := by
  cases cs with
  | nil => simp [redisIntChars] at h
  | cons c rest =>
    unfold redisIntChars at h
    by_cases hc : c = '-'
    · subst hc
      simp only [List.head?_cons, decide_True, if_true, List.tail_cons] at h
      split at h
      · exact absurd h (by simp)
      · rename_i hbad
        simp only [Bool.or_eq_true, Bool.not_eq_true', not_or, Bool.not_eq_true,
          Bool.not_eq_false] at hbad
        have hne : rest ≠ [] := by
          intro e
          rw [e] at hbad
          exact absurd hbad.1 (by decide)
        split at h
        · split at h
          · rename_i heq
            simp at heq
          · exact absurd h (by simp)
        · split at h
          · exact absurd h (by simp)
          · rename_i hgt
            simp only [Option.some.injEq] at h
            rw [atoiChars_minus rest hne hbad.2 (by omega)]
            exact h
    · have hd : decide ((c :: rest).head? = some '-') = false := by
        simp [hc]
      simp only [hd, Bool.false_eq_true, if_false] at h
      split at h
      · exact absurd h (by simp)
      · rename_i hbad
        simp only [Bool.or_eq_true, Bool.not_eq_true', not_or, Bool.not_eq_true,
          Bool.not_eq_false] at hbad
        split at h
        · split at h
          · rename_i heq
            simp only [Option.some.injEq] at h
            rw [heq, ← h]
            decide
          · exact absurd h (by simp)
        · split at h
          · exact absurd h (by simp)
          · rename_i hge
            simp only [Option.some.injEq] at h
            rw [atoiChars_digits (c :: rest) (by simp) hbad.2 (by omega)]
            exact h

/-- On the integers Redis counts with, `Atoi` reads the same value. -/
theorem Atoi_of_redisInt (s : String) (n : Int) (h : redisInt s = some n) :
    (Atoi s).1 = n :=
  atoiChars_of_redisIntChars s.toList n h

/-! ## Counters and the middleware -/

/-- No hourly key is a daily key. -/
theorem hourKey_ne_dayKey (k1 k2 : String) (t1 t2 : Time) : hourKey k1 t1 ≠ dayKey k2 t2 := by
  apply ne_of_take 12
  simp [hourKey, dayKey]

/-- The command `INCR` leaves every other key as it was. -/
theorem incrData_other (data : String → Option RedisValue) (key k : String) (hk : k ≠ key) :
    incrData data key k = data k := by
  unfold incrData
  cases h1 : data key with
  | none => simp [hk]
  | some v =>
    cases v with
    | str s =>
      simp only
      cases h2 : redisInt s with
      | none => rfl
      | some n =>
        simp only
        split
        · simp [hk]
        · rfl
    | hash fields => rfl

/-- The pipeline pair `INCR`, `EXPIRE` leaves every other key as it was. -/
theorem incrExpire_other (r : Redis) (key : String) (seconds : Int) (k : String)
    (hk : k ≠ key) : (incrExpire r key seconds).data k = r.data k :=
  incrData_other r.data key k hk

/-- The integers Redis counts with are 64-bit integers. -/
theorem redisIntChars_range (cs : List Char) (n : Int) (h : redisIntChars cs = some n) :
    -(2 ^ 63) ≤ n ∧ n < 2 ^ 63 := by
  unfold redisIntChars at h
  by_cases hneg : cs.head? = some '-'
  · simp only [hneg, decide_True, if_true] at h
    split at h
    · exact absurd h (by simp)
    · split at h
      · split at h
        · simp only [Option.some.injEq] at h
          omega
        · exact absurd h (by simp)
      · split at h
        · exact absurd h (by simp)
        · simp only [Option.some.injEq] at h
          omega
  · have hd : decide (cs.head? = some '-') = false := decide_eq_false hneg
    simp only [hd, Bool.false_eq_true, if_false] at h
    split at h
    · exact absurd h (by simp)
    · split at h
      · split at h
        · simp only [Option.some.injEq] at h
          omega
        · exact absurd h (by simp)
      · split at h
        · exact absurd h (by simp)
        · simp only [Option.some.injEq] at h
          omega

/-- On a key it can count on, `INCR` raises the count by exactly one. -/
theorem incrExpire_usage (r : Redis) (key : String) (seconds : Int) (hc : Countable r key) :
    usage (incrExpire r key seconds) key = usage r key + 1 := by
  unfold usage incrExpire
  simp only
  rcases hc with hnone | ⟨s, n, hs, hn, hlt⟩
  · have h1 : incrData r.data key key = some (.str "1") := by
      simp [incrData, hnone]
    rw [h1, hnone]
    decide
  · have hlt2 : n < 9223372036854775807 := by
      have h63 : (2 : Int) ^ 63 - 1 = 9223372036854775807 := by norm_num
      rw [h63] at hlt
      exact hlt
    have h1 : incrData r.data key key = some (.str (itoa (n + 1))) := by
      simp [incrData, hs, hn, hlt2]
    have hrange := redisIntChars_range s.toList n hn
    rw [h1, hs]
    simp only
    rw [Atoi_itoa (n + 1) (by omega) (by omega), Atoi_of_redisInt s n hn]

/-- C8, amended: for a request with a valid API key, the middleware leaves the
quota ledger exactly as it was when `checkRateLimit` rejects the request; when it
admits, and the ledger is reached and the two counters of the key are absent or
hold integers below the 64-bit maximum, the hourly counter and the daily counter
of that key are each raised by exactly 1 and every other key is left as it
was. -/
theorem Middleware_counters (config : Config) (users rdb : Redis)
    (tAuth tCheck tIncr : Time) (c : Request) (user : User)
    (hkey : extractAPIKey c ≠ "")
    (hvalid : ValidateAPIKey users tAuth (extractAPIKey c) = .ok user) :
    ((checkRateLimit config rdb tCheck (extractAPIKey c) user.Tier).2 = false →
        (Middleware config users rdb tAuth tCheck tIncr c).2 = rdb)
      ∧ ((checkRateLimit config rdb tCheck (extractAPIKey c) user.Tier).2 = true →
        rdb.up = true →
        Countable rdb (hourKey (extractAPIKey c) tIncr) →
        Countable rdb (dayKey (extractAPIKey c) tIncr) →
          usage (Middleware config users rdb tAuth tCheck tIncr c).2
              (hourKey (extractAPIKey c) tIncr)
            = usage rdb (hourKey (extractAPIKey c) tIncr) + 1
          ∧ usage (Middleware config users rdb tAuth tCheck tIncr c).2
              (dayKey (extractAPIKey c) tIncr)
            = usage rdb (dayKey (extractAPIKey c) tIncr) + 1
          ∧ ∀ k, k ≠ hourKey (extractAPIKey c) tIncr → k ≠ dayKey (extractAPIKey c) tIncr →
              (Middleware config users rdb tAuth tCheck tIncr c).2.data k = rdb.data k) := by
  constructor
  · intro hrej
    simp [Middleware, hkey, hvalid, hrej]
  · intro hadm hup hch hcd
    have hM : (Middleware config users rdb tAuth tCheck tIncr c).2
        = incrExpire (incrExpire rdb (hourKey (extractAPIKey c) tIncr) 3600)
            (dayKey (extractAPIKey c) tIncr) 86400 := by
      simp [Middleware, hkey, hvalid, hadm, incrementUsage, hup]
    have hne := hourKey_ne_dayKey (extractAPIKey c) (extractAPIKey c) tIncr tIncr
    rw [hM]
    refine ⟨?_, ?_, ?_⟩
    · have h1 : usage (incrExpire (incrExpire rdb (hourKey (extractAPIKey c) tIncr) 3600)
            (dayKey (extractAPIKey c) tIncr) 86400) (hourKey (extractAPIKey c) tIncr)
          = usage (incrExpire rdb (hourKey (extractAPIKey c) tIncr) 3600)
            (hourKey (extractAPIKey c) tIncr) := by
        unfold usage
        rw [incrExpire_other _ _ _ _ hne]
      rw [h1, incrExpire_usage rdb _ 3600 hch]
    · have hcd2 : Countable (incrExpire rdb (hourKey (extractAPIKey c) tIncr) 3600)
          (dayKey (extractAPIKey c) tIncr) := by
        unfold Countable at hcd ⊢
        rw [incrExpire_other _ _ _ _ hne.symm]
        exact hcd
      rw [incrExpire_usage _ _ 86400 hcd2]
      unfold usage
      rw [incrExpire_other _ _ _ _ hne.symm]
    · intro k hk1 hk2
      rw [incrExpire_other _ _ _ _ hk2, incrExpire_other _ _ _ _ hk1]

/-- C8, witness of the amended claim: the key `sk-1` has made 9 requests in the
hour and 50 on the day; the middleware admits the request and the hourly counter
reads 10. -/
theorem Middleware_counters_witness :
    usage (Middleware sampleConfig sampleUsers (sampleLedger "9" "50") sampleNow sampleNow
        sampleNow sampleRequest).2 (hourKey (extractAPIKey sampleRequest) sampleNow)
      = usage (sampleLedger "9" "50") (hourKey (extractAPIKey sampleRequest) sampleNow) + 1 :=
  ((Middleware_counters sampleConfig sampleUsers (sampleLedger "9" "50") sampleNow sampleNow
    sampleNow sampleRequest sampleUser (by decide) rfl).2 (by decide) rfl
    (Or.inr ⟨"9", 9, by decide, by decide, by decide⟩)
    (Or.inr ⟨"50", 50, by decide, by decide, by decide⟩)).1

/-! ## Unknown keys and missing account records -/

/-- C12: for every non-empty API key that the credential store does not hold,
`ValidateAPIKey` returns no user and the error `invalid API key`, and the
middleware aborts a request carrying that key as unauthorized and leaves the
quota ledger exactly as it was. -/
theorem unknown_key_unauthorized (users : Redis) (apiKey : String) (hne : apiKey ≠ "")
    (habsent : users.data ("api_key:" ++ apiKey) = none) :
    (∀ now, ValidateAPIKey users now apiKey = .error "invalid API key")
      ∧ ∀ (config : Config) (rdb : Redis) (tAuth tCheck tIncr : Time) (c : Request),
          extractAPIKey c = apiKey →
            Middleware config users rdb tAuth tCheck tIncr c = (.unauthorized, rdb) := by
  have hv : ∀ now, ValidateAPIKey users now apiKey = .error "invalid API key" := by
    intro now
    unfold ValidateAPIKey Redis.Get
    by_cases hup : users.up = true
    · simp [hup, habsent]
    · simp [hup]
  refine ⟨hv, ?_⟩
  intro config rdb tAuth tCheck tIncr c hc
  unfold Middleware
  simp [hc, hne, hv tAuth]

/-- C12, witness: the key `sk-unknown` is not in the sample credential store; the
request is aborted and the ledger keeps its counters. -/
theorem unknown_key_unauthorized_witness :
    Middleware sampleConfig sampleUsers (sampleLedger "9" "50") sampleNow sampleNow sampleNow
        unknownRequest
      = (.unauthorized, sampleLedger "9" "50") :=
  (unknown_key_unauthorized sampleUsers "sk-unknown" (by decide) (by decide)).2 sampleConfig
    (sampleLedger "9" "50") sampleNow sampleNow sampleNow unknownRequest (by decide)

/-- C13, refuted as stated: the key `sk-1` is in the credential store and the
record of its account is missing, as for every account that `CreateUser` has just
made; `HGETALL` answers with an empty hash and no error, and `ValidateAPIKey`
returns a free user, not the error `user not found`. When the record cannot be
read (here: it is not a hash) the error is returned. -/
theorem missing_record_is_free_user :
    ValidateAPIKey orphanUsers sampleNow "sk-1"
        = .ok { ID := "a@b.c", APIKey := "sk-1", Tier := "free", Email := "a@b.c",
                Created := sampleNow, LastUsed := sampleNow }
      ∧ ValidateAPIKey
          { orphanUsers with
            data := fun k => if k = "email:a@b.c" then some (.str "x") else orphanUsers.data k }
          sampleNow "sk-1"
        = .error "user not found" := by
  constructor <;> rfl

/-! ## Free-tier shaping of the largest-transaction queries -/

/-- The one call `GetLargestDailyTransactions` makes for an admitted caller: the
requested offset and limit (0 and 10 by default) after the free-tier rules. -/
theorem GetLargestDailyTransactions_calls (h : Handler) (now : Time) (args : Args)
    (user : User) (htype : typeAccepted args = true)
    (hu : validateAndGetUser h.users now (argString args "api_key").1 = .ok user)
    (ha : (h.rateLimiter.Allow now user.ID user.Tier).1 = true) :
    (GetLargestDailyTransactions h now args).calls
      = [.GetLargestDailyTransactions (argString args "type").1
          (freeOffset user.Tier ((argInt args "offset").getD 0))
          (freeLimit user.Tier ((argInt args "limit").getD 10))] := by
  have h1 : ¬ ((argString args "type").2 = false
      ∨ ((argString args "type").1 ≠ "buyers" ∧ (argString args "type").1 ≠ "sellers")) := by
    unfold typeAccepted at htype
    simp only [Bool.and_eq_true, Bool.or_eq_true, decide_eq_true_eq] at htype
    intro hc
    rcases hc with hc | hc
    · rw [htype.1] at hc
      exact absurd hc (by decide)
    · rcases htype.2 with hb | hs
      · exact hc.1 hb
      · exact hc.2 hs
  simp only [GetLargestDailyTransactions, h1, hu, ha]
  cases hp : h.redisClient.GetLargestDailyTransactions (argString args "type").1
      (freeOffset user.Tier ((argInt args "offset").getD 0))
      (freeLimit user.Tier ((argInt args "limit").getD 10)) with
  | error e => simp
  | ok transactions => simp

/-- The one call `GetLargestWeeklyTransactions` makes for an admitted caller: the
requested week offset, offset and limit (0, 0 and 10 by default) after the
free-tier rules. -/
theorem GetLargestWeeklyTransactions_calls (h : Handler) (now : Time) (args : Args)
    (user : User) (htype : typeAccepted args = true)
    (hu : validateAndGetUser h.users now (argString args "api_key").1 = .ok user)
    (ha : (h.rateLimiter.Allow now user.ID user.Tier).1 = true) :
    (GetLargestWeeklyTransactions h now args).calls
      = [.GetLargestWeeklyTransactions (argString args "type").1
          (freeOffset user.Tier ((argInt args "week_offset").getD 0))
          (freeOffset user.Tier ((argInt args "offset").getD 0))
          (freeLimit user.Tier ((argInt args "limit").getD 10))] := by
  have h1 : ¬ ((argString args "type").2 = false
      ∨ ((argString args "type").1 ≠ "buyers" ∧ (argString args "type").1 ≠ "sellers")) := by
    unfold typeAccepted at htype
    simp only [Bool.and_eq_true, Bool.or_eq_true, decide_eq_true_eq] at htype
    intro hc
    rcases hc with hc | hc
    · rw [htype.1] at hc
      exact absurd hc (by decide)
    · rcases htype.2 with hb | hs
      · exact hc.1 hb
      · exact hc.2 hs
  simp only [GetLargestWeeklyTransactions, h1, hu, ha]
  cases hp : h.redisClient.GetLargestWeeklyTransactions (argString args "type").1
      (freeOffset user.Tier ((argInt args "week_offset").getD 0))
      (freeOffset user.Tier ((argInt args "offset").getD 0))
      (freeLimit user.Tier ((argInt args "limit").getD 10)) with
  | error e => simp
  | ok r =>
    obtain ⟨transactions, targetWeek, currentDate, previousDate⟩ := r
    simp

/-- The free-tier cap on the limit is the minimum with 3. -/
theorem freeLimit_free (limit : Int) : freeLimit "free" limit = min limit 3 := by
  unfold freeLimit
  by_cases h : limit > 3
  · simp [h]
    omega
  · simp [h]
    omega

/-- The free-tier rule on an offset is the minimum with 0. -/
theorem freeOffset_free (offset : Int) : freeOffset "free" offset = min offset 0 := by
  unfold freeOffset
  by_cases h : offset > 0
  · simp [h]
    omega
  · simp [h]
    omega

/-- C14: for an admitted free-tier caller and every requested limit (10 when the
argument is absent or not a number), the limit that `GetLargestDailyTransactions`
and `GetLargestWeeklyTransactions` pass to the data provider is the minimum of the
requested limit and 3, so it is never greater than 3, and it is 3 when no limit is
requested. -/
theorem free_limit_clamped (h : Handler) (now : Time) (args : Args) (user : User)
    (htype : typeAccepted args = true)
    (hu : validateAndGetUser h.users now (argString args "api_key").1 = .ok user)
    (hfree : user.Tier = "free")
    (ha : (h.rateLimiter.Allow now user.ID user.Tier).1 = true) :
    (GetLargestDailyTransactions h now args).calls
        = [.GetLargestDailyTransactions (argString args "type").1
            (freeOffset "free" ((argInt args "offset").getD 0))
            (min ((argInt args "limit").getD 10) 3)]
      ∧ (GetLargestWeeklyTransactions h now args).calls
        = [.GetLargestWeeklyTransactions (argString args "type").1
            (freeOffset "free" ((argInt args "week_offset").getD 0))
            (freeOffset "free" ((argInt args "offset").getD 0))
            (min ((argInt args "limit").getD 10) 3)]
      ∧ min ((argInt args "limit").getD 10) 3 ≤ 3
      ∧ (argInt args "limit" = none → min ((argInt args "limit").getD 10) 3 = 3) := by
  refine ⟨?_, ?_, min_le_right _ _, ?_⟩
  · rw [GetLargestDailyTransactions_calls h now args user htype hu ha, hfree, freeLimit_free]
  · rw [GetLargestWeeklyTransactions_calls h now args user htype hu ha, hfree, freeLimit_free]
  · intro hn
    rw [hn]
    decide

/-- C14, witness: the anonymous caller asks for 100 weekly results and the
provider is asked for 3. -/
theorem free_limit_clamped_witness :
    (GetLargestWeeklyTransactions (sampleHandler NewRateLimiter) sampleNow
        (weeklyArgs 100 0 0)).calls
      = [.GetLargestWeeklyTransactions "buyers" 0 0 3] :=
  (free_limit_clamped (sampleHandler NewRateLimiter) sampleNow (weeklyArgs 100 0 0)
    anonymousUser (by decide) rfl rfl (by decide)).2.1

/-- C15, the code at the failing input: the anonymous free caller asks for the
offset -5 and the week offset -2, and the provider is asked for exactly these, not
for 0: the guards `offset > 0` and `weekOffset > 0` let negative values pass. -/
theorem negative_offset_passed :
    validateAndGetUser sampleUsers sampleNow "" = .ok anonymousUser
      ∧ anonymousUser.Tier = "free"
      ∧ (GetLargestWeeklyTransactions (sampleHandler NewRateLimiter) sampleNow
          (weeklyArgs 100 (-5) (-2))).calls
        = [.GetLargestWeeklyTransactions "buyers" (-2) (-5) 3]
      ∧ (GetLargestDailyTransactions (sampleHandler NewRateLimiter) sampleNow
          (weeklyArgs 100 (-5) (-2))).calls
        = [.GetLargestDailyTransactions "buyers" (-5) 3] := by
  refine ⟨rfl, rfl, by decide, by decide⟩

/-- What the guards on the offsets compute for an admitted free-tier caller: the
offset passed to the data provider and, in the weekly variant, the week offset
passed are the minimum of the requested value (0 when absent) and 0, which is 0
for every request that is not negative. -/
theorem free_offset_reset (h : Handler) (now : Time) (args : Args) (user : User)
    (htype : typeAccepted args = true)
    (hu : validateAndGetUser h.users now (argString args "api_key").1 = .ok user)
    (hfree : user.Tier = "free")
    (ha : (h.rateLimiter.Allow now user.ID user.Tier).1 = true) :
    (GetLargestDailyTransactions h now args).calls
        = [.GetLargestDailyTransactions (argString args "type").1
            (min ((argInt args "offset").getD 0) 0)
            (min ((argInt args "limit").getD 10) 3)]
      ∧ (GetLargestWeeklyTransactions h now args).calls
        = [.GetLargestWeeklyTransactions (argString args "type").1
            (min ((argInt args "week_offset").getD 0) 0)
            (min ((argInt args "offset").getD 0) 0)
            (min ((argInt args "limit").getD 10) 3)]
      ∧ (0 ≤ (argInt args "offset").getD 0 → min ((argInt args "offset").getD 0) 0 = 0)
      ∧ (0 ≤ (argInt args "week_offset").getD 0 →
          min ((argInt args "week_offset").getD 0) 0 = 0) := by
  refine ⟨?_, ?_, fun hp => min_eq_right hp, fun hp => min_eq_right hp⟩
  · rw [GetLargestDailyTransactions_calls h now args user htype hu ha, hfree, freeLimit_free,
      freeOffset_free]
  · rw [GetLargestWeeklyTransactions_calls h now args user htype hu ha, hfree, freeLimit_free,
      freeOffset_free, freeOffset_free]

/-- An instance: limit 100, offset 20 and week offset 3 of the anonymous free
caller are rewritten to limit 3, offset 0 and week offset 0. -/
theorem free_offset_reset_witness :
    (GetLargestWeeklyTransactions (sampleHandler NewRateLimiter) sampleNow
        (weeklyArgs 100 20 3)).calls
      = [.GetLargestWeeklyTransactions "buyers" 0 0 3] :=
  (free_offset_reset (sampleHandler NewRateLimiter) sampleNow (weeklyArgs 100 20 3)
    anonymousUser (by decide) rfl rfl (by decide)).2.1

/-! ## What `checkRateLimit` reports -/

/-- The value `Atoi` returns is a 64-bit integer. -/
theorem atoiChars_range (cs : List Char) :
    -(2 ^ 63) ≤ (atoiChars cs).1 ∧ (atoiChars cs).1 < 2 ^ 63 := by
  unfold atoiChars
  simp only
  generalize (if cs.head? = some '-' ∨ cs.head? = some '+' then cs.tail else cs) = ds
  generalize decide (cs.head? = some '-') = neg
  split_ifs with h1 h2 h3 h4
  · constructor <;> norm_num
  · constructor <;> norm_num
  · refine ⟨?_, ?_⟩ <;> simp only <;> omega
  · constructor <;> norm_num
  · refine ⟨?_, ?_⟩ <;> simp only <;> omega

/-- The usages `checkRateLimit` reads are 64-bit integers. -/
theorem readUsage_range (rdb : Redis) (hKey dKey : String) :
    (-(2 ^ 63) ≤ (readUsage rdb hKey dKey).1 ∧ (readUsage rdb hKey dKey).1 < 2 ^ 63)
      ∧ (-(2 ^ 63) ≤ (readUsage rdb hKey dKey).2 ∧ (readUsage rdb hKey dKey).2 < 2 ^ 63) := by
  have hz : -(2 ^ 63) ≤ (0 : Int) ∧ (0 : Int) < 2 ^ 63 := by constructor <;> norm_num
  unfold readUsage
  simp only
  cases firstErr (rdb.Get hKey) (rdb.Get dKey) with
  | some e => exact ⟨hz, hz⟩
  | none =>
    simp only
    constructor
    · cases rdb.Get hKey with
      | ok v => exact atoiChars_range v.toList
      | error e => exact hz
    · cases rdb.Get dKey with
      | ok v => exact atoiChars_range v.toList
      | error e => exact hz

/-- Wrapping leaves a 64-bit value as it is. -/
theorem wrap64_of_range (x : Int) (hlo : -(2 ^ 63) ≤ x) (hhi : x < 2 ^ 63) : wrap64 x = x := by
  unfold wrap64
  omega

/-- C16: the `RateLimitInfo` of `checkRateLimit` carries the limits of the tier
and the usages read, and for non-negative limits and usages the remaining quota
is the plain difference, not clamped: `HourlyRemaining = HourlyLimit - HourlyUsed`
and `DailyRemaining = DailyLimit - DailyUsed`; a usage equal to its limit gives
remaining 0 together with a rejection, and a usage above its limit gives a
negative remaining. -/
theorem checkRateLimit_remaining (config : Config) (rdb : Redis) (now : Time)
    (apiKey tier : String)
    (hlh : 0 ≤ (getTierLimits config tier).1 ∧ (getTierLimits config tier).1 < 2 ^ 63)
    (hld : 0 ≤ (getTierLimits config tier).2 ∧ (getTierLimits config tier).2 < 2 ^ 63)
    (huh : 0 ≤ (readUsage rdb (hourKey apiKey now) (dayKey apiKey now)).1)
    (hud : 0 ≤ (readUsage rdb (hourKey apiKey now) (dayKey apiKey now)).2) :
    ((checkRateLimit config rdb now apiKey tier).1.HourlyLimit = (getTierLimits config tier).1
        ∧ (checkRateLimit config rdb now apiKey tier).1.DailyLimit
          = (getTierLimits config tier).2
        ∧ (checkRateLimit config rdb now apiKey tier).1.HourlyUsed
          = (readUsage rdb (hourKey apiKey now) (dayKey apiKey now)).1
        ∧ (checkRateLimit config rdb now apiKey tier).1.DailyUsed
          = (readUsage rdb (hourKey apiKey now) (dayKey apiKey now)).2)
      ∧ ((checkRateLimit config rdb now apiKey tier).1.HourlyRemaining
          = (checkRateLimit config rdb now apiKey tier).1.HourlyLimit
            - (checkRateLimit config rdb now apiKey tier).1.HourlyUsed
        ∧ (checkRateLimit config rdb now apiKey tier).1.DailyRemaining
          = (checkRateLimit config rdb now apiKey tier).1.DailyLimit
            - (checkRateLimit config rdb now apiKey tier).1.DailyUsed)
      ∧ ((checkRateLimit config rdb now apiKey tier).1.HourlyUsed
          = (checkRateLimit config rdb now apiKey tier).1.HourlyLimit →
        (checkRateLimit config rdb now apiKey tier).1.HourlyRemaining = 0
          ∧ (checkRateLimit config rdb now apiKey tier).2 = false)
      ∧ ((checkRateLimit config rdb now apiKey tier).1.DailyUsed
          = (checkRateLimit config rdb now apiKey tier).1.DailyLimit →
        (checkRateLimit config rdb now apiKey tier).1.DailyRemaining = 0
          ∧ (checkRateLimit config rdb now apiKey tier).2 = false)
      ∧ ((checkRateLimit config rdb now apiKey tier).1.HourlyUsed
          > (checkRateLimit config rdb now apiKey tier).1.HourlyLimit →
        (checkRateLimit config rdb now apiKey tier).1.HourlyRemaining < 0)
      ∧ ((checkRateLimit config rdb now apiKey tier).1.DailyUsed
          > (checkRateLimit config rdb now apiKey tier).1.DailyLimit →
        (checkRateLimit config rdb now apiKey tier).1.DailyRemaining < 0) := by
  obtain ⟨hr1, hr2⟩ := readUsage_range rdb (hourKey apiKey now) (dayKey apiKey now)
  have hH : (checkRateLimit config rdb now apiKey tier).1.HourlyRemaining
      = (getTierLimits config tier).1
        - (readUsage rdb (hourKey apiKey now) (dayKey apiKey now)).1 :=
    wrap64_of_range _ (by omega) (by omega)
  have hD : (checkRateLimit config rdb now apiKey tier).1.DailyRemaining
      = (getTierLimits config tier).2
        - (readUsage rdb (hourKey apiKey now) (dayKey apiKey now)).2 :=
    wrap64_of_range _ (by omega) (by omega)
  have hA : (checkRateLimit config rdb now apiKey tier).2
      = (decide ((readUsage rdb (hourKey apiKey now) (dayKey apiKey now)).1
            < (getTierLimits config tier).1)
          && decide ((readUsage rdb (hourKey apiKey now) (dayKey apiKey now)).2
            < (getTierLimits config tier).2)) := rfl
  refine ⟨⟨rfl, rfl, rfl, rfl⟩, ⟨hH, hD⟩, ?_, ?_, ?_, ?_⟩
  · intro he
    have he2 : (readUsage rdb (hourKey apiKey now) (dayKey apiKey now)).1
        = (getTierLimits config tier).1 := he
    refine ⟨by rw [hH]; omega, ?_⟩
    rw [hA, he2]
    simp
  · intro he
    have he2 : (readUsage rdb (hourKey apiKey now) (dayKey apiKey now)).2
        = (getTierLimits config tier).2 := he
    refine ⟨by rw [hD]; omega, ?_⟩
    rw [hA, he2]
    simp
  · intro hgt
    have hgt2 : (readUsage rdb (hourKey apiKey now) (dayKey apiKey now)).1
        > (getTierLimits config tier).1 := hgt
    rw [hH]
    omega
  · intro hgt
    have hgt2 : (readUsage rdb (hourKey apiKey now) (dayKey apiKey now)).2
        > (getTierLimits config tier).2 := hgt
    rw [hD]
    omega

/-- C16, witness: the key has used all 10 requests of the hour; the remaining
hourly quota is 0 and the request is rejected. -/
theorem checkRateLimit_remaining_witness :
    (checkRateLimit sampleConfig (sampleLedger "10" "50") sampleNow "sk-1" "free").1.HourlyRemaining
        = 0
      ∧ (checkRateLimit sampleConfig (sampleLedger "10" "50") sampleNow "sk-1" "free").2
        = false :=
  (checkRateLimit_remaining sampleConfig (sampleLedger "10" "50") sampleNow "sk-1" "free"
    (by decide) (by decide) (by decide) (by decide)).2.2.1 (by decide)

/-- C17, the code at the failing input: the hourly key of `sk-1` is absent and its
daily key holds 100, the daily limit of the free tier. `Exec` returns the
`redis.Nil` of the hourly `GET` as its error, neither reply is read, and
`checkRateLimit` reports a daily usage of 0 and admits the request. In the same
way an absent daily key hides an hourly counter that has reached its limit. -/
theorem absent_key_hides_other_counter :
    ((dailyOnlyLedger "100").Get (dayKey "sk-1" sampleNow) = .ok "100"
        ∧ (checkRateLimit sampleConfig (dailyOnlyLedger "100") sampleNow "sk-1"
            "free").1.DailyLimit = 100
        ∧ (checkRateLimit sampleConfig (dailyOnlyLedger "100") sampleNow "sk-1"
            "free").1.DailyUsed = 0
        ∧ (checkRateLimit sampleConfig (dailyOnlyLedger "100") sampleNow "sk-1" "free").2
          = true)
      ∧ ((hourlyOnlyLedger "10").Get (hourKey "sk-1" sampleNow) = .ok "10"
        ∧ (checkRateLimit sampleConfig (hourlyOnlyLedger "10") sampleNow "sk-1"
            "free").1.HourlyLimit = 10
        ∧ (checkRateLimit sampleConfig (hourlyOnlyLedger "10") sampleNow "sk-1"
            "free").1.HourlyUsed = 0
        ∧ (checkRateLimit sampleConfig (hourlyOnlyLedger "10") sampleNow "sk-1" "free").2
          = true) := by
  refine ⟨⟨rfl, by decide, by decide, by decide⟩, rfl, by decide, by decide, by decide⟩

/-- C18: if the batched read of the two counters fails, that is `Exec` returns an
error, `checkRateLimit` reports the usages 0 and 0, and it admits the request
exactly when both limits of the tier are positive. -/
theorem checkRateLimit_fail_open (config : Config) (rdb : Redis) (now : Time)
    (apiKey tier : String) (e : RedisError)
    (hfail : firstErr (rdb.Get (hourKey apiKey now)) (rdb.Get (dayKey apiKey now)) = some e) :
    (checkRateLimit config rdb now apiKey tier).1.HourlyUsed = 0
      ∧ (checkRateLimit config rdb now apiKey tier).1.DailyUsed = 0
      ∧ ((checkRateLimit config rdb now apiKey tier).2 = true ↔
        0 < (getTierLimits config tier).1 ∧ 0 < (getTierLimits config tier).2) := by
  have hu : readUsage rdb (hourKey apiKey now) (dayKey apiKey now) = (0, 0) := by
    unfold readUsage
    simp only [hfail]
  simp [checkRateLimit, hu]

/-- C18, witness: the ledger cannot be reached; the free tier has positive limits
and the request is admitted. -/
theorem checkRateLimit_fail_open_witness :
    (checkRateLimit sampleConfig downLedger sampleNow "sk-1" "free").2 = true :=
  (checkRateLimit_fail_open sampleConfig downLedger sampleNow "sk-1" "free" .conn
    rfl).2.2.2 (by decide)

/-! ## Reset times -/

/-- C19: for every clock reading with Unix time `t`, `checkRateLimit` reports as
`ResetHour` the least multiple of 3600 strictly greater than `t` and as
`ResetDay` the least multiple of 86400 strictly greater than `t`, so
`t < ResetHour <= t + 3600` and `t < ResetDay <= t + 86400`. -/
theorem reset_times (config : Config) (rdb : Redis) (now : Time) (apiKey tier : String) :
    ((3600 : Int) ∣ (checkRateLimit config rdb now apiKey tier).1.ResetHour
        ∧ now.sec < (checkRateLimit config rdb now apiKey tier).1.ResetHour
        ∧ (checkRateLimit config rdb now apiKey tier).1.ResetHour ≤ now.sec + 3600
        ∧ ∀ m : Int, (3600 : Int) ∣ m → now.sec < m →
            (checkRateLimit config rdb now apiKey tier).1.ResetHour ≤ m)
      ∧ ((86400 : Int) ∣ (checkRateLimit config rdb now apiKey tier).1.ResetDay
        ∧ now.sec < (checkRateLimit config rdb now apiKey tier).1.ResetDay
        ∧ (checkRateLimit config rdb now apiKey tier).1.ResetDay ≤ now.sec + 86400
        ∧ ∀ m : Int, (86400 : Int) ∣ m → now.sec < m →
            (checkRateLimit config rdb now apiKey tier).1.ResetDay ≤ m) := by
  have hH : (checkRateLimit config rdb now apiKey tier).1.ResetHour
      = now.sec - (now.sec + 62135596800) % 3600 + 3600 := rfl
  have hD : (checkRateLimit config rdb now apiKey tier).1.ResetDay
      = now.sec - (now.sec + 62135596800) % 86400 + 86400 := rfl
  rw [hH, hD]
  refine ⟨⟨?_, ?_, ?_, ?_⟩, ?_, ?_, ?_, ?_⟩
  · omega
  · omega
  · omega
  · intro m hm hlt
    omega
  · omega
  · omega
  · omega
  · intro m hm hlt
    omega

/-! ## The calendar of the counter buckets -/

/-- The year and the day of the year that `absDate` computes, in terms of the
400-, 100-, 4- and 1-year cycles since the absolute epoch: the cycle counts are in
range, the days add up, and a 366th day occurs only in the fourth year of a 4-year
cycle that is not cut short by a century. -/
theorem absYearDay_spec (abs : Int) (h0 : 0 ≤ abs) :
    ∃ n400 n100 n4 n1 : Int,
      (absYearDay abs).1 = 400 * n400 + 100 * n100 + 4 * n4 + n1 + absoluteZeroYear
        ∧ 0 ≤ n400 ∧ 0 ≤ n100 ∧ n100 ≤ 3 ∧ 0 ≤ n4 ∧ n4 ≤ 24 ∧ 0 ≤ n1 ∧ n1 ≤ 3
        ∧ abs / 86400 = 146097 * n400 + 36524 * n100 + 1461 * n4 + 365 * n1 + (absYearDay abs).2
        ∧ 0 ≤ (absYearDay abs).2
        ∧ ((absYearDay abs).2 ≤ 364
          ∨ ((absYearDay abs).2 = 365 ∧ n1 = 3 ∧ (n4 < 24 ∨ n100 = 3))) := by
  unfold absYearDay
  simp only
  generalize hd : abs / 86400 = d
  have hd0 : 0 ≤ d := by omega
  generalize hn400 : d / 146097 = n400
  have h1 : 0 ≤ d - 146097 * n400 ∧ d - 146097 * n400 < 146097 := by omega
  generalize hd1 : d - 146097 * n400 = d1 at h1 ⊢
  generalize hq : d1 / 36524 = q
  have hqr : 0 ≤ q ∧ q ≤ 4 := by omega
  generalize hqq : q / 4 = qq
  have hn100 : 0 ≤ q - qq ∧ q - qq ≤ 3 := by omega
  have h2 : 0 ≤ d1 - 36524 * (q - qq) ∧ d1 - 36524 * (q - qq) ≤ 36524 := by omega
  have h2b : d1 - 36524 * (q - qq) = 36524 → q - qq = 3 := by omega
  generalize hn100d : q - qq = n100 at hn100 h2 h2b ⊢
  generalize hd2 : d1 - 36524 * n100 = d2 at h2 h2b ⊢
  generalize hn4 : d2 / 1461 = n4
  have hn4r : 0 ≤ n4 ∧ n4 ≤ 24 := by omega
  have h3 : 0 ≤ d2 - 1461 * n4 ∧ d2 - 1461 * n4 < 1461 := by omega
  have h3b : n4 = 24 → n100 < 3 → d2 - 1461 * n4 ≤ 1459 := by omega
  generalize hd3 : d2 - 1461 * n4 = d3 at h3 h3b ⊢
  generalize hp : d3 / 365 = p
  have hpr : 0 ≤ p ∧ p ≤ 4 := by omega
  generalize hpp : p / 4 = pp
  have hn1 : 0 ≤ p - pp ∧ p - pp ≤ 3 := by omega
  have h4 : 0 ≤ d3 - 365 * (p - pp) ∧ d3 - 365 * (p - pp) ≤ 365 := by omega
  have h4b : d3 - 365 * (p - pp) = 365 → p - pp = 3 ∧ d3 = 1460 := by omega
  refine ⟨n400, n100, n4, p - pp, rfl, by omega, hn100.1, hn100.2, hn4r.1, hn4r.2, hn1.1,
    hn1.2, by omega, h4.1, ?_⟩
  by_cases h365 : d3 - 365 * (p - pp) = 365
  · right
    refine ⟨h365, (h4b h365).1, ?_⟩
    by_contra hc
    omega
  · left
    omega

/-- The days `daysSinceEpoch` counts up to a year given by its cycle counts. -/
theorem daysSinceEpoch_cycles (n400 n100 n4 n1 : Int)
    (h100 : 0 ≤ n100 ∧ n100 ≤ 3) (h4 : 0 ≤ n4 ∧ n4 ≤ 24) (h1 : 0 ≤ n1 ∧ n1 ≤ 3) :
    daysSinceEpoch (400 * n400 + 100 * n100 + 4 * n4 + n1 + absoluteZeroYear)
      = 146097 * n400 + 36524 * n100 + 1461 * n4 + 365 * n1 := by
  unfold daysSinceEpoch
  simp only
  have e0 : 400 * n400 + 100 * n100 + 4 * n4 + n1 + absoluteZeroYear - absoluteZeroYear
      = 400 * n400 + (100 * n100 + 4 * n4 + n1) := by ring
  rw [e0]
  have e1 : (400 * n400 + (100 * n100 + 4 * n4 + n1)) / 400 = n400 := by omega
  rw [e1]
  have e2 : 400 * n400 + (100 * n100 + 4 * n4 + n1) - 400 * n400
      = 100 * n100 + (4 * n4 + n1) := by ring
  rw [e2]
  have e3 : (100 * n100 + (4 * n4 + n1)) / 100 = n100 := by omega
  rw [e3]
  have e4 : 100 * n100 + (4 * n4 + n1) - 100 * n100 = 4 * n4 + n1 := by ring
  rw [e4]
  have e5 : (4 * n4 + n1) / 4 = n4 := by omega
  rw [e5]
  ring

/-- A year given by its cycle counts is a leap year exactly when it is the fourth
year of a 4-year cycle that is not cut short by a century. -/
theorem isLeap_cycles (n400 n100 n4 n1 : Int)
    (h100 : 0 ≤ n100 ∧ n100 ≤ 3) (h4 : 0 ≤ n4 ∧ n4 ≤ 24) (h1 : 0 ≤ n1 ∧ n1 ≤ 3) :
    isLeap (400 * n400 + 100 * n100 + 4 * n4 + n1 + absoluteZeroYear) = true
      ↔ n1 = 3 ∧ (n4 < 24 ∨ n100 = 3) := by
  unfold isLeap absoluteZeroYear
  simp only [Bool.and_eq_true, Bool.or_eq_true, decide_eq_true_eq, ne_eq]
  have m4 : (400 * n400 + 100 * n100 + 4 * n4 + n1 + -292277022399) % 4 = (n1 + 1) % 4 := by
    omega
  have m100 : (400 * n400 + 100 * n100 + 4 * n4 + n1 + -292277022399) % 100
      = (4 * n4 + n1 + 1) % 100 := by
    omega
  have m400 : (400 * n400 + 100 * n100 + 4 * n4 + n1 + -292277022399) % 400
      = (100 * n100 + 4 * n4 + n1 + 1) % 400 := by
    omega
  rw [m4, m100, m400]
  clear m4 m100 m400
  obtain ⟨l1, u1⟩ := h1
  obtain ⟨l100, u100⟩ := h100
  interval_cases n1 <;> interval_cases n100 <;> omega

/-- The month and day `absDate` finds for a day of a non-leap year layout: they
are in range and name that day. -/
theorem monthDay_spec (day : Int) (h0 : 0 ≤ day) (h1 : day ≤ 364) :
    1 ≤ (monthDay day).1 ∧ (monthDay day).1 ≤ 12 ∧ 1 ≤ (monthDay day).2
      ∧ daysBefore.getD ((monthDay day).1.toNat - 1) 0 + (monthDay day).2 - 1 = day
      ∧ daysBefore.getD ((monthDay day).1.toNat - 1) 0 + (monthDay day).2
        ≤ daysBefore.getD (monthDay day).1.toNat 0
      ∧ ((monthDay day).1 ≥ 3 ↔ day ≥ 59) := by
  unfold monthDay
  simp only
  generalize hq : day / 31 = q
  have hq0 : 0 ≤ q := by omega
  have hq1 : q ≤ 11 := by omega
  interval_cases q <;> simp [daysBefore] <;> split_ifs <;> simp <;> omega

/-- The date `absDate` computes is a valid date of the calendar, and `Date`
counts for it the days the absolute time has. -/
theorem absDate_spec (abs : Int) (h0 : 0 ≤ abs) :
    1 ≤ (absDate abs).2.1 ∧ (absDate abs).2.1 ≤ 12 ∧ 1 ≤ (absDate abs).2.2
      ∧ (absDate abs).2.2 ≤ daysIn (absDate abs).2.1.toNat (absDate abs).1
      ∧ daysSinceEpoch (absDate abs).1
          + daysBefore.getD ((absDate abs).2.1.toNat - 1) 0
          + (if isLeap (absDate abs).1 = true ∧ 3 ≤ (absDate abs).2.1.toNat then 1 else 0)
          + ((absDate abs).2.2 - 1)
        = abs / 86400 := by
  obtain ⟨n400, n100, n4, n1, hy, _, h100a, h100b, h4a, h4b, h1a, h1b, hd, hyd0, hyd⟩ :=
    absYearDay_spec abs h0
  have hdse := daysSinceEpoch_cycles n400 n100 n4 n1 ⟨h100a, h100b⟩ ⟨h4a, h4b⟩ ⟨h1a, h1b⟩
  have hleap := isLeap_cycles n400 n100 n4 n1 ⟨h100a, h100b⟩ ⟨h4a, h4b⟩ ⟨h1a, h1b⟩
  rw [← hy] at hdse hleap
  unfold absDate
  simp only
  generalize (absYearDay abs).1 = year at *
  generalize (absYearDay abs).2 = yday at *
  by_cases hL : isLeap year = true
  · by_cases h59 : yday = 59
    · subst h59
      simp [hL, daysIn, daysBefore]
      omega
    · by_cases hgt : yday > 59
      · have hy365 : yday ≤ 365 := by omega
        obtain ⟨m1, m2, m3, m4, m5, m6⟩ := monthDay_spec (yday - 1) (by omega) (by omega)
        simp only [hL, h59, hgt, and_false, and_self, if_false, if_true, true_and]
        generalize (monthDay (yday - 1)).1 = m at *
        generalize (monthDay (yday - 1)).2 = dom at *
        have hm3 : 3 ≤ m := m6.mpr (by omega)
        have hm3n : 3 ≤ m.toNat := by omega
        have hne2 : ¬ m.toNat = 2 := by omega
        simp only [hm3n, if_true, daysIn, hne2, false_and, if_false]
        refine ⟨m1, m2, m3, by omega, by omega⟩
      · obtain ⟨m1, m2, m3, m4, m5, m6⟩ := monthDay_spec yday (by omega) (by omega)
        simp only [hL, h59, hgt, and_false, and_self, if_false, if_true, true_and]
        generalize (monthDay yday).1 = m at *
        generalize (monthDay yday).2 = dom at *
        have hm3 : ¬ 3 ≤ m := fun hc => absurd (m6.mp hc) (by omega)
        have hm3n : ¬ 3 ≤ m.toNat := by omega
        simp only [hm3n, if_false, daysIn, hL, and_true]
        refine ⟨m1, m2, m3, ?_, by omega⟩
        split_ifs with h2
        · have hm : m = 2 := by omega
          subst hm
          simp [daysBefore] at m5
          omega
        · omega
  · have hy364 : yday ≤ 364 := by
      rcases hyd with h | ⟨_, hn1, hn4⟩
      · exact h
      · exact absurd (hleap.mpr ⟨hn1, hn4⟩) hL
    obtain ⟨m1, m2, m3, m4, m5, m6⟩ := monthDay_spec yday (by omega) (by omega)
    simp only [hL, false_and, if_false, Bool.false_eq_true]
    generalize (monthDay yday).1 = m at *
    generalize (monthDay yday).2 = dom at *
    simp only [daysIn, hL, and_false, if_false, Bool.false_eq_true]
    refine ⟨m1, m2, m3, by omega, by omega⟩

/-- The function `Date` maps the year, month, day and hour that `absDate`
computes for an absolute time back to the start of its hour. -/
theorem Date_absDate (abs : Int) (h0 : 0 ≤ abs) :
    Date (absDate abs).1 (absDate abs).2.1.toNat (absDate abs).2.2.toNat
        (abs % 86400 / 3600).toNat 0 0 0
      = { sec := abs - abs % 3600 - absoluteToUnix, nsec := 0, offset := 0 } := by
  obtain ⟨m1, m2, d1, d2, hd⟩ := absDate_spec abs h0
  unfold Date
  simp only
  generalize (absDate abs).1 = year at *
  generalize (absDate abs).2.1 = m at *
  generalize (absDate abs).2.2 = dom at *
  have hdom : ((dom.toNat : Nat) : Int) = dom := by omega
  have hh : (((abs % 86400 / 3600).toNat : Nat) : Int) = abs % 86400 / 3600 := by omega
  rw [hdom, hh, hd]
  congr 1
  simp only [Nat.cast_zero, zero_mul, add_zero]
  omega

/-- The function `Date` maps the year, month and day that `absDate` computes for
an absolute time back to the start of its day. -/
theorem Date_absDate_day (abs : Int) (h0 : 0 ≤ abs) :
    Date (absDate abs).1 (absDate abs).2.1.toNat (absDate abs).2.2.toNat 0 0 0 0
      = { sec := abs - abs % 86400 - absoluteToUnix, nsec := 0, offset := 0 } := by
  obtain ⟨m1, m2, d1, d2, hd⟩ := absDate_spec abs h0
  unfold Date
  simp only
  generalize (absDate abs).1 = year at *
  generalize (absDate abs).2.1 = m at *
  generalize (absDate abs).2.2 = dom at *
  have hdom : ((dom.toNat : Nat) : Int) = dom := by omega
  rw [hdom, hd]
  congr 1
  simp only [Nat.cast_zero, zero_mul, add_zero]
  omega

/-- An absolute time between the start of year 0 and the end of year 9999 has a
year between 0 and 9999. -/
theorem absYearDay_year_range (abs : Int)
    (hlo : 9223371966548102400 ≤ abs) (hhi : abs < 9223372282117622400) :
    0 ≤ (absYearDay abs).1 ∧ (absYearDay abs).1 ≤ 9999 := by
  obtain ⟨n400, n100, n4, n1, hy, hn400, h100a, h100b, h4a, h4b, h1a, h1b, hd, hyd0, hyd⟩ :=
    absYearDay_spec abs (by omega)
  rw [hy]
  unfold absoluteZeroYear
  generalize (absYearDay abs).2 = yday at *
  have hdlo : 106751990353566 ≤ abs / 86400 := by omega
  have hdhi : abs / 86400 < 106751994005991 := by omega
  rw [hd] at hdlo hdhi
  have hyd365 : yday ≤ 365 := by omega
  constructor
  · by_contra hc
    interval_cases n100 <;> interval_cases n1 <;> omega
  · by_contra hc
    interval_cases n100 <;> interval_cases n1 <;> omega

/-- The decimal text of a number below `10 ^ w` has at most `w` digits. -/
theorem decimalAux_length (fuel : Nat) :
    ∀ (n : Nat) (acc : List Char) (w : Nat), 0 < w → n < 10 ^ w →
      (decimalAux fuel n acc).length ≤ w + acc.length := by
  induction fuel with
  | zero =>
    intro n acc w _ _
    simp [decimalAux]
  | succ k ih =>
    intro n acc w hw hn
    unfold decimalAux
    by_cases h10 : n < 10
    · simp [h10]
      omega
    · have hw2 : 2 ≤ w := by
        by_contra hc
        have hw1 : w = 1 := by omega
        subst hw1
        simp at hn
        omega
      have hdiv : n / 10 < 10 ^ (w - 1) := by
        rw [Nat.div_lt_iff_lt_mul (by decide)]
        have : 10 ^ w = 10 ^ (w - 1) * 10 := by
          rw [← pow_succ]
          congr 1
          omega
        omega
      have := ih (n / 10) (digitChar n :: acc) (w - 1) (by omega) hdiv
      simp only [h10, if_false]
      simp only [List.length_cons] at this
      omega

/-- Leading zeros do not change the value of a digit list. -/
theorem digitsVal_zeros (k : Nat) (ds : List Char) :
    digitsVal (List.replicate k '0' ++ ds) = digitsVal ds := by
  induction k with
  | zero => simp
  | succ j ih =>
    have h0 : digitVal '0' = 0 := by decide
    unfold digitsVal at ih ⊢
    simp only [List.replicate_succ, List.cons_append, List.foldl_cons, zero_mul, zero_add, h0]
    exact ih

/-- For a number from 0 to `10 ^ w - 1`, `appendInt` gives exactly `w` digits with
the value of the number. -/
theorem appendInt_spec (x : Int) (w : Nat) (hw : 0 < w) (h0 : 0 ≤ x) (hx : x < 10 ^ w) :
    (appendInt x w).length = w ∧ (appendInt x w).all isDigitChar = true
      ∧ (digitsVal (appendInt x w) : Int) = x := by
  obtain ⟨hne, hall, hval⟩ := decimal_spec x.natAbs
  have hlen : (decimal x.natAbs).length ≤ w := by
    have hn : x.natAbs < 10 ^ w := by
      zify
      rw [abs_of_nonneg h0]
      exact hx
    have := decimalAux_length (x.natAbs + 1) x.natAbs [] w hw hn
    simpa [decimal] using this
  have hneg : ¬ x < 0 := by omega
  have hd0 : isDigitChar '0' = true := by decide
  unfold appendInt
  simp only [hneg, if_false, List.nil_append]
  refine ⟨?_, ?_, ?_⟩
  · simp only [List.length_append, List.length_replicate]
    omega
  · simp only [List.all_append, Bool.and_eq_true, hall, and_true]
    simp [List.all_eq_true, hd0]
  · rw [digitsVal_zeros, hval]
    omega

/-! ## The buckets of the counter keys -/

/-- A list of two elements. -/
theorem list_of_length_two {A : Type} (l : List A) (h : l.length = 2) :
    ∃ a b, l = [a, b] := by
  rcases l with _ | ⟨a, _ | ⟨b, _ | ⟨c, l⟩⟩⟩
  · simp at h
  · simp at h
  · exact ⟨a, b, rfl⟩
  · simp at h

/-- A list of four elements. -/
theorem list_of_length_four {A : Type} (l : List A) (h : l.length = 4) :
    ∃ a b c d, l = [a, b, c, d] := by
  rcases l with _ | ⟨a, _ | ⟨b, _ | ⟨c, _ | ⟨d, _ | ⟨e, l⟩⟩⟩⟩⟩
  · simp at h
  · simp at h
  · simp at h
  · simp at h
  · exact ⟨a, b, c, d, rfl⟩
  · simp at h

/-- No month has more than 31 days. -/
theorem daysIn_le (m : Nat) (year : Int) (h1 : 1 ≤ m) (h12 : m ≤ 12) : daysIn m year ≤ 31 := by
  unfold daysIn
  split
  · omega
  · interval_cases m <;> simp [daysBefore]

/-- The year of `absDate` is that of `absYearDay`. -/
theorem absDate_year (abs : Int) : (absDate abs).1 = (absYearDay abs).1 := by
  unfold absDate
  simp only
  split <;> rfl

/-- The text `formatHour` gives for an instant from year 0 to year 9999 of its
location names the hour that contains the seconds shown by the clock of that
location. -/
theorem hourBucketStart_formatHour (t : Time) (hlo : -62167219200 ≤ t.sec + t.offset)
    (hhi : t.sec + t.offset < 253402300800) :
    hourBucketStart (formatHour t)
      = some (t.sec + t.offset - (t.sec + t.offset) % 3600) := by
  have habs : t.abs = t.sec + t.offset + 9223372028715321600 := rfl
  have habs0 : 0 ≤ t.abs := by omega
  obtain ⟨hm1, hm12, hd1, hdin, -⟩ := absDate_spec t.abs habs0
  obtain ⟨hy0, hy9⟩ := absYearDay_year_range t.abs (by omega) (by omega)
  rw [← absDate_year] at hy0 hy9
  have hD := Date_absDate t.abs habs0
  have hdle := daysIn_le (absDate t.abs).2.1.toNat (absDate t.abs).1 (by omega) (by omega)
  unfold formatHour hourBucketStart
  simp only
  generalize (absDate t.abs).1 = y at *
  generalize (absDate t.abs).2.1 = m at *
  generalize (absDate t.abs).2.2 = d at *
  generalize hhh : t.abs % 86400 / 3600 = hh at *
  have hh0 : 0 ≤ hh ∧ hh ≤ 23 := by omega
  obtain ⟨hYl, hYa, hYv⟩ := appendInt_spec y 4 (by norm_num) hy0 (by norm_num; omega)
  obtain ⟨hMl, hMa, hMv⟩ := appendInt_spec m 2 (by norm_num) (by omega) (by norm_num; omega)
  obtain ⟨hDl, hDa, hDv⟩ := appendInt_spec d 2 (by norm_num) (by omega) (by norm_num; omega)
  obtain ⟨hHl, hHa, hHv⟩ := appendInt_spec hh 2 (by norm_num) hh0.1 (by norm_num; omega)
  obtain ⟨y1, y2, y3, y4, eY⟩ := list_of_length_four _ hYl
  obtain ⟨m1, m2, eM⟩ := list_of_length_two _ hMl
  obtain ⟨d1, d2, eD⟩ := list_of_length_two _ hDl
  obtain ⟨h1, h2, eH⟩ := list_of_length_two _ hHl
  rw [eY] at hYa hYv ⊢
  rw [eM] at hMa hMv ⊢
  rw [eD] at hDa hDv ⊢
  rw [eH] at hHa hHv ⊢
  simp only [List.cons_append, List.nil_append, String.toList]
  generalize digitsVal [y1, y2, y3, y4] = yv at *
  generalize digitsVal [m1, m2] = mv at *
  generalize digitsVal [d1, d2] = dv at *
  generalize digitsVal [h1, h2] = hv at *
  have emv : m.toNat = mv := by omega
  have edv : d.toNat = dv := by omega
  have ehv : hh.toNat = hv := by omega
  rw [emv, edv, ehv, ← hYv] at hD
  rw [emv, ← hYv] at hdin
  have hall : [y1, y2, y3, y4, m1, m2, d1, d2, h1, h2].all isDigitChar = true := by
    simp only [List.all_cons, List.all_nil, Bool.and_true, Bool.and_eq_true] at hYa hMa hDa hHa ⊢
    tauto
  have hcond : [y1, y2, y3, y4, m1, m2, d1, d2, h1, h2].all isDigitChar = true
      ∧ 1 ≤ mv ∧ mv ≤ 12 ∧ 1 ≤ dv ∧ (dv : Int) ≤ daysIn mv yv ∧ hv ≤ 23 :=
    ⟨hall, by omega, by omega, by omega, by omega, by omega⟩
  simp only [if_pos hcond, hD]
  have hC : absoluteToUnix = 9223372028715321600 := rfl
  congr 1
  omega

/-- The text `formatDay` gives for an instant from year 0 to year 9999 of its
location names the day that contains the seconds shown by the clock of that
location. -/
theorem dayBucketStart_formatDay (t : Time) (hlo : -62167219200 ≤ t.sec + t.offset)
    (hhi : t.sec + t.offset < 253402300800) :
    dayBucketStart (formatDay t)
      = some (t.sec + t.offset - (t.sec + t.offset) % 86400) := by
  have habs : t.abs = t.sec + t.offset + 9223372028715321600 := rfl
  have habs0 : 0 ≤ t.abs := by omega
  obtain ⟨hm1, hm12, hd1, hdin, -⟩ := absDate_spec t.abs habs0
  obtain ⟨hy0, hy9⟩ := absYearDay_year_range t.abs (by omega) (by omega)
  rw [← absDate_year] at hy0 hy9
  have hD := Date_absDate_day t.abs habs0
  have hdle := daysIn_le (absDate t.abs).2.1.toNat (absDate t.abs).1 (by omega) (by omega)
  unfold formatDay dayBucketStart
  simp only
  generalize (absDate t.abs).1 = y at *
  generalize (absDate t.abs).2.1 = m at *
  generalize (absDate t.abs).2.2 = d at *
  obtain ⟨hYl, hYa, hYv⟩ := appendInt_spec y 4 (by norm_num) hy0 (by norm_num; omega)
  obtain ⟨hMl, hMa, hMv⟩ := appendInt_spec m 2 (by norm_num) (by omega) (by norm_num; omega)
  obtain ⟨hDl, hDa, hDv⟩ := appendInt_spec d 2 (by norm_num) (by omega) (by norm_num; omega)
  obtain ⟨y1, y2, y3, y4, eY⟩ := list_of_length_four _ hYl
  obtain ⟨m1, m2, eM⟩ := list_of_length_two _ hMl
  obtain ⟨d1, d2, eD⟩ := list_of_length_two _ hDl
  rw [eY] at hYa hYv ⊢
  rw [eM] at hMa hMv ⊢
  rw [eD] at hDa hDv ⊢
  simp only [List.cons_append, List.nil_append, String.toList]
  generalize digitsVal [y1, y2, y3, y4] = yv at *
  generalize digitsVal [m1, m2] = mv at *
  generalize digitsVal [d1, d2] = dv at *
  have emv : m.toNat = mv := by omega
  have edv : d.toNat = dv := by omega
  rw [emv, edv, ← hYv] at hD
  rw [emv, ← hYv] at hdin
  have hall : [y1, y2, y3, y4, m1, m2, d1, d2].all isDigitChar = true := by
    simp only [List.all_cons, List.all_nil, Bool.and_true, Bool.and_eq_true] at hYa hMa hDa ⊢
    tauto
  have hcond : [y1, y2, y3, y4, m1, m2, d1, d2].all isDigitChar = true
      ∧ 1 ≤ mv ∧ mv ≤ 12 ∧ 1 ≤ dv ∧ (dv : Int) ≤ daysIn mv yv :=
    ⟨hall, by omega, by omega, by omega, by omega⟩
  simp only [if_pos hcond, hD]
  have hC : absoluteToUnix = 9223372028715321600 := rfl
  congr 1
  omega

/-! ## The keys of the quota counters -/

/-- On a key it can count on, `INCR` leaves a string. -/
theorem incrExpire_holds (r : Redis) (key : String) (seconds : Int) (hc : Countable r key) :
    ∃ v, (incrExpire r key seconds).data key = some (.str v) := by
  unfold incrExpire
  simp only
  rcases hc with hnone | ⟨s, n, hs, hn, hlt⟩
  · exact ⟨"1", by simp [incrData, hnone]⟩
  · have hlt2 : n < 9223372036854775807 := by
      have h63 : (2 : Int) ^ 63 - 1 = 9223372036854775807 := by norm_num
      rw [h63] at hlt
      exact hlt
    exact ⟨itoa (n + 1), by simp [incrData, hs, hn, hlt2]⟩

/-- When the ledger is reached and both keys hold strings, the usages
`checkRateLimit` reads are the counts of the two keys. -/
theorem readUsage_of_strings (rdb : Redis) (hKey dKey a b : String) (hup : rdb.up = true)
    (ha : rdb.data hKey = some (.str a)) (hb : rdb.data dKey = some (.str b)) :
    readUsage rdb hKey dKey = (usage rdb hKey, usage rdb dKey) := by
  simp [readUsage, Redis.Get, firstErr, usage, hup, ha, hb]

/-- The method `incrementUsage` raises the two counters of the key by one when
the ledger is reached and can count on them, and then both hold strings. -/
theorem incrementUsage_counts (rdb : Redis) (now : Time) (k : String) (hup : rdb.up = true)
    (hch : Countable rdb (hourKey k now)) (hcd : Countable rdb (dayKey k now)) :
    (incrementUsage rdb now k).up = true
      ∧ (∃ a, (incrementUsage rdb now k).data (hourKey k now) = some (.str a))
      ∧ (∃ b, (incrementUsage rdb now k).data (dayKey k now) = some (.str b))
      ∧ usage (incrementUsage rdb now k) (hourKey k now) = usage rdb (hourKey k now) + 1
      ∧ usage (incrementUsage rdb now k) (dayKey k now) = usage rdb (dayKey k now) + 1 := by
  have hI : incrementUsage rdb now k
      = incrExpire (incrExpire rdb (hourKey k now) 3600) (dayKey k now) 86400 := by
    simp [incrementUsage, hup]
  have hne := hourKey_ne_dayKey k k now now
  have hcd2 : Countable (incrExpire rdb (hourKey k now) 3600) (dayKey k now) := by
    unfold Countable at hcd ⊢
    rw [incrExpire_other _ _ _ _ hne.symm]
    exact hcd
  rw [hI]
  refine ⟨hup, ?_, incrExpire_holds _ _ _ hcd2, ?_, ?_⟩
  · obtain ⟨a, ha⟩ := incrExpire_holds rdb (hourKey k now) 3600 hch
    exact ⟨a, by rw [incrExpire_other _ _ _ _ hne, ha]⟩
  · have h1 : usage (incrExpire (incrExpire rdb (hourKey k now) 3600) (dayKey k now) 86400)
          (hourKey k now)
        = usage (incrExpire rdb (hourKey k now) 3600) (hourKey k now) := by
      unfold usage
      rw [incrExpire_other _ _ _ _ hne]
    rw [h1, incrExpire_usage rdb _ 3600 hch]
  · rw [incrExpire_usage _ _ 86400 hcd2]
    unfold usage
    rw [incrExpire_other _ _ _ _ hne.symm]

/-- The method `incrementUsage` leaves every key other than the two counters of
the key as it was. -/
theorem incrementUsage_other (rdb : Redis) (now : Time) (k key : String)
    (h1 : key ≠ hourKey k now) (h2 : key ≠ dayKey k now) :
    (incrementUsage rdb now k).data key = rdb.data key := by
  unfold incrementUsage
  split
  · rw [incrExpire_other _ _ _ _ h2, incrExpire_other _ _ _ _ h1]
  · rfl

/-- The keys of a reading one hour east of UTC: the instant 31 December 2019,
23:59:59 UTC is read by that clock. The keys carry the hour `2020010100` and the
day `20200101`, which start after the instant, where the hour and the day of the
instant in UTC are `2019123123` and `20191231`. -/
theorem keys_not_in_utc :
    hourKey "sk-1" eastOfUTC = "rate_limit:hourly:sk-1:2020010100"
      ∧ dayKey "sk-1" eastOfUTC = "rate_limit:daily:sk-1:20200101"
      ∧ hourBucketStart "2020010100" = some 1577836800
      ∧ dayBucketStart "20200101" = some 1577836800
      ∧ eastOfUTC.sec < 1577836800
      ∧ formatHour { eastOfUTC with offset := 0 } = "2019123123"
      ∧ formatDay { eastOfUTC with offset := 0 } = "20191231"
      ∧ hourBucketStart "2019123123" = some (eastOfUTC.sec - eastOfUTC.sec % 3600)
      ∧ dayBucketStart "20191231" = some (eastOfUTC.sec - eastOfUTC.sec % 86400) := by
  refine ⟨by decide, by decide, by decide, by decide, by decide, by decide, by decide,
    by decide, by decide⟩

/-- What the keys of the two functions are, on the code as it is: for every API
key `k` and clock reading `now` whose date lies in the years 0 to 9999,
`checkRateLimit` and `incrementUsage` both use the hourly key
`rate_limit:hourly:` + k + `:` + YYYYMMDDHH and the daily key `rate_limit:daily:`
+ k + `:` + YYYYMMDD, where the bucket is the hour, respectively day, of `now` as
the clock of the reading's own location shows it (the local zone of the process,
which is the UTC bucket when that zone has offset 0): the ten, respectively
eight, digits name the hour, respectively day, that contains the seconds since
the epoch shifted by the zone offset. The keys read and the keys incremented for
the same instant are identical: `checkRateLimit` depends on the ledger through
these two keys only, `incrementUsage` changes no other key, and the usages
`checkRateLimit` reads at `now` after `incrementUsage` at `now` are one more than
the counts before, when the ledger is reached and can count on the two keys. -/
theorem counter_keys (k : String) (now : Time)
    (hlo : -62167219200 ≤ now.sec + now.offset) (hhi : now.sec + now.offset < 253402300800) :
    (hourKey k now = "rate_limit:hourly:" ++ k ++ ":" ++ formatHour now
        ∧ dayKey k now = "rate_limit:daily:" ++ k ++ ":" ++ formatDay now
        ∧ hourBucketStart (formatHour now)
          = some (now.sec + now.offset - (now.sec + now.offset) % 3600)
        ∧ dayBucketStart (formatDay now)
          = some (now.sec + now.offset - (now.sec + now.offset) % 86400))
      ∧ (∀ (config : Config) (tier : String) (rdb rdb2 : Redis),
          rdb.Get (hourKey k now) = rdb2.Get (hourKey k now) →
          rdb.Get (dayKey k now) = rdb2.Get (dayKey k now) →
            checkRateLimit config rdb now k tier = checkRateLimit config rdb2 now k tier)
      ∧ (∀ (rdb : Redis) (key : String), key ≠ hourKey k now → key ≠ dayKey k now →
          (incrementUsage rdb now k).data key = rdb.data key)
      ∧ (∀ (config : Config) (tier : String) (rdb : Redis), rdb.up = true →
          Countable rdb (hourKey k now) → Countable rdb (dayKey k now) →
            (checkRateLimit config (incrementUsage rdb now k) now k tier).1.HourlyUsed
                = usage rdb (hourKey k now) + 1
              ∧ (checkRateLimit config (incrementUsage rdb now k) now k tier).1.DailyUsed
                = usage rdb (dayKey k now) + 1) := by
  refine ⟨⟨rfl, rfl, hourBucketStart_formatHour now hlo hhi, dayBucketStart_formatDay now hlo hhi⟩,
    ?_, ?_, ?_⟩
  · intro config tier rdb rdb2 h1 h2
    simp only [checkRateLimit, readUsage, h1, h2]
  · intro rdb key h1 h2
    exact incrementUsage_other rdb now k key h1 h2
  · intro config tier rdb hup hch hcd
    obtain ⟨hup2, ⟨a, ha⟩, ⟨b, hb⟩, hu1, hu2⟩ := incrementUsage_counts rdb now k hup hch hcd
    have hr := readUsage_of_strings (incrementUsage rdb now k) (hourKey k now) (dayKey k now)
      a b hup2 ha hb
    simp only [checkRateLimit, hr, hu1, hu2, and_self]

/-- An instance: for the reading one hour east of UTC the hour in the key starts
at second 1577836800 of the shifted clock, which is where the hour `2020010100`
starts. -/
theorem counter_keys_witness :
    hourBucketStart (formatHour eastOfUTC)
        = some (eastOfUTC.sec + eastOfUTC.offset - (eastOfUTC.sec + eastOfUTC.offset) % 3600)
      ∧ formatHour eastOfUTC = "2020010100" :=
  ⟨(counter_keys "sk-1" eastOfUTC (by decide) (by decide)).1.2.2.1, by decide⟩

/-! ## The anonymous caller -/

/-- A new limiter admits its first request and is left with 9 of its 10 tokens;
every other limiter is left as it was. -/
theorem RateLimiter.Allow_fresh (rl : RateLimiter) (now : Time) (userID tier : String)
    (hfresh : rl.limiters (limiterKey userID tier) = none) :
    (rl.Allow now userID tier).1 = true
      ∧ (rl.Allow now userID tier).2.limiters (limiterKey userID tier)
        = some { perHour := tierPerHour tier, burst := 10, tokens := 9 * tokenUnit,
                 last := now.nanos }
      ∧ ∀ k, k ≠ limiterKey userID tier →
          (rl.Allow now userID tier).2.limiters k = rl.limiters k := by
  have hadv : (NewLimiter (tierPerHour tier) 10 now.nanos).advance now.nanos = 10 * tokenUnit := by
    simp [NewLimiter, Limiter.advance]
  have hle : tokenUnit ≤ 10 * tokenUnit := by
    unfold tokenUnit
    norm_num
  refine ⟨?_, ?_, ?_⟩
  · simp [RateLimiter.Allow, hfresh, Limiter.Allow, hadv, hle]
  · simp only [RateLimiter.Allow, hfresh, Limiter.Allow, hadv, hle, if_true]
    simp only [NewLimiter]
    congr 2
  · intro k hk
    simp [RateLimiter.Allow, hk]

/-- A request for `get_company_info` with a ticker, from a caller who is resolved
and admitted, leaves the limiter as `Allow` left it and ends in neither access
error. -/
theorem GetCompanyInfo_admitted (h : Handler) (now : Time) (args : Args) (user : User)
    (ht : (argString args "ticker").2 = true) (hne : (argString args "ticker").1 ≠ "")
    (hu : validateAndGetUser h.users now (argString args "api_key").1 = .ok user)
    (ha : (h.rateLimiter.Allow now user.ID user.Tier).1 = true) :
    (GetCompanyInfo h now args).rateLimiter = (h.rateLimiter.Allow now user.ID user.Tier).2
      ∧ (GetCompanyInfo h now args).result ≠ authError
      ∧ (GetCompanyInfo h now args).result ≠ rateLimitError := by
  have h1 : ¬ ((argString args "ticker").2 = false ∨ (argString args "ticker").1 = "") := by
    simp [ht, hne]
  simp only [GetCompanyInfo, h1, hu, ha]
  cases hp : h.redisClient.GetCompanyByTicker (argString args "ticker").1 with
  | error e => simp [authError, rateLimitError]
  | ok company => simp [authError, rateLimitError]

/-- The condition under which the largest-transaction handlers reject the `type`
argument fails for an accepted one. -/
theorem typeAccepted_passes (args : Args) (htype : typeAccepted args = true) :
    ¬ ((argString args "type").2 = false
      ∨ ((argString args "type").1 ≠ "buyers" ∧ (argString args "type").1 ≠ "sellers")) := by
  unfold typeAccepted at htype
  simp only [Bool.and_eq_true, Bool.or_eq_true, decide_eq_true_eq] at htype
  intro hc
  rcases hc with hc | hc
  · rw [htype.1] at hc
    exact absurd hc (by decide)
  · rcases htype.2 with hb | hs
    · exact hc.1 hb
    · exact hc.2 hs

/-- A request for the largest daily transactions with an accepted type, from a
caller who is resolved and admitted, leaves the limiter as `Allow` left it and
ends in neither access error. -/
theorem GetLargestDailyTransactions_admitted (h : Handler) (now : Time) (args : Args)
    (user : User) (htype : typeAccepted args = true)
    (hu : validateAndGetUser h.users now (argString args "api_key").1 = .ok user)
    (ha : (h.rateLimiter.Allow now user.ID user.Tier).1 = true) :
    (GetLargestDailyTransactions h now args).rateLimiter
        = (h.rateLimiter.Allow now user.ID user.Tier).2
      ∧ (GetLargestDailyTransactions h now args).result ≠ authError
      ∧ (GetLargestDailyTransactions h now args).result ≠ rateLimitError := by
  have h1 := typeAccepted_passes args htype
  simp only [GetLargestDailyTransactions, h1, hu, ha]
  cases hp : h.redisClient.GetLargestDailyTransactions (argString args "type").1
      (freeOffset user.Tier ((argInt args "offset").getD 0))
      (freeLimit user.Tier ((argInt args "limit").getD 10)) with
  | error e =>
    refine ⟨by simp, ?_, ?_⟩
    · simp; exact error_ne_of_take 1 _ _ (by simp)
    · simp; exact error_ne_of_take 1 _ _ (by simp)
  | ok transactions =>
    by_cases hl : transactions.length = 0
    · simp [hl, authError, rateLimitError]
    · simp [hl, authError, rateLimitError]

/-- A request for the largest weekly transactions with an accepted type, from a
caller who is resolved and admitted, leaves the limiter as `Allow` left it and
ends in neither access error. -/
theorem GetLargestWeeklyTransactions_admitted (h : Handler) (now : Time) (args : Args)
    (user : User) (htype : typeAccepted args = true)
    (hu : validateAndGetUser h.users now (argString args "api_key").1 = .ok user)
    (ha : (h.rateLimiter.Allow now user.ID user.Tier).1 = true) :
    (GetLargestWeeklyTransactions h now args).rateLimiter
        = (h.rateLimiter.Allow now user.ID user.Tier).2
      ∧ (GetLargestWeeklyTransactions h now args).result ≠ authError
      ∧ (GetLargestWeeklyTransactions h now args).result ≠ rateLimitError := by
  have h1 := typeAccepted_passes args htype
  simp only [GetLargestWeeklyTransactions, h1, hu, ha]
  cases hp : h.redisClient.GetLargestWeeklyTransactions (argString args "type").1
      (freeOffset user.Tier ((argInt args "week_offset").getD 0))
      (freeOffset user.Tier ((argInt args "offset").getD 0))
      (freeLimit user.Tier ((argInt args "limit").getD 10)) with
  | error e =>
    refine ⟨by simp, ?_, ?_⟩
    · simp; exact error_ne_of_take 1 _ _ (by simp)
    · simp; exact error_ne_of_take 1 _ _ (by simp)
  | ok r =>
    obtain ⟨transactions, targetWeek, currentDate, previousDate⟩ := r
    by_cases hl : transactions.length = 0
    · simp [hl, authError, rateLimitError]
    · simp [hl, authError, rateLimitError]

/-- Routed through `handleToolCall`, a request whose arguments are accepted, from
a caller who is resolved, admitted by the rate limiter and permitted the tool,
leaves the limiter as `Allow` left it and ends in none of the access errors. -/
theorem admitted_outcome (h : Handler) (now : Time) (tool : String) (args : Args) (user : User)
    (hacc : requestAccepted h tool args = true)
    (hu : validateAndGetUser h.users now (argString args "api_key").1 = .ok user)
    (ha : (h.rateLimiter.Allow now user.ID user.Tier).1 = true)
    (hgate : hasToolAccess h.config user tool = true) :
    (handleToolCall h now ⟨tool, args⟩).rateLimiter
        = (h.rateLimiter.Allow now user.ID user.Tier).2
      ∧ (handleToolCall h now ⟨tool, args⟩).result ≠ authError
      ∧ (handleToolCall h now ⟨tool, args⟩).result ≠ rateLimitError
      ∧ ∀ feature, gatedFeature tool = some feature →
          (handleToolCall h now ⟨tool, args⟩).result ≠ tierRestrictedError feature := by
  by_cases h1 : tool = "get_company_info"
  · subst h1
    simp only [requestAccepted, if_true, Bool.and_eq_true, decide_eq_true_eq] at hacc
    obtain ⟨r1, r2, r3⟩ := GetCompanyInfo_admitted h now args user hacc.1 hacc.2 hu ha
    refine ⟨r1, r2, r3, ?_⟩
    intro feature hf
    rw [show gatedFeature "get_company_info" = none by decide] at hf
    cases hf
  · by_cases h2 : tool = "get_largest_daily_transactions"
    · subst h2
      have htype : typeAccepted args = true := by
        simpa [requestAccepted] using hacc
      obtain ⟨r1, r2, r3⟩ := GetLargestDailyTransactions_admitted h now args user htype hu ha
      refine ⟨r1, r2, r3, ?_⟩
      intro feature hf
      rw [show gatedFeature "get_largest_daily_transactions" = none by decide] at hf
      cases hf
    · by_cases h3 : tool = "get_largest_weekly_transactions"
      · subst h3
        have htype : typeAccepted args = true := by
          simpa [requestAccepted] using hacc
        obtain ⟨r1, r2, r3⟩ := GetLargestWeeklyTransactions_admitted h now args user htype hu ha
        refine ⟨r1, r2, r3, ?_⟩
        intro feature hf
        rw [show gatedFeature "get_largest_weekly_transactions" = none by decide] at hf
        cases hf
      · simp only [requestAccepted, h1, h2, h3, or_self, if_false, Bool.and_eq_true] at hacc
        obtain ⟨hsome, hargs⟩ := hacc
        obtain ⟨f, hf⟩ := Option.isSome_iff_exists.mp hsome
        obtain ⟨r1, r2, r3, r4⟩ := (gated_sequence h now tool f args hf hargs).2.2.2 user hu ha hgate
        refine ⟨r1, r2, r3, ?_⟩
        intro feature hfeature
        rw [hf] at hfeature
        injection hfeature with e
        rw [← e]
        exact r4

/-- C11, refuted as stated: a call of `get_company_info`, which the free tier of
the sample configuration may use, carries no API key and meets a ledger without
counters. The middleware passes it on and the handler answers with data for tier
free, but the ledger is left without any counter: neither the hourly nor the
daily counter of the anonymous caller is incremented. -/
theorem keyless_call_counts_nothing :
    extractAPIKey anonymousRequest = ""
      ∧ hasToolAccess sampleConfig anonymousUser "get_company_info" = true
      ∧ Middleware sampleConfig sampleUsers freshLedger sampleNow sampleNow sampleNow
          anonymousRequest = (.passed, freshLedger)
      ∧ (handleToolCall (sampleHandler NewRateLimiter) sampleNow anonymousCall).result
        = .data (.companyInfo "AAPL" [("name", "Apple Inc.")]) "free"
      ∧ usage (Middleware sampleConfig sampleUsers freshLedger sampleNow sampleNow sampleNow
          anonymousRequest).2 (hourKey "anonymous" sampleNow) = 0
      ∧ usage (Middleware sampleConfig sampleUsers freshLedger sampleNow sampleNow sampleNow
          anonymousRequest).2 (dayKey "anonymous" sampleNow) = 0
      ∧ usage (Middleware sampleConfig sampleUsers freshLedger sampleNow sampleNow sampleNow
          anonymousRequest).2 (hourKey "" sampleNow) = 0
      ∧ usage (Middleware sampleConfig sampleUsers freshLedger sampleNow sampleNow sampleNow
          anonymousRequest).2 (dayKey "" sampleNow) = 0 := by
  have hk : extractAPIKey anonymousRequest = "" := by decide
  have hM : Middleware sampleConfig sampleUsers freshLedger sampleNow sampleNow sampleNow
      anonymousRequest = (.passed, freshLedger) := by
    simp [Middleware, hk]
  rw [hM]
  refine ⟨hk, by decide, rfl, rfl, rfl, rfl, rfl, rfl⟩

/-- C11, amended: a request that carries no API key, neither where the middleware
looks nor in its arguments, and calls a tool the free tier may use with accepted
arguments, starting from fresh in-process quota, is admitted with the identity
`anonymous` and tier free: the middleware passes it on and leaves the quota
ledger, with its hourly and daily counters, exactly as it was; the handler ends
in none of the access errors; and what is counted is one token of the in-process
bucket `anonymous:free`, which is left with 9 of its 10 tokens while every other
bucket is left as it was. -/
theorem anonymous_call (config : Config) (users rdb : Redis) (tAuth tCheck tIncr : Time)
    (c : Request) (h : Handler) (now : Time) (toolCall : ToolCall)
    (hkey : extractAPIKey c = "")
    (hargs : (argString toolCall.Arguments "api_key").1 = "")
    (hfresh : h.rateLimiter.limiters "anonymous:free" = none)
    (hacc : requestAccepted h toolCall.Name toolCall.Arguments = true)
    (hgate : hasToolAccess h.config anonymousUser toolCall.Name = true) :
    Middleware config users rdb tAuth tCheck tIncr c = (.passed, rdb)
      ∧ validateAndGetUser h.users now (argString toolCall.Arguments "api_key").1
        = .ok anonymousUser
      ∧ anonymousUser.ID = "anonymous" ∧ anonymousUser.Tier = "free"
      ∧ (h.rateLimiter.Allow now "anonymous" "free").1 = true
      ∧ (handleToolCall h now toolCall).result ≠ authError
      ∧ (handleToolCall h now toolCall).result ≠ rateLimitError
      ∧ (∀ feature, gatedFeature toolCall.Name = some feature →
          (handleToolCall h now toolCall).result ≠ tierRestrictedError feature)
      ∧ (handleToolCall h now toolCall).rateLimiter.limiters "anonymous:free"
        = some { perHour := 10, burst := 10, tokens := 9 * tokenUnit, last := now.nanos }
      ∧ ∀ k, k ≠ "anonymous:free" →
          (handleToolCall h now toolCall).rateLimiter.limiters k = h.rateLimiter.limiters k := by
  obtain ⟨tool, args⟩ := toolCall
  simp only at hargs hacc hgate ⊢
  have hu : validateAndGetUser h.users now (argString args "api_key").1 = .ok anonymousUser := by
    rw [hargs]
    rfl
  have hlk : limiterKey "anonymous" "free" = "anonymous:free" := by decide
  obtain ⟨ha, hb, ho⟩ := RateLimiter.Allow_fresh h.rateLimiter now "anonymous" "free"
    (by rw [hlk]; exact hfresh)
  obtain ⟨r1, r2, r3, r4⟩ := admitted_outcome h now tool args anonymousUser hacc hu ha hgate
  have hrl : (handleToolCall h now ⟨tool, args⟩).rateLimiter
      = (h.rateLimiter.Allow now "anonymous" "free").2 := r1
  refine ⟨by simp [Middleware, hkey], hu, rfl, rfl, ha, r2, r3, r4, ?_, ?_⟩
  · rw [hrl, ← hlk, hb]
    rfl
  · intro k hk
    rw [hrl]
    exact ho k (by rw [hlk]; exact hk)

/-- C11, witness of the amended claim: the anonymous call of `get_company_info`
at `sampleNow` leaves the bucket `anonymous:free` with 9 tokens. -/
theorem anonymous_call_witness :
    (handleToolCall (sampleHandler NewRateLimiter) sampleNow anonymousCall).rateLimiter.limiters
        "anonymous:free"
      = some { perHour := 10, burst := 10, tokens := 9 * tokenUnit, last := sampleNow.nanos } :=
  (anonymous_call sampleConfig sampleUsers freshLedger sampleNow sampleNow sampleNow
    anonymousRequest (sampleHandler NewRateLimiter) sampleNow anonymousCall (by decide)
    (by decide) rfl (by decide) (by decide)).2.2.2.2.2.2.2.2.1

/-! ## Key extraction on the tool-call endpoint -/

/-- On a path that contains `/mcp/tools/call`, without bearer token and query
key, `extractAPIKey` returns the empty string. -/
theorem extractAPIKey_tools_call (c : Request)
    (hpath : containsSub c.Path.toList "/mcp/tools/call".toList = true)
    (hauth : "Bearer ".toList.isPrefixOf c.Authorization.toList = false)
    (hquery : c.QueryAPIKey = "") : extractAPIKey c = "" := by
  simp only [extractAPIKey, hauth, hquery, hpath, Bool.false_eq_true, if_false, ne_eq,
    not_true_eq_false, if_true]

/-- C27: for every request whose path contains `/mcp/tools/call` and that has
neither an `Authorization` header starting with `Bearer ` nor a non-empty
`api_key` query parameter, `extractAPIKey` returns the empty string, whatever the
method, the form field and the body are, and the middleware then passes the
request on with the quota ledger exactly as it was; this is so for every ledger,
one that cannot be reached included, so no counter is read or incremented. -/
theorem tools_call_key_ignored (c : Request)
    (hpath : containsSub c.Path.toList "/mcp/tools/call".toList = true)
    (hauth : "Bearer ".toList.isPrefixOf c.Authorization.toList = false)
    (hquery : c.QueryAPIKey = "") :
    extractAPIKey c = ""
      ∧ (∀ (method : String) (form : Option String) (body : Option Args),
          extractAPIKey { c with Method := method, PostFormAPIKey := form, Body := body } = "")
      ∧ ∀ (config : Config) (users rdb : Redis) (tAuth tCheck tIncr : Time),
          Middleware config users rdb tAuth tCheck tIncr c = (.passed, rdb) := by
  have hk : extractAPIKey c = "" := extractAPIKey_tools_call c hpath hauth hquery
  refine ⟨hk, ?_, ?_⟩
  · intro method form body
    exact extractAPIKey_tools_call _ hpath hauth hquery
  · intro config users rdb tAuth tCheck tIncr
    simp [Middleware, hk]

/-- C27, witness: the body of the tool call carries the key `sk-1` twice; the
middleware sees no key and passes the request on, the counters of `sk-1` being
left at 10 and 50. -/
theorem tools_call_key_ignored_witness :
    extractAPIKey bodyKeyRequest = ""
      ∧ Middleware sampleConfig sampleUsers (sampleLedger "10" "50") sampleNow sampleNow
          sampleNow bodyKeyRequest = (.passed, sampleLedger "10" "50") :=
  ⟨(tools_call_key_ignored bodyKeyRequest (by decide) (by decide) rfl).1,
    (tools_call_key_ignored bodyKeyRequest (by decide) (by decide) rfl).2.2 sampleConfig
      sampleUsers (sampleLedger "10" "50") sampleNow sampleNow sampleNow⟩

/-! ## The largest-transaction queries of the paid tiers -/

/-- Outside the free tier the limit is left as it is. -/
theorem freeLimit_other (tier : String) (limit : Int) (h : tier ≠ "free") :
    freeLimit tier limit = limit := by
  simp [freeLimit, h]

/-- Outside the free tier an offset is left as it is. -/
theorem freeOffset_other (tier : String) (offset : Int) (h : tier ≠ "free") :
    freeOffset tier offset = offset := by
  simp [freeOffset, h]

/-- C28: for an admitted caller whose tier is not `free`,
`GetLargestDailyTransactions` and `GetLargestWeeklyTransactions` pass the
requested limit, offset and week offset to the data provider unchanged, and 10, 0
and 0 respectively for a parameter that is absent or not a number. -/
theorem paid_query_unchanged (h : Handler) (now : Time) (args : Args) (user : User)
    (htype : typeAccepted args = true)
    (hu : validateAndGetUser h.users now (argString args "api_key").1 = .ok user)
    (hpaid : user.Tier ≠ "free")
    (ha : (h.rateLimiter.Allow now user.ID user.Tier).1 = true) :
    (GetLargestDailyTransactions h now args).calls
        = [.GetLargestDailyTransactions (argString args "type").1
            ((argInt args "offset").getD 0) ((argInt args "limit").getD 10)]
      ∧ (GetLargestWeeklyTransactions h now args).calls
        = [.GetLargestWeeklyTransactions (argString args "type").1
            ((argInt args "week_offset").getD 0) ((argInt args "offset").getD 0)
            ((argInt args "limit").getD 10)]
      ∧ (∀ key n, lookup args key = some (.num n) → argInt args key = some n)
      ∧ (∀ key, (∀ n, lookup args key ≠ some (.num n)) → argInt args key = none) := by
  refine ⟨?_, ?_, ?_, ?_⟩
  · rw [GetLargestDailyTransactions_calls h now args user htype hu ha,
      freeLimit_other _ _ hpaid, freeOffset_other _ _ hpaid]
  · rw [GetLargestWeeklyTransactions_calls h now args user htype hu ha,
      freeLimit_other _ _ hpaid, freeOffset_other _ _ hpaid, freeOffset_other _ _ hpaid]
  · intro key n hl
    simp [argInt, hl]
  · intro key hl
    unfold argInt
    cases hv : lookup args key with
    | none => rfl
    | some v =>
      cases v with
      | num n => exact absurd hv (hl n)
      | str s => rfl
      | obj fields => rfl
      | other => rfl

/-- C28, witness: the premium caller `sk-2` asks for limit 100, offset 20 and
week offset 3, and the provider is asked for exactly these. -/
theorem paid_query_unchanged_witness :
    (GetLargestWeeklyTransactions { sampleHandler NewRateLimiter with users := premiumUsers }
        sampleNow (premiumWeeklyArgs 100 20 3)).calls
      = [.GetLargestWeeklyTransactions "buyers" 3 20 100] :=
  (paid_query_unchanged { sampleHandler NewRateLimiter with users := premiumUsers } sampleNow
    (premiumWeeklyArgs 100 20 3) premiumUser (by decide) rfl (by decide)
    (by decide)).2.1

/-! ## Limits of unknown tiers -/

/-- C29: `getTierLimits` returns the configured premium limits for the tier
`premium`, the configured pro limits for the tier `pro`, and the configured
free-tier limits for every other tier string, the empty string and unknown tiers
included; so for a tier that is none of `free`, `premium` and `pro`, which the
feature gate denies every tool, `checkRateLimit` reports and decides exactly as
for the tier `free`. -/
theorem getTierLimits_spec (config : Config) :
    getTierLimits config "premium"
        = (config.RateLimiting.PremiumTier.RequestsPerHour,
            config.RateLimiting.PremiumTier.RequestsPerDay)
      ∧ getTierLimits config "pro"
        = (config.RateLimiting.ProTier.RequestsPerHour,
            config.RateLimiting.ProTier.RequestsPerDay)
      ∧ (∀ tier, tier ≠ "premium" → tier ≠ "pro" →
          getTierLimits config tier
            = (config.RateLimiting.FreeTier.RequestsPerHour,
                config.RateLimiting.FreeTier.RequestsPerDay))
      ∧ getTierLimits config ""
        = (config.RateLimiting.FreeTier.RequestsPerHour,
            config.RateLimiting.FreeTier.RequestsPerDay)
      ∧ ∀ tier, tier ≠ "free" → tier ≠ "premium" → tier ≠ "pro" →
          (∀ (user : User) (tool : String), user.Tier = tier →
              hasToolAccess config user tool = false)
            ∧ ∀ (rdb : Redis) (now : Time) (apiKey : String),
                checkRateLimit config rdb now apiKey tier
                  = checkRateLimit config rdb now apiKey "free" := by
  have hother : ∀ tier, tier ≠ "premium" → tier ≠ "pro" →
      getTierLimits config tier
        = (config.RateLimiting.FreeTier.RequestsPerHour,
            config.RateLimiting.FreeTier.RequestsPerDay) := by
    intro tier h1 h2
    simp [getTierLimits, h1, h2]
  refine ⟨by simp [getTierLimits], by simp [getTierLimits], hother,
    hother "" (by decide) (by decide), ?_⟩
  intro tier h0 h1 h2
  constructor
  · intro user tool ht
    simp [hasToolAccess, ht, h0, h1, h2]
  · intro rdb now apiKey
    simp only [checkRateLimit, hother tier h1 h2, hother "free" (by decide) (by decide)]

/-- C29, witness: the tier `enterprise` is unknown to the sample configuration;
it is denied the tool that the free tier may use and is given the free limits of
10 per hour and 100 per day. -/
theorem getTierLimits_spec_witness :
    hasToolAccess sampleConfig { sampleUser with Tier := "enterprise" } "get_company_info"
        = false
      ∧ getTierLimits sampleConfig "enterprise" = (10, 100) :=
  ⟨((getTierLimits_spec sampleConfig).2.2.2.2 "enterprise" (by decide) (by decide)
      (by decide)).1 { sampleUser with Tier := "enterprise" } "get_company_info" rfl,
    (getTierLimits_spec sampleConfig).2.2.1 "enterprise" (by decide) (by decide)⟩

/-! ## Generated keys -/


/-- Every entry of `hextable` is a lowercase hexadecimal digit with the value of
its index. -/
theorem hextable_spec (d : Fin 16) :
    isLowerHex (hextable.getD d.val '0') = true ∧ hexValue (hextable.getD d.val '0') = d.val := by
  revert d
  decide

/-- The encoding has two characters per byte, all of them lowercase hexadecimal
digits, and decodes to the bytes. -/
theorem EncodeToString_spec (src : List (Fin 256)) :
    (EncodeToString src).length = 2 * src.length
      ∧ (∀ c ∈ EncodeToString src, isLowerHex c = true)
      ∧ decodeHex (EncodeToString src) = src.map Fin.val := by
  induction src with
  | nil => simp [EncodeToString, decodeHex]
  | cons v rest ih =>
    obtain ⟨ih1, ih2, ih3⟩ := ih
    have hhi := hextable_spec ⟨v.val / 16, by omega⟩
    have hlo := hextable_spec ⟨v.val % 16, by omega⟩
    simp only at hhi hlo
    refine ⟨?_, ?_, ?_⟩
    · simp only [EncodeToString, List.length_cons, ih1]
      omega
    · intro c hc
      simp only [EncodeToString, List.mem_cons] at hc
      rcases hc with hc | hc | hc
      · rw [hc]; exact hhi.1
      · rw [hc]; exact hlo.1
      · exact ih2 c hc
    · simp only [EncodeToString, decodeHex, ih3, hhi.2, hlo.2, List.map_cons]
      congr 1
      omega

/-- The map `GenerateAPIKey` in terms of character lists. -/
theorem GenerateAPIKey_data (random : Fin 16 → Fin 256) :
    (GenerateAPIKey random).data
      = "sk-shareseer-".data ++ EncodeToString (List.ofFn random) := by
  simp [GenerateAPIKey]

/-- Different random bytes give different keys. -/
theorem GenerateAPIKey_injective (r1 r2 : Fin 16 → Fin 256)
    (h : GenerateAPIKey r1 = GenerateAPIKey r2) : r1 = r2 := by
  have hd := congrArg String.data h
  rw [GenerateAPIKey_data, GenerateAPIKey_data] at hd
  have he := List.append_cancel_left hd
  have hm := congrArg decodeHex he
  rw [(EncodeToString_spec _).2.2, (EncodeToString_spec _).2.2] at hm
  have hl : List.ofFn r1 = List.ofFn r2 :=
    List.map_injective_iff.mpr Fin.val_injective hm
  exact List.ofFn_injective hl

/-- C21: for every value of the 16 random bytes, `GenerateAPIKey` returns the
string `sk-shareseer-` followed by exactly 32 characters, each in `0`-`9` or
`a`-`f`, that are the hexadecimal encoding of those bytes, high digit first; the
key has length 45, and two different byte values give two different keys. -/
theorem GenerateAPIKey_spec (random : Fin 16 → Fin 256) :
    ∃ hexChars : List Char,
      GenerateAPIKey random = "sk-shareseer-" ++ String.mk hexChars
        ∧ hexChars.length = 32
        ∧ (∀ c ∈ hexChars, isLowerHex c = true)
        ∧ decodeHex hexChars = (List.ofFn random).map Fin.val
        ∧ (GenerateAPIKey random).length = 45
        ∧ ∀ other : Fin 16 → Fin 256, other ≠ random →
            GenerateAPIKey other ≠ GenerateAPIKey random := by
  obtain ⟨h1, h2, h3⟩ := EncodeToString_spec (List.ofFn random)
  have hlen : (EncodeToString (List.ofFn random)).length = 32 := by
    rw [h1, List.length_ofFn]
  refine ⟨EncodeToString (List.ofFn random), rfl, hlen, h2, h3, ?_, ?_⟩
  · have hd := GenerateAPIKey_data random
    have : (GenerateAPIKey random).length = (GenerateAPIKey random).data.length := rfl
    rw [this, hd, List.length_append, hlen]
    rfl
  · intro other hne he
    exact hne (GenerateAPIKey_injective other random he)

/-- C21, witness: the bytes fifteen times 0 and then 171 give the key that ends
in `ab`, and bytes that differ give another key. -/
theorem GenerateAPIKey_spec_witness :
    GenerateAPIKey sampleRandom = "sk-shareseer-000000000000000000000000000000ab"
      ∧ GenerateAPIKey (fun _ => 0) ≠ GenerateAPIKey sampleRandom := by
  obtain ⟨hexChars, -, -, -, -, -, hinj⟩ := GenerateAPIKey_spec sampleRandom
  refine ⟨by decide, hinj (fun _ => 0) ?_⟩
  intro he
  have := congrFun he 15
  revert this
  decide

/-! ## Account creation -/

/-- C22: `CreateUser(email)`: when the store write succeeds, the store then maps
`api_key:` + the generated key to the email, with no expiration, every other key
being left as it was, and the user returned has `ID = Email = email`, the
generated key as `APIKey` and the tier `free`; when the store write fails,
`CreateUser` returns an error and no user, and the store is left as it was. -/
theorem CreateUser_spec (users : Redis) (now : Time) (random : Fin 16 → Fin 256)
    (email : String) :
    ((users.Set ("api_key:" ++ GenerateAPIKey random) email).1 = .ok () →
        (CreateUser users now random email).1
            = .ok { ID := email, APIKey := GenerateAPIKey random, Tier := "free",
                    Email := email, Created := now, LastUsed := now }
          ∧ (CreateUser users now random email).2.data ("api_key:" ++ GenerateAPIKey random)
            = some (.str email)
          ∧ (CreateUser users now random email).2.ttl ("api_key:" ++ GenerateAPIKey random)
            = none
          ∧ ∀ k, k ≠ "api_key:" ++ GenerateAPIKey random →
              (CreateUser users now random email).2.data k = users.data k
                ∧ (CreateUser users now random email).2.ttl k = users.ttl k)
      ∧ (∀ err, (users.Set ("api_key:" ++ GenerateAPIKey random) email).1 = .error err →
          (CreateUser users now random email).1 = .error ("failed to store API key: ", err)
            ∧ (CreateUser users now random email).2 = users) := by
  by_cases hup : users.up = true
  · constructor
    · intro _
      simp [CreateUser, Redis.Set, hup]
      intro k hk
      simp [hk]
    · intro err he
      simp [Redis.Set, hup] at he
  · constructor
    · intro hok
      simp [Redis.Set, hup] at hok
    · intro err he
      simp only [Redis.Set, hup, Bool.false_eq_true, if_false] at he
      simp only [CreateUser, Redis.Set, hup, Bool.false_eq_true, if_false]
      injection he with he
      subst he
      simp

/-- C22, witness: a new account in the sample credential store; the store then
holds the generated key, and a store that cannot be reached gives an error. -/
theorem CreateUser_spec_witness :
    (CreateUser sampleUsers sampleNow sampleRandom "n@b.c").2.data
        ("api_key:" ++ GenerateAPIKey sampleRandom) = some (.str "n@b.c")
      ∧ (CreateUser downLedger sampleNow sampleRandom "n@b.c").1
        = .error ("failed to store API key: ", .conn) :=
  ⟨((CreateUser_spec sampleUsers sampleNow sampleRandom "n@b.c").1 rfl).2.1,
    ((CreateUser_spec downLedger sampleNow sampleRandom "n@b.c").2 .conn rfl).1⟩

/-- The key of a credential is never the key of an account record. -/
theorem api_key_ne_email (apiKey email : String) : "api_key:" ++ apiKey ≠ "email:" ++ email := by
  apply ne_of_take 1
  simp

/-- C26: after `CreateUser(email)` has succeeded, the store holds the mapping of
the returned key, and in every store that is reached and holds that mapping,
`ValidateAPIKey` of the returned key does not fail with `invalid API key`; when
the read of the account record succeeds too, the user it returns has `ID = Email
= email` verbatim, the key as `APIKey`, and as `Tier` the value of `GetUserTier`
on the `is_premium` and `exp_date` fields of the record as they are at the
lookup, which for the store that `CreateUser` left are those of the store before;
when the read of the record fails, the error is `user not found`. -/
theorem created_key_validates (users : Redis) (now : Time) (random : Fin 16 → Fin 256)
    (email : String) (user : User) (users2 : Redis)
    (hcreate : CreateUser users now random email = (.ok user, users2)) :
    (user.ID = email ∧ user.Email = email ∧ user.APIKey = GenerateAPIKey random)
      ∧ (users2.up = true ∧ users2.data ("api_key:" ++ user.APIKey) = some (.str email)
        ∧ users2.HGetAll ("email:" ++ email) = users.HGetAll ("email:" ++ email))
      ∧ ∀ (store : Redis) (now2 : Time), store.up = true →
          store.data ("api_key:" ++ user.APIKey) = some (.str email) →
            ValidateAPIKey store now2 user.APIKey ≠ .error "invalid API key"
              ∧ (∀ fields, store.HGetAll ("email:" ++ email) = .ok fields →
                  ValidateAPIKey store now2 user.APIKey
                    = .ok { ID := email, APIKey := user.APIKey,
                            Tier := GetUserTier now2 (mapGet fields "is_premium")
                              (mapGet fields "exp_date"),
                            Email := email, Created := now2, LastUsed := now2 })
              ∧ (∀ err, store.HGetAll ("email:" ++ email) = .error err →
                  ValidateAPIKey store now2 user.APIKey = .error "user not found") := by
  have hup : users.up = true := by
    by_contra hdown
    simp [CreateUser, Redis.Set, hdown] at hcreate
  simp only [CreateUser, Redis.Set, hup, if_true, Prod.mk.injEq, Except.ok.injEq] at hcreate
  obtain ⟨huser, hstore⟩ := hcreate
  subst huser hstore
  refine ⟨⟨rfl, rfl, rfl⟩, ⟨rfl, by simp, ?_⟩, ?_⟩
  · simp [Redis.HGetAll, hup, (api_key_ne_email (GenerateAPIKey random) email).symm]
  · intro store now2 hsup hmap
    simp only at hmap ⊢
    have hget : store.Get ("api_key:" ++ GenerateAPIKey random) = .ok email := by
      simp [Redis.Get, hsup, hmap]
    refine ⟨?_, ?_, ?_⟩
    · simp only [ValidateAPIKey, hget]
      cases store.HGetAll ("email:" ++ email) with
      | error e => simp
      | ok fields => simp
    · intro fields hf
      simp only [ValidateAPIKey, hget, hf]
    · intro err hf
      simp only [ValidateAPIKey, hget, hf]

/-- C26, witness: the account `a@b.c` of the sample store, which has no
subscription, is given a new key, and the key validates to a free user. -/
theorem created_key_validates_witness :
    ValidateAPIKey (CreateUser sampleUsers sampleNow sampleRandom "a@b.c").2 sampleNow
        (GenerateAPIKey sampleRandom)
      = .ok { ID := "a@b.c", APIKey := GenerateAPIKey sampleRandom,
              Tier := GetUserTier sampleNow (mapGet [("is_premium", "false")] "is_premium")
                (mapGet [("is_premium", "false")] "exp_date"),
              Email := "a@b.c", Created := sampleNow, LastUsed := sampleNow } :=
  ((created_key_validates sampleUsers sampleNow sampleRandom "a@b.c"
      { ID := "a@b.c", APIKey := GenerateAPIKey sampleRandom, Tier := "free", Email := "a@b.c",
        Created := sampleNow, LastUsed := sampleNow }
      (CreateUser sampleUsers sampleNow sampleRandom "a@b.c").2 rfl).2.2
    (CreateUser sampleUsers sampleNow sampleRandom "a@b.c").2 sampleNow rfl rfl).2.1
    [("is_premium", "false")] rfl

/-! ## Counter keys do not collide -/

/-- Two texts made of a key, a colon and a bucket are equal only for equal keys
and buckets, when the buckets have the same length. -/
theorem key_bucket_inj (k1 k2 b1 b2 : String) (hlen : b1.length = b2.length)
    (h : k1.data ++ ':' :: b1.data = k2.data ++ ':' :: b2.data) : k1 = k2 ∧ b1 = b2 := by
  have hl : (':' :: b1.data).length = (':' :: b2.data).length := by
    simp only [List.length_cons]
    exact congrArg (· + 1) hlen
  obtain ⟨h1, h2⟩ := List.append_inj' h hl
  simp only [List.cons.injEq, true_and] at h2
  exact ⟨String.ext h1, String.ext h2⟩

/-- A text that names an hour has ten characters. -/
theorem hourBucketStart_length (b : String) (s : Int) (h : hourBucketStart b = some s) :
    b.length = 10 := by
  unfold hourBucketStart at h
  split at h
  · rename_i heq
    have : b.length = b.toList.length := rfl
    rw [this, heq]
    rfl
  · simp at h

/-- A text that names a day has eight characters. -/
theorem dayBucketStart_length (b : String) (s : Int) (h : dayBucketStart b = some s) :
    b.length = 8 := by
  unfold dayBucketStart at h
  split at h
  · rename_i heq
    have : b.length = b.toList.length := rfl
    rw [this, heq]
    rfl
  · simp at h

/-- C30: the keys of the quota counters never collide. The hourly key of
`checkRateLimit` and `incrementUsage` is the hourly format applied to the API key
and the bucket, and the daily key likewise; for all API keys (any strings, those
with a colon included) and all bucket texts of the fixed width, 10 characters
hourly and 8 daily, equal hourly keys have equal API keys and equal buckets,
equal daily keys have equal API keys and equal buckets, and no hourly key is a
daily key; the buckets of every clock reading with a date in the years 0 to 9999
have the fixed width. -/
theorem quota_keys_never_collide :
    (∀ k1 k2 b1 b2 : String, b1.length = 10 → b2.length = 10 →
        hourlyKeyOf k1 b1 = hourlyKeyOf k2 b2 → k1 = k2 ∧ b1 = b2)
      ∧ (∀ k1 k2 b1 b2 : String, b1.length = 8 → b2.length = 8 →
        dailyKeyOf k1 b1 = dailyKeyOf k2 b2 → k1 = k2 ∧ b1 = b2)
      ∧ (∀ k1 k2 b1 b2 : String, hourlyKeyOf k1 b1 ≠ dailyKeyOf k2 b2)
      ∧ (∀ (k : String) (now : Time),
          hourKey k now = hourlyKeyOf k (formatHour now)
            ∧ dayKey k now = dailyKeyOf k (formatDay now))
      ∧ ∀ now : Time, -62167219200 ≤ now.sec + now.offset →
          now.sec + now.offset < 253402300800 →
            (formatHour now).length = 10 ∧ (formatDay now).length = 8 := by
  refine ⟨?_, ?_, ?_, ?_, ?_⟩
  · intro k1 k2 b1 b2 h1 h2 he
    have hd := congrArg String.data he
    simp only [hourlyKeyOf, String.data_append, List.append_assoc] at hd
    exact key_bucket_inj k1 k2 b1 b2 (by rw [h1, h2]) (List.append_cancel_left hd)
  · intro k1 k2 b1 b2 h1 h2 he
    have hd := congrArg String.data he
    simp only [dailyKeyOf, String.data_append, List.append_assoc] at hd
    exact key_bucket_inj k1 k2 b1 b2 (by rw [h1, h2]) (List.append_cancel_left hd)
  · intro k1 k2 b1 b2
    apply ne_of_take 12
    simp [hourlyKeyOf, dailyKeyOf]
  · intro k now
    exact ⟨rfl, rfl⟩
  · intro now hlo hhi
    exact ⟨hourBucketStart_length _ _ (hourBucketStart_formatHour now hlo hhi),
      dayBucketStart_length _ _ (dayBucketStart_formatDay now hlo hhi)⟩

/-- C30, witness: the API keys `a` and `a:2020010100` never share an hourly
key, colon or not: equal keys at the fixed width force equal API keys. -/
theorem quota_keys_never_collide_witness :
    hourlyKeyOf "a:2020010100" "2020010101" ≠ hourlyKeyOf "a" "2020010100"
      ∧ (formatHour sampleNow).length = 10 :=
  ⟨fun he => absurd (quota_keys_never_collide.1 "a:2020010100" "a" "2020010101" "2020010100"
      rfl rfl he).1 (by decide),
    (quota_keys_never_collide.2.2.2.2 sampleNow (by decide) (by decide)).1⟩

/-! ## Counters never decrease -/

/-- On a key that `INCR` cannot count on, the command changes nothing. -/
theorem incrData_not_countable (r : Redis) (key : String) (h : ¬ Countable r key) :
    incrData r.data key = r.data := by
  unfold Countable at h
  push_neg at h
  obtain ⟨hsome, hstr⟩ := h
  unfold incrData
  cases hd : r.data key with
  | none => exact absurd hd hsome
  | some v =>
    cases v with
    | hash fields => rfl
    | str s =>
      simp only
      cases hn : redisInt s with
      | none => rfl
      | some n =>
        simp only
        have := hstr s n hd hn
        rw [if_neg (not_lt.mpr this)]

/-- The pipeline pair `INCR`, `EXPIRE` lowers no count and removes no key. -/
theorem incrExpire_mono (r : Redis) (key : String) (seconds : Int) (k : String) :
    usage r k ≤ usage (incrExpire r key seconds) k
      ∧ ((r.data k).isSome = true → ((incrExpire r key seconds).data k).isSome = true) := by
  by_cases hk : k = key
  · subst hk
    by_cases hc : Countable r k
    · refine ⟨by rw [incrExpire_usage r k seconds hc]; omega, ?_⟩
      intro _
      obtain ⟨v, hv⟩ := incrExpire_holds r k seconds hc
      rw [hv]
      rfl
    · have hsame : (incrExpire r k seconds).data = r.data := incrData_not_countable r k hc
      unfold usage
      rw [hsame]
      exact ⟨le_refl _, fun h => h⟩
  · have hsame : (incrExpire r key seconds).data k = r.data k := incrExpire_other r key seconds k hk
    unfold usage
    rw [hsame]
    exact ⟨le_refl _, fun h => h⟩

/-- The method `incrementUsage` lowers no count and removes no key. -/
theorem incrementUsage_mono (rdb : Redis) (now : Time) (apiKey k : String) :
    usage rdb k ≤ usage (incrementUsage rdb now apiKey) k
      ∧ ((rdb.data k).isSome = true → ((incrementUsage rdb now apiKey).data k).isSome = true) := by
  unfold incrementUsage
  split
  · obtain ⟨a1, a2⟩ := incrExpire_mono rdb (hourKey apiKey now) 3600 k
    obtain ⟨b1, b2⟩ := incrExpire_mono (incrExpire rdb (hourKey apiKey now) 3600)
      (dayKey apiKey now) 86400 k
    exact ⟨le_trans a1 b1, fun h => b2 (a2 h)⟩
  · exact ⟨le_refl _, fun h => h⟩

/-- C23: no operation of the persistent rate limiter decreases or deletes a
stored quota counter. `checkRateLimit` only reads the ledger; for
`incrementUsage` and for the middleware, which runs `checkRateLimit` and, on
admission, `incrementUsage`, and for every key, the count the ledger holds after
the operation is greater than or equal to the count before it, a key that was
present is still present, and a request the middleware does not admit leaves the
ledger exactly as it was. -/
theorem counters_never_decrease (config : Config) (users rdb : Redis)
    (tAuth tCheck tIncr : Time) (c : Request) (now : Time) (apiKey key : String) :
    (usage rdb key ≤ usage (incrementUsage rdb now apiKey) key
        ∧ ((rdb.data key).isSome = true →
          ((incrementUsage rdb now apiKey).data key).isSome = true))
      ∧ (usage rdb key ≤ usage (Middleware config users rdb tAuth tCheck tIncr c).2 key
        ∧ ((rdb.data key).isSome = true →
          ((Middleware config users rdb tAuth tCheck tIncr c).2.data key).isSome = true))
      ∧ ((∀ info user k, (Middleware config users rdb tAuth tCheck tIncr c).1
            ≠ .admitted info user k) →
          (Middleware config users rdb tAuth tCheck tIncr c).2 = rdb) := by
  refine ⟨incrementUsage_mono rdb now apiKey key, ?_, ?_⟩
  · unfold Middleware
    simp only
    split
    · exact ⟨le_refl _, fun h => h⟩
    · split
      · exact ⟨le_refl _, fun h => h⟩
      · split
        · exact ⟨le_refl _, fun h => h⟩
        · exact incrementUsage_mono rdb tIncr (extractAPIKey c) key
  · unfold Middleware
    simp only
    split
    · intro _; rfl
    · split
      · intro _; rfl
      · split
        · intro _; rfl
        · intro h
          exact absurd rfl (h _ _ _)

/-- C23, witness: the key `sk-1` is at 9 requests in the hour; after the
middleware has admitted one more the counter is not below 9 and is still there. -/
theorem counters_never_decrease_witness :
    usage (sampleLedger "9" "50") (hourKey "sk-1" sampleNow)
        ≤ usage (Middleware sampleConfig sampleUsers (sampleLedger "9" "50") sampleNow sampleNow
            sampleNow sampleRequest).2 (hourKey "sk-1" sampleNow)
      ∧ ((Middleware sampleConfig sampleUsers (sampleLedger "9" "50") sampleNow sampleNow
            sampleNow sampleRequest).2.data (hourKey "sk-1" sampleNow)).isSome = true :=
  ⟨(counters_never_decrease sampleConfig sampleUsers (sampleLedger "9" "50") sampleNow sampleNow
      sampleNow sampleRequest sampleNow "sk-1" (hourKey "sk-1" sampleNow)).2.1.1,
    (counters_never_decrease sampleConfig sampleUsers (sampleLedger "9" "50") sampleNow sampleNow
      sampleNow sampleRequest sampleNow "sk-1" (hourKey "sk-1" sampleNow)).2.1.2 (by decide)⟩

/-! ## The token bucket of a user and tier -/

/-- One token in units. -/
theorem tokenUnit_eq : tokenUnit = 3600000000000 := by
  norm_num [tokenUnit]

/-- A call of `Allow` at the instant the bucket was last used: it takes a token
when the bucket holds one and leaves the bucket as it is otherwise. -/
theorem RateLimiter.Allow_same_instant (rl : RateLimiter) (now : Time) (userID tier : String)
    (r t : Int)
    (hb : rl.limiters (limiterKey userID tier)
      = some { perHour := r, burst := 10, tokens := t, last := now.nanos })
    (ht : t ≤ 10 * tokenUnit) :
    (tokenUnit ≤ t →
        (rl.Allow now userID tier).1 = true
          ∧ (rl.Allow now userID tier).2.limiters (limiterKey userID tier)
            = some { perHour := r, burst := 10, tokens := t - tokenUnit, last := now.nanos })
      ∧ (t < tokenUnit →
        (rl.Allow now userID tier).1 = false
          ∧ (rl.Allow now userID tier).2.limiters (limiterKey userID tier)
            = some { perHour := r, burst := 10, tokens := t, last := now.nanos }) := by
  have hadv : Limiter.advance { perHour := r, burst := 10, tokens := t, last := now.nanos }
      now.nanos = t := by
    simp only [Limiter.advance, min_self, sub_self, zero_mul, add_zero]
    exact min_eq_right ht
  constructor
  · intro hle
    simp [RateLimiter.Allow, hb, Limiter.Allow, hadv, hle]
  · intro hlt
    have hn : ¬ tokenUnit ≤ t := not_le.mpr hlt
    simp [RateLimiter.Allow, hb, Limiter.Allow, hadv, hn]

/-- Starting from a fresh bucket, each of the first ten calls of `Allow` at one
instant is admitted, and after `j + 1` of them the bucket holds `9 - j` tokens. -/
theorem allowTimes_fresh (rl : RateLimiter) (now : Time) (userID tier : String)
    (hfresh : rl.limiters (limiterKey userID tier) = none) (j : Nat) (hj : j ≤ 9) :
    (allowTimes rl now userID tier (j + 1)).1 = List.replicate (j + 1) true
      ∧ (allowTimes rl now userID tier (j + 1)).2.limiters (limiterKey userID tier)
        = some { perHour := tierPerHour tier, burst := 10,
                 tokens := (9 - (j : Int)) * tokenUnit, last := now.nanos } := by
  induction j with
  | zero =>
    obtain ⟨h1, h2, -⟩ := RateLimiter.Allow_fresh rl now userID tier hfresh
    simp only [allowTimes, h1, h2, List.nil_append, List.replicate_one, zero_add,
      Nat.cast_zero, sub_zero, and_self]
  | succ j ih =>
    obtain ⟨ih1, ih2⟩ := ih (by omega)
    have hU := tokenUnit_eq
    obtain ⟨hadm, -⟩ := RateLimiter.Allow_same_instant
      (allowTimes rl now userID tier (j + 1)).2 now userID tier (tierPerHour tier)
      ((9 - (j : Int)) * tokenUnit) ih2 (by rw [hU]; omega)
    obtain ⟨a1, a2⟩ := hadm (by rw [hU]; omega)
    have hrep : List.replicate (j + 1 + 1) true = List.replicate (j + 1) true ++ [true] := by
      rw [List.replicate_succ' (j + 1)]
    refine ⟨?_, ?_⟩
    · rw [hrep, ← ih1, ← a1]
      rfl
    · show ((allowTimes rl now userID tier (j + 1)).2.Allow now userID tier).2.limiters
        (limiterKey userID tier) = _
      rw [a2]
      congr 2
      push_cast
      ring

/-- C24: for every user and tier, the first `Allow` call creates a token bucket
with burst capacity 10 and refill rate `r / 3600` tokens per second, where `r` is
10 for `free`, 100 for `premium`, 1000 for `pro` and 5 for any other tier: the
bucket is created full, and what a bucket gains in `s` seconds, below its
capacity, is `s * r / 3600` tokens. Starting from a fresh bucket, 10 `Allow`
calls made at the same instant return true and the 11th returns false. -/
theorem first_allow_bucket (rl : RateLimiter) (now : Time) (userID tier : String)
    (hfresh : rl.limiters (limiterKey userID tier) = none) :
    (bucketOf rl now userID tier
        = { perHour := tierPerHour tier, burst := 10, tokens := 10 * tokenUnit,
            last := now.nanos }
      ∧ (rl.Allow now userID tier).2.limiters (limiterKey userID tier)
        = some { perHour := tierPerHour tier, burst := 10, tokens := 9 * tokenUnit,
                 last := now.nanos })
      ∧ (tierPerHour "free" = 10 ∧ tierPerHour "premium" = 100 ∧ tierPerHour "pro" = 1000
        ∧ ∀ other, other ≠ "free" → other ≠ "premium" → other ≠ "pro" → tierPerHour other = 5)
      ∧ (∀ (lim : Limiter) (s : Int), 0 ≤ s →
          lim.tokens + s * 10 ^ 9 * lim.perHour ≤ lim.burst * tokenUnit →
            3600 * (lim.advance (lim.last + s * 10 ^ 9) - lim.tokens)
              = s * lim.perHour * tokenUnit)
      ∧ (allowTimes rl now userID tier 11).1 = List.replicate 10 true ++ [false] := by
  refine ⟨⟨?_, (RateLimiter.Allow_fresh rl now userID tier hfresh).2.1⟩, ⟨rfl, rfl, rfl, ?_⟩,
    ?_, ?_⟩
  · simp [bucketOf, hfresh, NewLimiter]
  · intro other h1 h2 h3
    simp [tierPerHour, h1, h2, h3]
  · intro lim s hs hcap
    have hU := tokenUnit_eq
    have hmin : min lim.last (lim.last + s * 10 ^ 9) = lim.last := by
      apply min_eq_left
      nlinarith
    simp only [Limiter.advance, hmin, add_sub_cancel_left]
    rw [min_eq_right hcap]
    rw [hU]
    ring
  · obtain ⟨h1, h2⟩ := allowTimes_fresh rl now userID tier hfresh 9 (le_refl 9)
    have hU := tokenUnit_eq
    obtain ⟨-, hrej⟩ := RateLimiter.Allow_same_instant
      (allowTimes rl now userID tier 10).2 now userID tier (tierPerHour tier)
      ((9 - ((9 : Nat) : Int)) * tokenUnit) h2 (by rw [hU]; norm_num)
    obtain ⟨r1, -⟩ := hrej (by rw [hU]; norm_num)
    show (allowTimes rl now userID tier 10).1
      ++ [((allowTimes rl now userID tier 10).2.Allow now userID tier).1] = _
    rw [h1, r1]

/-- C24, witness: the anonymous free caller, new to the rate limiter, makes 11
calls at `sampleNow`; ten are admitted and the last is rejected. -/
theorem first_allow_bucket_witness :
    (allowTimes NewRateLimiter sampleNow "anonymous" "free" 11).1
      = [true, true, true, true, true, true, true, true, true, true, false] :=
  (first_allow_bucket NewRateLimiter sampleNow "anonymous" "free" rfl).2.2.2

/-! ## Concurrent increments -/



/-- The first digit of the decimal text of a positive number is not `0`. -/
theorem decimalAux_head (fuel : Nat) :
    ∀ (n : Nat) (acc : List Char), 0 < n → n < 10 ^ fuel →
      (decimalAux fuel n acc).head? ≠ some '0' := by
  induction fuel with
  | zero =>
    intro n acc h0 hn
    simp at hn
    omega
  | succ k ih =>
    intro n acc h0 hn
    unfold decimalAux
    by_cases h10 : n < 10
    · rw [if_pos h10]
      have key : ∀ r, r < 10 → 0 < r → digitChar r ≠ '0' := by decide
      simp only [List.head?_cons, ne_eq, Option.some.injEq]
      exact key n h10 h0
    · rw [if_neg h10]
      apply ih
      · omega
      · rw [Nat.div_lt_iff_lt_mul (by decide)]
        rw [pow_succ] at hn
        exact hn

/-- The decimal text of a positive number does not start with `0`. -/
theorem decimal_head (n : Nat) (h0 : 0 < n) : (decimal n).head? ≠ some '0' := by
  have hlt : n < 10 ^ (n + 1) := by
    calc n < 2 ^ n := Nat.lt_two_pow n
      _ ≤ 10 ^ n := Nat.pow_le_pow_left (by decide) n
      _ ≤ 10 ^ (n + 1) := Nat.pow_le_pow_right (by decide) (Nat.le_succ n)
  exact decimalAux_head (n + 1) n [] h0 hlt

/-- Redis reads the decimal text of every 64-bit integer as that integer. -/
theorem redisInt_itoa (m : Int) (hlo : -(2 ^ 63) ≤ m) (hhi : m < 2 ^ 63) :
    redisInt (itoa m) = some m := by
  show redisIntChars (itoaChars m) = some m
  by_cases hz : m = 0
  · subst hz
    decide
  · obtain ⟨hne, hall, hval⟩ := decimal_spec m.natAbs
    have hhead := decimal_head m.natAbs (by omega)
    have hemp : (decimal m.natAbs).isEmpty = false := by
      cases hd : decimal m.natAbs with
      | nil => exact absurd hd hne
      | cons c rest => rfl
    unfold itoaChars redisIntChars
    by_cases hneg : m < 0
    · have hgt : ¬ m.natAbs > 2 ^ 63 := by omega
      simp only [if_pos hneg, List.singleton_append, List.head?_cons, decide_True, if_true,
        List.tail_cons, hemp, hall, Bool.not_true, Bool.or_self, Bool.false_eq_true, if_false,
        hhead, hgt, hval, Option.some.injEq]
      omega
    · have hm := (digits_head _ hne hall).1
      have hd : decide ((decimal m.natAbs).head? = some '-') = false := decide_eq_false hm
      have hge : ¬ m.natAbs ≥ 2 ^ 63 := by omega
      simp only [if_neg hneg, List.nil_append, hd, Bool.false_eq_true, if_false, hemp, hall,
        Bool.not_true, Bool.or_self, hhead, hge, hval, Option.some.injEq]
      omega

/-- A counter with room for one more increment can be counted on. -/
theorem Room.countable (r : Redis) (key : String) (n : Nat) (h : Room r key (n + 1)) :
    Countable r key := by
  rcases h with ⟨hnone, -⟩ | ⟨s, v, hs, hv, hlt⟩
  · exact Or.inl hnone
  · refine Or.inr ⟨s, v, hs, hv, ?_⟩
    push_cast at hlt
    omega

/-- The count and the room of a key depend on what the key holds only. -/
theorem Room.of_data (r r2 : Redis) (key : String) (n : Nat) (hd : r2.data key = r.data key)
    (h : Room r key n) : Room r2 key n := by
  unfold Room at h ⊢
  rw [hd]
  exact h

/-- An `INCR` of a counter with room raises its count by one and leaves room for
one increment less. -/
theorem Command.run_incr (r : Redis) (key : String) (n : Nat) (h : Room r key (n + 1)) :
    usage ((Command.incr key).run r) key = usage r key + 1
      ∧ Room ((Command.incr key).run r) key n := by
  constructor
  · exact incrExpire_usage r key 0 (Room.countable r key n h)
  · rcases h with ⟨hnone, hlt⟩ | ⟨s, v, hs, hv, hlt⟩
    · refine Or.inr ⟨"1", 1, ?_, by decide, ?_⟩
      · simp [Command.run, incrData, hnone]
      · push_cast at hlt
        omega
    · push_cast at hlt
      have hrange := redisIntChars_range s.toList v hv
      have hlt2 : v < 9223372036854775807 := by omega
      refine Or.inr ⟨itoa (v + 1), v + 1, ?_, redisInt_itoa (v + 1) (by omega) (by omega), ?_⟩
      · simp [Command.run, incrData, hs, hv, hlt2]
      · omega

/-- A command other than the `INCR` of a key leaves what the key holds. -/
theorem Command.run_other (r : Redis) (c : Command) (key : String) (hc : c ≠ .incr key) :
    (c.run r).data key = r.data key := by
  cases c with
  | incr k =>
    have hk : key ≠ k := by
      intro e
      exact hc (by rw [e])
    exact incrData_other r.data k key hk
  | expire k seconds => rfl

/-- Taking the next command of a request off the pending ones lowers the number
of pending increments of a key by one exactly when the command is its `INCR`. -/
theorem pendingIncrs_set (key : String) (c : Command) (cs : List Command) :
    ∀ (pending : List (List Command)) (i : Nat), pending.getD i [] = c :: cs →
      pendingIncrs key pending
        = pendingIncrs key (pending.set i cs) + (if c = .incr key then 1 else 0) := by
  intro pending
  induction pending with
  | nil =>
    intro i h
    simp at h
  | cons p rest ih =>
    intro i h
    cases i with
    | zero =>
      simp only [List.getD_cons_zero] at h
      subst h
      simp only [pendingIncrs, List.set_cons_zero, List.map_cons, List.sum_cons,
        List.count_cons, beq_iff_eq]
      omega
    | succ j =>
      simp only [List.getD_cons_succ] at h
      have := ih j h
      simp only [pendingIncrs, List.set_cons_succ, List.map_cons, List.sum_cons] at this ⊢
      omega

/-- When nothing is pending, no increment is. -/
theorem pendingIncrs_done (key : String) (pending : List (List Command))
    (h : pending.all List.isEmpty = true) : pendingIncrs key pending = 0 := by
  induction pending with
  | nil => rfl
  | cons p rest ih =>
    simp only [List.all_cons, Bool.and_eq_true, List.isEmpty_iff] at h
    obtain ⟨hp, hrest⟩ := h
    subst hp
    have := ih hrest
    simp only [pendingIncrs, List.map_cons, List.count_nil, List.sum_cons, zero_add] at this ⊢
    exact this

/-- Under every schedule that lets all requests finish, a counter with room for
the pending increments ends at its count plus their number. -/
theorem runSchedule_usage (key : String) :
    ∀ (schedule : List Nat) (r : Redis) (pending : List (List Command)),
      Room r key (pendingIncrs key pending) →
      (runSchedule r pending schedule).2.all List.isEmpty = true →
        usage (runSchedule r pending schedule).1 key
          = usage r key + (pendingIncrs key pending : Int) := by
  intro schedule
  induction schedule with
  | nil =>
    intro r pending _ hdone
    simp only [runSchedule] at hdone ⊢
    rw [pendingIncrs_done key pending hdone]
    simp
  | cons i rest ih =>
    intro r pending hroom hdone
    unfold runSchedule at hdone ⊢
    cases hget : pending.getD i [] with
    | nil =>
      simp only [hget] at hdone ⊢
      exact ih r pending hroom hdone
    | cons c cs =>
      simp only [hget] at hdone ⊢
      have hcount := pendingIncrs_set key c cs pending i hget
      by_cases hc : c = .incr key
      · subst hc
        simp only [if_true] at hcount
        rw [hcount] at hroom
        obtain ⟨hu, hr⟩ := Command.run_incr r key _ hroom
        rw [ih _ _ hr hdone, hu, hcount]
        push_cast
        ring
      · simp only [hc, if_false, add_zero] at hcount
        have hd := Command.run_other r c key hc
        have hr : Room (c.run r) key (pendingIncrs key (pending.set i cs)) :=
          Room.of_data r (c.run r) key _ hd (by rw [← hcount]; exact hroom)
        rw [ih _ _ hr hdone, hcount]
        unfold usage
        rw [hd]

/-- The pipelines of requests in one window hold one `INCR` of the hourly key
and one of the daily key each. -/
theorem pendingIncrs_pipelines (apiKey : String) (now : Time) (nows : List Time)
    (hwindow : ∀ t ∈ nows,
      hourKey apiKey t = hourKey apiKey now ∧ dayKey apiKey t = dayKey apiKey now) :
    pendingIncrs (hourKey apiKey now) (nows.map (usagePipeline apiKey)) = nows.length
      ∧ pendingIncrs (dayKey apiKey now) (nows.map (usagePipeline apiKey)) = nows.length := by
  induction nows with
  | nil => exact ⟨rfl, rfl⟩
  | cons t rest ih =>
    obtain ⟨ih1, ih2⟩ := ih (fun u hu => hwindow u (List.mem_cons_of_mem t hu))
    obtain ⟨h1, h2⟩ := hwindow t (List.mem_cons_self t rest)
    have hne := hourKey_ne_dayKey apiKey apiKey now now
    simp only [pendingIncrs, List.map_cons, List.sum_cons, List.length_cons] at ih1 ih2 ⊢
    rw [ih1, ih2]
    simp only [usagePipeline, h1, h2, List.count_cons, List.count_nil, beq_iff_eq,
      Command.incr.injEq, reduceCtorEq, if_true, if_false, hne, hne.symm]
    omega

/-- Run alone, the pipeline of a request is `incrementUsage`. -/
theorem incrementUsage_eq_runSchedule (rdb : Redis) (now : Time) (apiKey : String)
    (hup : rdb.up = true) :
    incrementUsage rdb now apiKey
      = (runSchedule rdb [usagePipeline apiKey now] [0, 0, 0, 0]).1 := by
  simp only [incrementUsage, hup, if_true]
  rfl

/-- C25: the requests admitted concurrently for one API key in one window each
send the pipeline of `incrementUsage`, and the server executes the commands of
these pipelines one at a time, interleaved in any order that keeps the order
within each pipeline. Under every such schedule that lets all `N` requests
finish, the hourly counter and the daily counter of the key, when they have room
for `N` increments (absent, or an integer that stays within the 64-bit range),
end at exactly their previous value plus `N`: no increment is lost. Run alone,
the pipeline does what `incrementUsage` does. -/
theorem concurrent_increments (rdb : Redis) (apiKey : String) (now : Time) (nows : List Time)
    (schedule : List Nat)
    (hwindow : ∀ t ∈ nows,
      hourKey apiKey t = hourKey apiKey now ∧ dayKey apiKey t = dayKey apiKey now)
    (hroomHour : Room rdb (hourKey apiKey now) nows.length)
    (hroomDay : Room rdb (dayKey apiKey now) nows.length)
    (hdone : (runSchedule rdb (nows.map (usagePipeline apiKey)) schedule).2.all List.isEmpty
      = true) :
    usage (runSchedule rdb (nows.map (usagePipeline apiKey)) schedule).1 (hourKey apiKey now)
        = usage rdb (hourKey apiKey now) + (nows.length : Int)
      ∧ usage (runSchedule rdb (nows.map (usagePipeline apiKey)) schedule).1 (dayKey apiKey now)
        = usage rdb (dayKey apiKey now) + (nows.length : Int)
      ∧ ∀ t, rdb.up = true →
          incrementUsage rdb t apiKey
            = (runSchedule rdb [usagePipeline apiKey t] [0, 0, 0, 0]).1 := by
  obtain ⟨hc1, hc2⟩ := pendingIncrs_pipelines apiKey now nows hwindow
  refine ⟨?_, ?_, fun t hup => incrementUsage_eq_runSchedule rdb t apiKey hup⟩
  · have h := runSchedule_usage (hourKey apiKey now) schedule rdb
      (nows.map (usagePipeline apiKey)) (by rw [hc1]; exact hroomHour) hdone
    rw [h, hc1]
  · have h := runSchedule_usage (dayKey apiKey now) schedule rdb
      (nows.map (usagePipeline apiKey)) (by rw [hc2]; exact hroomDay) hdone
    rw [h, hc2]

/-- C25, witness: two requests of the key `sk-1` at `sampleNow`, with the hourly
counter at 9, whose eight commands the server executes in the order first,
second, second, first, second, first, first, second; the counter ends at 11. -/
theorem concurrent_increments_witness :
    usage (runSchedule (sampleLedger "9" "50")
        ([sampleNow, sampleNow].map (usagePipeline "sk-1")) [0, 1, 1, 0, 1, 0, 0, 1]).1
        (hourKey "sk-1" sampleNow)
      = usage (sampleLedger "9" "50") (hourKey "sk-1" sampleNow)
        + (([sampleNow, sampleNow] : List Time).length : Int) :=
  (concurrent_increments (sampleLedger "9" "50") "sk-1" sampleNow [sampleNow, sampleNow]
    [0, 1, 1, 0, 1, 0, 0, 1]
    (by
      intro t ht
      simp only [List.mem_cons, List.mem_singleton, List.not_mem_nil, or_false, or_self] at ht
      rw [ht]
      exact ⟨rfl, rfl⟩)
    (Or.inr ⟨"9", 9, by decide, by decide, by decide⟩)
    (Or.inr ⟨"50", 50, by decide, by decide, by decide⟩)
    (by decide)).1

/-! ## Requests that the argument checks stop, ledgers that cannot count, and
buckets of the local clock -/

/-- C7, refuted as stated: the anonymous caller has no token left and the free
tier of the sample configuration is not permitted `get_company_filings`, so the
caller is both over quota and not permitted the tool. A request without ticker
receives the argument error, and one with a ticker that the provider does not
resolve receives the not-found error after the lookup: neither is the rate-limit
error. -/
theorem over_quota_argument_error :
    validateAndGetUser sampleUsers sampleNow "" = .ok anonymousUser
      ∧ (spentLimiter.Allow sampleNow "anonymous" "free").1 = false
      ∧ hasToolAccess sampleConfig anonymousUser "get_company_filings" = false
      ∧ (handleToolCall (sampleHandler spentLimiter) sampleNow
          ⟨"get_company_filings", []⟩).result
        = .error "Error: 'ticker' parameter is required"
      ∧ (handleToolCall (sampleHandler spentLimiter) sampleNow
          ⟨"get_company_filings", []⟩).result ≠ rateLimitError
      ∧ (handleToolCall (sampleHandler spentLimiter) sampleNow
          ⟨"get_company_filings", [("ticker", .str "ZZZZ")]⟩).result
        = .error "Company 'ZZZZ' not found"
      ∧ (handleToolCall (sampleHandler spentLimiter) sampleNow
          ⟨"get_company_filings", [("ticker", .str "ZZZZ")]⟩).calls
        = [.GetCIKByTicker "ZZZZ"]
      ∧ (handleToolCall (sampleHandler spentLimiter) sampleNow
          ⟨"get_company_filings", [("ticker", .str "ZZZZ")]⟩).result ≠ rateLimitError := by
  have h1 : (handleToolCall (sampleHandler spentLimiter) sampleNow
      ⟨"get_company_filings", []⟩).result
      = .error "Error: 'ticker' parameter is required" := rfl
  have h2 : (handleToolCall (sampleHandler spentLimiter) sampleNow
      ⟨"get_company_filings", [("ticker", .str "ZZZZ")]⟩).result
      = .error "Company 'ZZZZ' not found" := rfl
  refine ⟨rfl, by decide, by decide, h1, ?_, h2, by decide, ?_⟩
  · rw [h1]
    exact error_ne_of_take 1 _ _ (by decide)
  · rw [h2]
    exact error_ne_of_take 1 _ _ (by decide)

/-- C8, refuted as stated: the key `sk-1` is valid and `checkRateLimit` admits,
yet the counters are not raised by 1. With a ledger that cannot be reached the
read fails open and `incrementUsage` counts nothing; with an hourly counter that
holds no integer the usage reads 0, `INCR` fails, and the counter is left as it
was while the daily one is raised. -/
theorem admitted_without_count :
    ValidateAPIKey sampleUsers sampleNow (extractAPIKey sampleRequest) = .ok sampleUser
      ∧ (checkRateLimit sampleConfig downLedger sampleNow "sk-1" "free").2 = true
      ∧ (Middleware sampleConfig sampleUsers downLedger sampleNow sampleNow sampleNow
          sampleRequest).1
        = .admitted (checkRateLimit sampleConfig downLedger sampleNow "sk-1" "free").1
            sampleUser "sk-1"
      ∧ usage (Middleware sampleConfig sampleUsers downLedger sampleNow sampleNow sampleNow
          sampleRequest).2 (hourKey "sk-1" sampleNow)
        = usage downLedger (hourKey "sk-1" sampleNow)
      ∧ usage (Middleware sampleConfig sampleUsers downLedger sampleNow sampleNow sampleNow
          sampleRequest).2 (dayKey "sk-1" sampleNow)
        = usage downLedger (dayKey "sk-1" sampleNow)
      ∧ (checkRateLimit sampleConfig (sampleLedger "x" "50") sampleNow "sk-1" "free").2 = true
      ∧ usage (Middleware sampleConfig sampleUsers (sampleLedger "x" "50") sampleNow sampleNow
          sampleNow sampleRequest).2 (hourKey "sk-1" sampleNow)
        = usage (sampleLedger "x" "50") (hourKey "sk-1" sampleNow)
      ∧ usage (Middleware sampleConfig sampleUsers (sampleLedger "x" "50") sampleNow sampleNow
          sampleNow sampleRequest).2 (dayKey "sk-1" sampleNow)
        = usage (sampleLedger "x" "50") (dayKey "sk-1" sampleNow) + 1 := by
  refine ⟨rfl, by decide, by decide, by decide, by decide, by decide, by decide, by decide⟩

/-- C13, amended: for every API key that is present in the credential store,
when the backing account record cannot be read, that is the `HGETALL` call
fails, `ValidateAPIKey` returns no user and the error `user not found`; when the
record is missing, `HGETALL` answers with an empty hash and `ValidateAPIKey`
returns the user of the stored email with the tier `free`. -/
theorem ValidateAPIKey_record (users : Redis) (now : Time) (apiKey email : String)
    (hkey : users.Get ("api_key:" ++ apiKey) = .ok email) :
    (∀ err, users.HGetAll ("email:" ++ email) = .error err →
        ValidateAPIKey users now apiKey = .error "user not found")
      ∧ (users.data ("email:" ++ email) = none →
        users.HGetAll ("email:" ++ email) = .ok []
          ∧ ValidateAPIKey users now apiKey
            = .ok { ID := email, APIKey := apiKey, Tier := "free", Email := email,
                    Created := now, LastUsed := now }) := by
  have hup : users.up = true := by
    by_contra hdown
    simp [Redis.Get, hdown] at hkey
  constructor
  · intro err herr
    simp only [ValidateAPIKey, hkey, herr]
  · intro hnone
    have hall : users.HGetAll ("email:" ++ email) = .ok [] := by
      simp [Redis.HGetAll, hup, hnone]
    refine ⟨hall, ?_⟩
    simp only [ValidateAPIKey, hkey, hall]
    rfl

/-- C13, witness of the amended claim: the record of `a@b.c` holds a string and
cannot be read as a hash, and the error is `user not found`; with the record
missing the key resolves to a free user. -/
theorem ValidateAPIKey_record_witness :
    ValidateAPIKey unreadableUsers sampleNow "sk-1" = .error "user not found"
      ∧ ValidateAPIKey orphanUsers sampleNow "sk-1"
        = .ok { ID := "a@b.c", APIKey := "sk-1", Tier := "free", Email := "a@b.c",
                Created := sampleNow, LastUsed := sampleNow } :=
  ⟨(ValidateAPIKey_record unreadableUsers sampleNow "sk-1" "a@b.c" rfl).1
      (.reply "WRONGTYPE") rfl,
    ((ValidateAPIKey_record orphanUsers sampleNow "sk-1" "a@b.c" rfl).2 rfl).2⟩

/-- C20, the code at the failing input: the process runs five and a half hours
east of UTC. At 00:00:00 UTC of 1 January 2020 the hourly key of `sk-1` carries
the local hour `2020010105`, where the hour in UTC is `2020010100`, and
`checkRateLimit` reports the reset at 01:00:00 UTC; at 00:30:00 UTC, before that
reset, the key already carries `2020010106`. At 18:00:00 UTC the daily key
carries `20200101` and the reset is reported for 00:00:00 UTC of 2 January; at
18:30:00 UTC, before that reset, the key already carries `20200102`. -/
theorem keys_roll_over_before_reset :
    hourKey "sk-1" (eastReading 1577836800) = "rate_limit:hourly:sk-1:2020010105"
      ∧ formatHour { eastReading 1577836800 with offset := 0 } = "2020010100"
      ∧ (checkRateLimit sampleConfig freshLedger (eastReading 1577836800) "sk-1"
          "free").1.ResetHour = 1577840400
      ∧ (eastReading 1577838600).sec < 1577840400
      ∧ hourKey "sk-1" (eastReading 1577838600) = "rate_limit:hourly:sk-1:2020010106"
      ∧ dayKey "sk-1" (eastReading 1577901600) = "rate_limit:daily:sk-1:20200101"
      ∧ (checkRateLimit sampleConfig freshLedger (eastReading 1577901600) "sk-1"
          "free").1.ResetDay = 1577923200
      ∧ (eastReading 1577903400).sec < 1577923200
      ∧ dayKey "sk-1" (eastReading 1577903400) = "rate_limit:daily:sk-1:20200102"
      ∧ formatDay { eastReading 1577903400 with offset := 0 } = "20200101" := by
  refine ⟨by decide, by decide, by decide, by decide, by decide, by decide, by decide,
    by decide, by decide, by decide⟩

end ShareSeer
